import Mathlib

/-!
# WPO Analyzer: layout simulation, viewport and render projection

A shallow embedding of `src/App.jsx` (React component `WPOAnalyzer`, the `Node`
component and the physics effect) together with theorems about it.

Numbers.  JavaScript numbers are modelled exactly: a finite number is an element
of a linearly ordered field `α` (rounding and overflow are not modelled), the three
non-finite values are kept as separate constructors of `JSNum`.  Quantities that the
program only ever combines with `+`, `*`, division by a non-zero constant, `min` and
`max` of finite operands (sizes, random draws, pointer coordinates, the viewport)
live in `α` directly; quantities that go through `Math.log`, `Math.sqrt` or a division
by a computed distance (radius, position, velocity) are `JSNum α`.

`Math.sqrt`, `Math.log` and the stream of `Math.random()` results are parameters of
the definitions that use them; the theorems instantiate them with `Real.sqrt` and
`Real.log`.
-/

namespace WPO

/-! ## JavaScript numbers -/

/-- A JavaScript number: a finite value, `Infinity`, `-Infinity` or `NaN`. -/
inductive JSNum (α : Type) where
  | fin (v : α)
  | posInf
  | negInf
  | nan
  deriving DecidableEq, Repr

namespace JSNum

variable {α : Type} [LinearOrderedField α]

/-- Unary minus. -/
def neg : JSNum α → JSNum α
  | fin a => fin (-a)
  | posInf => negInf
  | negInf => posInf
  | nan => nan

/-- The `+` of two numbers; `Infinity + -Infinity` is `NaN`. -/
def add : JSNum α → JSNum α → JSNum α
  | fin a, fin b => fin (a + b)
  | fin _, posInf => posInf
  | fin _, negInf => negInf
  | posInf, fin _ => posInf
  | posInf, posInf => posInf
  | negInf, fin _ => negInf
  | negInf, negInf => negInf
  | _, _ => nan

/-- The binary `-`. -/
def sub (a b : JSNum α) : JSNum α := add a (neg b)

/-- Sign rule for an infinity times a finite factor: `0 * Infinity` is `NaN`. -/
def scaleInf (positive : Bool) (a : α) : JSNum α :=
  if 0 < a then (if positive then posInf else negInf)
  else if a < 0 then (if positive then negInf else posInf)
  else nan

/-- The `*` of two numbers. -/
def mul : JSNum α → JSNum α → JSNum α
  | fin a, fin b => fin (a * b)
  | fin a, posInf => scaleInf true a
  | fin a, negInf => scaleInf false a
  | posInf, fin b => scaleInf true b
  | negInf, fin b => scaleInf false b
  | posInf, posInf => posInf
  | posInf, negInf => negInf
  | negInf, posInf => negInf
  | negInf, negInf => posInf
  | _, _ => nan

/-- The `/` of two numbers: `0 / 0` is `NaN`, a non-zero number over zero is an
infinity of the sign of the numerator (the zero divisors of this program are results
of `Math.sqrt`, hence `+0`), a finite number over an infinity is zero. -/
def div : JSNum α → JSNum α → JSNum α
  | fin a, fin b => if b = 0 then scaleInf true a else fin (a / b)
  | fin _, posInf => fin 0
  | fin _, negInf => fin 0
  | posInf, fin b => if b < 0 then negInf else posInf
  | negInf, fin b => if b < 0 then posInf else negInf
  | _, _ => nan

/-- The comparison `a < b`; every comparison with `NaN` is false. -/
def lt : JSNum α → JSNum α → Bool
  | fin a, fin b => decide (a < b)
  | fin _, posInf => true
  | negInf, fin _ => true
  | negInf, posInf => true
  | _, _ => false

/-- The comparison `a > b`. -/
def gt (a b : JSNum α) : Bool := lt b a

/-- `Math.max(a, b)`: `NaN` as soon as one argument is `NaN`. -/
def max : JSNum α → JSNum α → JSNum α
  | fin a, fin b => fin (Max.max a b)
  | nan, _ => nan
  | _, nan => nan
  | posInf, _ => posInf
  | _, posInf => posInf
  | negInf, b => b
  | a, negInf => a

/-- `Math.min(a, b)`: `NaN` as soon as one argument is `NaN`. -/
def min : JSNum α → JSNum α → JSNum α
  | fin a, fin b => fin (Min.min a b)
  | nan, _ => nan
  | _, nan => nan
  | negInf, _ => negInf
  | _, negInf => negInf
  | posInf, b => b
  | a, posInf => a

/-- `Math.sqrt(a)` for a given square root on the finite numbers: `NaN` below zero. -/
def sqrt (f : α → α) : JSNum α → JSNum α
  | fin a => if a < 0 then nan else fin (f a)
  | posInf => posInf
  | _ => nan

/-- `Math.log(a)` for a given logarithm on the finite numbers: `NaN` below zero,
`-Infinity` at zero. -/
def log (f : α → α) : JSNum α → JSNum α
  | fin a => if a < 0 then nan else if a = 0 then negInf else fin (f a)
  | posInf => posInf
  | _ => nan

/-- Truthiness of a number: `0` and `NaN` are falsy. -/
def truthy : JSNum α → Bool
  | fin a => decide (a ≠ 0)
  | nan => false
  | _ => true

/-- The expression `a || b` on numbers. -/
def orElse (a b : JSNum α) : JSNum α := if truthy a then a else b

/-- The number is finite. -/
def isFinite : JSNum α → Bool
  | fin _ => true
  | _ => false

instance : Add (JSNum α) := ⟨add⟩
instance : Sub (JSNum α) := ⟨sub⟩
instance : Mul (JSNum α) := ⟨mul⟩
instance : Div (JSNum α) := ⟨div⟩

end JSNum

/-! ## Viewport transform (`transform`, lines 472 and 481-500) -/

/-- The React state `transform`: pan offset `x`, `y` and zoom scale `k`. -/
structure Transform (α : Type) where
  x : α
  y : α
  k : α
  deriving DecidableEq, Repr

section Viewport

variable {α : Type} [LinearOrderedField α]

/-- Initial value of the `transform` state, `useState({ x: 0, y: 0, k: 1 })`. -/
def initialTransform : Transform α := { x := 0, y := 0, k := 1 }

/-- `handleWheel`: `transform` is the state the handler closed over, `prev` the state
the functional update receives, `deltaY` the wheel delta of the event. -/
def handleWheel (transform : Transform α) (deltaY : α) (prev : Transform α) : Transform α :=
  let scaleSensitivity : α := 0.001
  let delta := -deltaY * scaleSensitivity
  let newScale := min (max 0.1 (transform.k + delta)) 4
  { prev with k := newScale }

/-- `zoomIn`. -/
def zoomIn (prev : Transform α) : Transform α := { prev with k := min (prev.k * 1.2) 4 }

/-- `zoomOut`. -/
def zoomOut (prev : Transform α) : Transform α := { prev with k := max (prev.k / 1.2) 0.1 }

/-- `fitToScreen`. -/
def fitToScreen (_prev : Transform α) : Transform α := { x := 0, y := 0, k := 1 }

/-- The zoom commands of the claim: a wheel event with its `deltaY`, the two zoom
buttons and the fit button. -/
inductive ZoomCommand (α : Type) where
  | wheel (deltaY : α)
  | zoomIn
  | zoomOut
  | fitToScreen
  deriving DecidableEq, Repr

/-- One command applied to the current viewport; each event is handled after the
render that followed the previous one, so the wheel handler closes over the current
state. -/
def applyZoom (t : Transform α) : ZoomCommand α → Transform α
  | .wheel deltaY => handleWheel t deltaY t
  | .zoomIn => zoomIn t
  | .zoomOut => zoomOut t
  | .fitToScreen => fitToScreen t

/-- A finite sequence of commands applied from left to right. -/
def runZoom (t : Transform α) (cmds : List (ZoomCommand α)) : Transform α :=
  cmds.foldl applyZoom t

end Viewport

/-! ## Resource records and the node store (lines 505-516) -/

/-- One record of the dataset `data`.  The fields `name`, `transferSize`, `protocol`
and `compression` are carried along unread by the simulation and are left out.
`initiator` is `null` or a string. -/
structure Resource (α : Type) where
  id : String
  url : String
  type : String
  size : α
  initiator : Option String
  deriving DecidableEq, Repr

/-- A node of `simulationNodes`: the record (`...d`) with position, velocity and
radius, and the optional fixed position `fx`, `fy` (absent means `undefined`). -/
structure SimNode (α : Type) extends Resource α where
  x : JSNum α
  y : JSNum α
  vx : JSNum α
  vy : JSNum α
  radius : JSNum α
  fx : Option α
  fy : Option α
  deriving DecidableEq, Repr

section Store

variable {α : Type} [LinearOrderedField α]

/-- The radius expression of line 513:
`d.id === 'root' ? 30 : Math.max(6, Math.min(70, Math.log((d.size / 1024) + 1) * 7))`. -/
def storeRadius (log : α → α) (d : Resource α) : JSNum α :=
  if d.id = "root" then .fin 30
  else JSNum.max (.fin 6)
    (JSNum.min (.fin 70) (JSNum.log log (.fin (d.size / 1024 + 1)) * .fin 7))

/-- The object built by the callback of `data.map` (lines 507-514); `r1` and `r2` are
the two `Math.random()` results, drawn in this order. -/
def seedNode (log : α → α) (d : Resource α) (r1 r2 : α) : SimNode α :=
  { toResource := d
    x := .fin (400 + (r1 - 0.5) * 50)
    y := .fin (300 + (r2 - 0.5) * 50)
    vx := .fin 0
    vy := .fin 0
    radius := storeRadius log d
    fx := none
    fy := none }

/-- The `data.map` of lines 507-514 from record number `i` on: record number `j` uses
the draws `2 * j` and `2 * j + 1` of the stream `rnd`. -/
def seedNodesFrom (log : α → α) (rnd : ℕ → α) : ℕ → List (Resource α) → List (SimNode α)
  | _, [] => []
  | i, d :: ds => seedNode log d (rnd (2 * i)) (rnd (2 * i + 1)) :: seedNodesFrom log rnd (i + 1) ds

/-- The predicate of the `find` of line 515: `n.id === 'root' || n.url === url`. -/
def isRootNode (url : String) (n : SimNode α) : Bool :=
  n.id == "root" || n.url == url

/-- Lines 515-516: the first node matched by `isRootNode`, if there is one, gets
`fx = 400` and `fy = 300`; every other node is left as it is. -/
def pinRoot (url : String) : List (SimNode α) → List (SimNode α)
  | [] => []
  | n :: ns =>
    if isRootNode url n then { n with fx := some 400, fy := some 300 } :: ns
    else n :: pinRoot url ns

/-- The node store built by the physics effect for the dataset `data` and the
analysed `url` (lines 507-516). -/
def simulationNodes (log : α → α) (url : String) (data : List (Resource α))
    (rnd : ℕ → α) : List (SimNode α) :=
  pinRoot url (seedNodesFrom log rnd 0 data)

/-- The node is pinned: `fx` or `fy` is set. -/
def SimNode.pinned (n : SimNode α) : Bool := n.fx.isSome || n.fy.isSome

end Store

/-! ## The simulation step `animate` (lines 518-550) -/

section Step

variable {α : Type} [LinearOrderedField α]

/-- Truthiness of a string-or-null value: `null` and the empty string are falsy. -/
def truthyString : Option String → Bool
  | some s => s != ""
  | none => false

/-- Truthiness of `node.fx`: `undefined` and `0` are falsy. -/
def truthyFixed : Option α → Bool
  | some v => decide (v ≠ 0)
  | none => false

/-- A fixed coordinate read as a number; `undefined` behaves as `NaN` in every
arithmetic use and comparison. -/
def fixedValue : Option α → JSNum α
  | some v => .fin v
  | none => .nan

/-- The `find` of line 524: first node whose `id` or `url` equals `initiator`. -/
def findParent (nodes : List (SimNode α)) (initiator : String) : Option (SimNode α) :=
  nodes.find? (fun n => n.id == initiator || n.url == initiator)

/-- Lines 522-526: the attraction target of `node`. -/
def attractionTarget (nodes : List (SimNode α)) (node : SimNode α) : JSNum α × JSNum α :=
  if truthyString node.initiator && node.initiator != some node.id then
    match findParent nodes (node.initiator.getD "") with
    | some parent => (parent.x, parent.y)
    | none => (.fin 400, .fin 300)
  else (.fin 400, .fin 300)

/-- Lines 527-534: the velocity of `node` after the attraction term. -/
def attract (sqrt : α → α) (nodes : List (SimNode α)) (node : SimNode α) : JSNum α × JSNum α :=
  let target := attractionTarget nodes node
  let dx := target.1 - node.x
  let dy := target.2 - node.y
  let dist := JSNum.orElse (JSNum.sqrt sqrt (dx * dx + dy * dy)) (.fin 1)
  let attractionStrength : JSNum α := .fin 0.04
  let idealDist := JSNum.fin 80 + node.radius
  if JSNum.gt dist idealDist then
    (node.vx + (dx / dist) * attractionStrength, node.vy + (dy / dist) * attractionStrength)
  else (node.vx, node.vy)

/-- Lines 537-546: the callback of the inner `forEach`, as a function of the velocity
`v` accumulated on `node` so far. -/
def repel (sqrt : α → α) (node : SimNode α) (v : JSNum α × JSNum α) (other : SimNode α) :
    JSNum α × JSNum α :=
  if node.id = other.id then v
  else
    let rx := node.x - other.x
    let ry := node.y - other.y
    let rDist := JSNum.sqrt sqrt (rx * rx + ry * ry)
    let padding : JSNum α := .fin 15
    let minDist := node.radius + other.radius + padding
    if JSNum.lt rDist minDist then
      let force := (minDist - rDist) / minDist
      (v.1 + (rx / rDist) * force * .fin 1.2, v.2 + (ry / rDist) * force * .fin 1.2)
    else v

/-- Lines 520-549: the callback of the outer `forEach` applied to `node`, reading the
array `nodes` in its current state. -/
def updateNode (sqrt : α → α) (nodes : List (SimNode α)) (node : SimNode α) : SimNode α :=
  if truthyFixed node.fx then
    { node with x := fixedValue node.fx, y := fixedValue node.fy }
  else
    let v := nodes.foldl (repel sqrt node) (attract sqrt nodes node)
    let vx := v.1 * .fin 0.90
    let vy := v.2 * .fin 0.90
    { node with vx := vx, vy := vy, x := node.x + vx, y := node.y + vy }

/-- The outer `forEach` of line 519 over an array mutated in place: `done` holds the
nodes already updated in this pass, the second list the nodes still to visit; the
visited node reads the array `done ++ node :: rest`. -/
def animateFrom (sqrt : α → α) : List (SimNode α) → List (SimNode α) → List (SimNode α)
  | done, [] => done
  | done, node :: rest =>
    animateFrom sqrt (done ++ [updateNode sqrt (done ++ node :: rest) node]) rest

/-- One simulation step `animate` on the node store. -/
def animate (sqrt : α → α) (nodes : List (SimNode α)) : List (SimNode α) :=
  animateFrom sqrt [] nodes

/-- The test `rDist < minDist` of line 542 for the pair `node`, `other`: the two nodes
are within repulsion range of each other. -/
def touches (sqrt : α → α) (node other : SimNode α) : Bool :=
  let rx := node.x - other.x
  let ry := node.y - other.y
  let rDist := JSNum.sqrt sqrt (rx * rx + ry * ry)
  let padding : JSNum α := .fin 15
  let minDist := node.radius + other.radius + padding
  JSNum.lt rDist minDist

/-- The store is at rest: one more step changes nothing, every velocity is zero and
every position is a finite number. -/
def AtRest (sqrt : α → α) (nodes : List (SimNode α)) : Prop :=
  animate sqrt nodes = nodes ∧
    ∀ n ∈ nodes, n.vx = .fin 0 ∧ n.vy = .fin 0 ∧ n.x.isFinite = true ∧ n.y.isFinite = true

/-- What one visit of the outer loop does to a node, whatever the array holds: the
record, the radius and the fixed position are kept, and a node fixed at (400, 300)
is put there with its velocity untouched. -/
def KeepsPinned (node node' : SimNode α) : Prop :=
  node'.toResource = node.toResource ∧ node'.radius = node.radius ∧
    node'.fx = node.fx ∧ node'.fy = node.fy ∧
    (node.fx = some 400 → node.fy = some 300 →
      node'.x = .fin 400 ∧ node'.y = .fin 300 ∧ node'.vx = node.vx ∧ node'.vy = node.vy)

end Step

/-! ## The `Node` component and the render projection (lines 266-274, 585-587, 608, 799-809) -/

section Render

variable {α : Type} [LinearOrderedField α]

/-- The `radius` memo of the `Node` component (lines 268-272). -/
def nodeRadius (log : α → α) (node : SimNode α) : JSNum α :=
  if node.id = "root" then .fin 30
  else
    let sizeKB := node.size / 1024
    JSNum.max (.fin 6) (JSNum.min (.fin 70) (JSNum.log log (.fin (sizeKB + 1)) * .fin 7))

/-- The flag `showLabel` of the `Node` component (line 274):
`scale > 0.6 || radius > 20`. -/
def showLabel (log : α → α) (node : SimNode α) (scale : α) : Bool :=
  decide (scale > 0.6) || JSNum.gt (nodeRadius log node) (.fin 20)

/-- The keys of `COLORS`, the initial value of `activeFilters`. -/
def colorKeys : List String := ["html", "css", "js", "image", "font", "other"]

/-- `toggleFilter` (lines 585-587) as the functional update of `activeFilters`. -/
def toggleFilter (type : String) (prev : List String) : List String :=
  if prev.contains type then prev.filter (fun t => t != type) else prev ++ [type]

/-- `visibleNodes` (line 608). -/
def visibleNodes (nodes : List (SimNode α)) (activeFilters : List String) : List (SimNode α) :=
  nodes.filter (fun n => activeFilters.contains n.type)

/-- A drawn link: the `line` element of line 803 runs from
`(parent.x, parent.y)` to `(child.x, child.y)`. -/
structure Link (α : Type) where
  parent : SimNode α
  child : SimNode α
  deriving DecidableEq, Repr

/-- The callback of the `visibleNodes.map` of lines 799-804; `none` is the `null`
that draws nothing. -/
def linkOf (nodes : List (SimNode α)) (activeFilters : List String) (node : SimNode α) :
    Option (Link α) :=
  if !truthyString node.initiator then none
  else
    match findParent nodes (node.initiator.getD "") with
    | none => none
    | some parent =>
      if ((visibleNodes nodes activeFilters).find? (fun n => n.id == parent.id)).isSome then
        some { parent := parent, child := node }
      else none

/-- The links drawn in the `links` group (lines 798-805). -/
def links (nodes : List (SimNode α)) (activeFilters : List String) : List (Link α) :=
  (visibleNodes nodes activeFilters).filterMap (linkOf nodes activeFilters)

/-- The part of the component state the simulation and the graph view share:
`simulationNodes` is the array owned by the physics effect, `nodes` the React state
filled by `setNodes([...simulationNodes])`, `activeFilters` the filter list. -/
structure AppState (α : Type) where
  simulationNodes : List (SimNode α)
  nodes : List (SimNode α)
  activeFilters : List String
  transform : Transform α

/-- One animation frame (lines 518-553): the step runs on the effect's array and the
result is published with `setNodes`. -/
def AppState.frame (sqrt : α → α) (st : AppState α) : AppState α :=
  let stepped := animate sqrt st.simulationNodes
  { st with simulationNodes := stepped, nodes := stepped }

/-- A click on a filter button: `toggleFilter(type)`. -/
def AppState.toggleFilter (type : String) (st : AppState α) : AppState α :=
  { st with activeFilters := WPO.toggleFilter type st.activeFilters }

end Render

/-! ## Sample records, sample stores and the radial form of the step

The records follow the first records of `generateMockData` (lines 194-230); the stores
are the concrete inputs of the theorems below. -/

section Samples

variable {α : Type} [LinearOrderedField α]

/-- The document record of the mock dataset, with a size inside its random range. -/
def sampleRoot : Resource α :=
  { id := "root", url := "https://ejemplo-tienda.com", type := "html", size := 20000,
    initiator := none }

/-- The main style sheet of the mock dataset. -/
def sampleStyle : Resource α :=
  { id := "style-main", url := "https://ejemplo-tienda.com/assets/css/style.min.css",
    type := "css", size := 45 * 1024, initiator := some "root" }

/-- The main script of the mock dataset. -/
def sampleScript : Resource α :=
  { id := "app-main", url := "https://ejemplo-tienda.com/assets/js/app.bundle.js",
    type := "js", size := 150 * 1024, initiator := some "root" }

/-- A record of size 0 whose id is not `root`. -/
def sampleEmpty : Resource α :=
  { id := "pixel", url := "https://ejemplo-tienda.com/pixel.gif", type := "image", size := 0,
    initiator := some "root" }

/-- A document record that carries the analysed url under an id other than `root`. -/
def samplePage : Resource α :=
  { id := "home", url := "https://ejemplo-tienda.com", type := "html", size := 0,
    initiator := none }

/-- A stream of `Math.random()` results in [0, 1): 0, 1/8, ..., 7/8, 0, 1/8, ... -/
def sampleDraws : ℕ → α := fun i => ((i % 8 : ℕ) : α) / 8

/-- The analysed url of the samples, `DEFAULT_URL`. -/
def sampleUrl : String := "https://ejemplo-tienda.com"

/-- The pinned document node at the centre, as every step leaves it: radius 30,
fixed position (400, 300), velocity 0. -/
def pinnedRoot : SimNode α :=
  { toResource := sampleRoot, x := .fin 400, y := .fin 300, vx := .fin 0, vy := .fin 0,
    radius := .fin 30, fx := some 400, fy := some 300 }

/-- A child of the document with radius 10 at position `(px, py)` with velocity
`(vx, vy)`.  The step reads the `radius` field only; the size is the integer whose
size-based radius is nearest to 10. -/
def childNode (px py vx vy : α) : SimNode α :=
  { id := "chunk-0", url := "https://ejemplo-tienda.com/assets/js/chunk-0.js", type := "js",
    size := 3249, initiator := some "root",
    x := .fin px, y := .fin py, vx := .fin vx, vy := .fin vy,
    radius := .fin 10, fx := none, fy := none }

/-- The two-node store: the pinned root and a single child. -/
def twoNodeStore (px py vx vy : α) : List (SimNode α) :=
  [pinnedRoot, childNode px py vx vy]

/-- The step of the two-node store in radial coordinates, for a child moving along a
ray from the root: `p.1` is the distance to the root, `p.2` the speed away from it.  Attraction (0.04 towards the root) applies beyond 80 + 10 = 90,
repulsion below 10 + 30 + 15 = 55; `animate_radial` proves that `animate` acts in this
way on a child moving along any ray from the root. -/
def axisStep (p : α × α) : α × α :=
  let s₁ := if p.1 > 90 then p.2 - 0.04 else p.2
  let s₂ := if p.1 < 55 then s₁ + (55 - p.1) / 55 * 1.2 else s₁
  let s' := s₂ * 0.90
  (p.1 + s', s')

/-- The repulsion phase of `axisStep` in scaled coordinates: for a child that started at
rest at distance `55 - e` the distance is `55 - e * p.1` and the speed `e * p.2`. -/
def scaledStep (p : α × α) : α × α :=
  let b' := (p.2 + p.1 / 55 * 1.2) * 0.90
  (p.1 - b', b')

/-- An image of 30 MB, whose size-based radius is clamped to 70, on the horizontal line
through the centre at `(px, 300)`, with velocity 0 and the document as initiator. -/
def bigNode (i : String) (px : α) : SimNode α :=
  { id := i, url := "https://ejemplo-tienda.com/uploads/images/" ++ i ++ ".jpg",
    type := "image", size := 30 * 1024 * 1024, initiator := some "root",
    x := .fin px, y := .fin 300, vx := .fin 0, vy := .fin 0,
    radius := .fin 70, fx := none, fy := none }

/-- A row of five large images pressed against the pinned root by their attraction to
it: the gaps are 299/3, 403/3, 279/2, 434/3 and 899/6. -/
def crowdedStore : List (SimNode α) :=
  [pinnedRoot, bigNode "img-0" (1499 / 3), bigNode "img-1" 634, bigNode "img-2" (1547 / 2),
    bigNode "img-3" (5509 / 6), bigNode "img-4" 1068]

/-- A state of the graph view: the two-node store with the child 60 away from the
root, published to `nodes`, and every category active. -/
def sampleState : AppState α :=
  { simulationNodes := twoNodeStore 460 300 0 0, nodes := twoNodeStore 460 300 0 0,
    activeFilters := colorKeys, transform := initialTransform }

end Samples

/-! ## Pointer interaction (lines 466-497) -/

/-- A pair of coordinates: the `clientX`, `clientY` of a mouse event, or the value of
`dragStart.current`. -/
structure Point (α : Type) where
  x : α
  y : α
  deriving DecidableEq, Repr

/-- The state the mouse handlers read and write: `transform`, `isDragging`,
`dragStart.current` and `viewMode` (`'graph'` or `'list'`). -/
structure ViewState (α : Type) where
  transform : Transform α
  isDragging : Bool
  dragStart : Point α
  viewMode : String
  deriving DecidableEq, Repr

section Interaction

variable {α : Type} [LinearOrderedField α]

/-- `handleMouseDown` for a mouse event at `e`. -/
def handleMouseDown (e : Point α) (s : ViewState α) : ViewState α :=
  if s.viewMode ≠ "graph" then s
  else
    { s with
      isDragging := true
      dragStart := { x := e.x - s.transform.x, y := e.y - s.transform.y } }

/-- `handleMouseMove` for a mouse event at `e`. -/
def handleMouseMove (e : Point α) (s : ViewState α) : ViewState α :=
  if !s.isDragging then s
  else
    { s with
      transform := { s.transform with x := e.x - s.dragStart.x, y := e.y - s.dragStart.y } }

/-- `handleMouseUp` (also bound to `onMouseLeave`). -/
def handleMouseUp (s : ViewState α) : ViewState α := { s with isDragging := false }

/-- A zoom command issued while the mouse state is `s`. -/
def ViewState.zoom (c : ZoomCommand α) (s : ViewState α) : ViewState α :=
  { s with transform := applyZoom s.transform c }

/-- What can happen between a drag start and the next drag end: mouse moves and zoom
commands. -/
inductive DragEvent (α : Type) where
  | move (e : Point α)
  | zoom (c : ZoomCommand α)
  deriving DecidableEq, Repr

/-- One event of a drag handled in state `s`. -/
def ViewState.dragStep (s : ViewState α) : DragEvent α → ViewState α
  | .move e => handleMouseMove e s
  | .zoom c => s.zoom c

/-- A sequence of events of a drag handled from left to right. -/
def ViewState.drag (s : ViewState α) (events : List (DragEvent α)) : ViewState α :=
  events.foldl ViewState.dragStep s

end Interaction

/-! ## The record mapping of `fetchLighthouseData` (lines 44-53 and 80-108) -/

/-- One item of `audits['network-requests'].details.items`, as far as the mapped fields
of `Resource` read it: `resourceType` and `resourceSize` may be absent.  The field
`name` of the record is left out (its expression can throw for a first item whose url
does not parse; the mapping then produces no records at all). -/
structure NetworkItem (α : Type) where
  url : String
  resourceType : Option String
  resourceSize : Option α
  deriving DecidableEq, Repr

section Lighthouse

variable {α : Type} [LinearOrderedField α]

/-- `mapLighthouseType`; the second argument `mimeType` is not read by the source. -/
def mapLighthouseType (resourceType : Option String) : String :=
  if !truthyString resourceType then "other"
  else
    let type := (resourceType.getD "").toLower
    if type = "document" then "html"
    else if type = "stylesheet" then "css"
    else if type = "script" then "js"
    else if type = "image" || type = "media" then "image"
    else if type = "font" then "font"
    else "other"

/-- The expression `item.resourceSize || 0`: an absent value and `0` are falsy. -/
def sizeOrZero : Option α → α
  | some v => if v = 0 then 0 else v
  | none => 0

/-- The callback of `networkItems.map` (lines 80-108) for the item at `index`. -/
def lighthouseRecord (item : NetworkItem α) (index : ℕ) : Resource α :=
  let isRoot := decide (index = 0)
  let resourceSize := sizeOrZero item.resourceSize
  let uniqueId := if isRoot then "root" else item.url ++ "-" ++ toString index
  { id := uniqueId
    url := item.url
    type := mapLighthouseType item.resourceType
    size := resourceSize
    initiator := if isRoot then none else some "root" }

/-- The `networkItems.map` from index `i` on. -/
def lighthouseRecordsFrom : ℕ → List (NetworkItem α) → List (Resource α)
  | _, [] => []
  | i, item :: items => lighthouseRecord item i :: lighthouseRecordsFrom (i + 1) items

/-- The records `fetchLighthouseData` returns for the network items `items`. -/
def lighthouseRecords (items : List (NetworkItem α)) : List (Resource α) :=
  lighthouseRecordsFrom 0 items

end Lighthouse

/-! ## The physics effect and the tick as the spec words it -/

section Effect

variable {α : Type} [LinearOrderedField α]

/-- The body of the physics effect (lines 505-516) run for the dataset `data`: an empty
dataset returns at once, leaving no array to animate; otherwise the effect's array is
built anew.  The React state `nodes` is written by the animation frames only. -/
def AppState.physicsEffect (log : α → α) (url : String) (data : List (Resource α))
    (rnd : ℕ → α) (st : AppState α) : AppState α :=
  if data.length = 0 then { st with simulationNodes := [] }
  else { st with simulationNodes := WPO.simulationNodes log url data rnd }

/-- The tick as the spec words it: every node is recomputed from the array as it stood
at the start of the tick, and the whole set is replaced at once. -/
def animateSnapshot (sqrt : α → α) (nodes : List (SimNode α)) : List (SimNode α) :=
  nodes.map (updateNode sqrt nodes)

end Effect

/-! ## More sample nodes -/

section MoreSamples

variable {α : Type} [LinearOrderedField α]

/-- A node of size 0 (radius 6) without initiator on the horizontal line through the
centre, at `(px, 300)`, with velocity `(vx, 0)`. -/
def looseNode (i : String) (px vx : α) : SimNode α :=
  { id := i, url := "https://ejemplo-tienda.com/" ++ i, type := "other", size := 0,
    initiator := none, x := .fin px, y := .fin 300, vx := .fin vx, vy := .fin 0,
    radius := .fin 6, fx := none, fy := none }

/-- A node of size 0 at rest at `(px, 300)` with the given id, url, category and
initiator. -/
def plainNode (i url type : String) (initiator : Option String) (px : α) : SimNode α :=
  { id := i, url := url, type := type, size := 0, initiator := initiator,
    x := .fin px, y := .fin 300, vx := .fin 0, vy := .fin 0,
    radius := .fin 6, fx := none, fy := none }

/-- The first node of `blankStore`: its url is the empty string. -/
def blankUrlNode : SimNode α := plainNode "a" "" "js" none 100

/-- The second node of `blankStore`: its initiator is the empty string. -/
def blankInitiatorNode : SimNode α :=
  plainNode "b" "https://ejemplo-tienda.com/b.js" "js" (some "") 500

/-- A store with unique ids in which the second node names the empty string as its
initiator, and the first node has the empty string as its url. -/
def blankStore : List (SimNode α) := [blankUrlNode, blankInitiatorNode]

/-- The style sheet of `duplicateStore`, with id `dup`. -/
def duplicateStyle : SimNode α :=
  plainNode "dup" "https://ejemplo-tienda.com/a.css" "css" none 100

/-- The node of `duplicateStore` that names `dup` as its initiator. -/
def duplicateChild : SimNode α :=
  plainNode "c" "https://ejemplo-tienda.com/c.js" "js" (some "dup") 500

/-- A store in which two nodes carry the id `dup`: a style sheet first, then a script;
the third node names `dup` as its initiator. -/
def duplicateStore : List (SimNode α) :=
  [duplicateStyle, plainNode "dup" "https://ejemplo-tienda.com/a.js" "js" none 300,
    duplicateChild]

/-- A network item without `resourceSize`. -/
def itemWithoutSize : NetworkItem α :=
  { url := "https://ejemplo-tienda.com/", resourceType := some "Document",
    resourceSize := none }

/-- A network item with a negative `resourceSize`. -/
def itemWithNegativeSize : NetworkItem α :=
  { url := "https://ejemplo-tienda.com/app.js", resourceType := some "Script",
    resourceSize := some (-2048) }

/-- A mouse state in graph view with pan offset (5, 7) and scale 2, not dragging. -/
def sampleView : ViewState α :=
  { transform := { x := 5, y := 7, k := 2 }, isDragging := false,
    dragStart := { x := 0, y := 0 }, viewMode := "graph" }

/-- The pointer position of a sample drag start. -/
def samplePress : Point α := { x := 100, y := 100 }

/-- The pointer position of a later drag move. -/
def sampleMove : Point α := { x := 130, y := 90 }

/-- What happens between the two: another mouse move and a wheel event. -/
def sampleDragEvents : List (DragEvent α) :=
  [.move { x := 110, y := 95 }, .zoom (.wheel 120)]

end MoreSamples

/-! ## Decimal rendering of an index -/

/-- The value of a decimal digit character, used to read an index back from its
decimal rendering in an id. -/
def digitValue (c : Char) : ℕ := c.toNat - 48

/-! ## A dataset whose two nodes are seeded at the same position -/

section CoincidentSamples

variable {α : Type} [LinearOrderedField α]

/-- A dataset of two records: the document and a record of size 0. -/
def coincidentData : List (Resource α) := [sampleRoot, sampleEmpty]

/-- A stream of `Math.random()` results that are all 0.5: no jitter. -/
def halfDraws : ℕ → α := fun _ => 0.5

end CoincidentSamples

/-! ## A second analysed url -/

/-- An analysed url that no record of the samples carries. -/
def otherUrl : String := "https://otra-tienda.com"

/-! ## Theorems -/

section NumberLemmas

variable {α : Type} [LinearOrderedField α]

@[simp] theorem JSNum.fin_add (a b : α) : (JSNum.fin a + JSNum.fin b) = JSNum.fin (a + b) := rfl

@[simp] theorem JSNum.fin_sub (a b : α) : (JSNum.fin a - JSNum.fin b) = JSNum.fin (a - b) := by
  show JSNum.add (JSNum.fin a) (JSNum.neg (JSNum.fin b)) = _
  simp [JSNum.add, JSNum.neg, sub_eq_add_neg]

@[simp] theorem JSNum.fin_mul (a b : α) : (JSNum.fin a * JSNum.fin b) = JSNum.fin (a * b) := rfl

theorem JSNum.fin_div (a b : α) (h : b ≠ 0) : (JSNum.fin a / JSNum.fin b) = JSNum.fin (a / b) := by
  show JSNum.div (JSNum.fin a) (JSNum.fin b) = _
  simp [JSNum.div, h]

theorem JSNum.zero_div_zero : (JSNum.fin (0 : α) / JSNum.fin 0) = JSNum.nan := by
  show JSNum.div (JSNum.fin 0) (JSNum.fin 0) = _
  simp [JSNum.div, JSNum.scaleInf]

@[simp] theorem JSNum.lt_fin (a b : α) : JSNum.lt (JSNum.fin a) (JSNum.fin b) = decide (a < b) := rfl

@[simp] theorem JSNum.gt_fin (a b : α) : JSNum.gt (JSNum.fin a) (JSNum.fin b) = decide (b < a) := rfl

@[simp] theorem JSNum.max_fin (a b : α) :
    JSNum.max (JSNum.fin a) (JSNum.fin b) = JSNum.fin (Max.max a b) := rfl

@[simp] theorem JSNum.min_fin (a b : α) :
    JSNum.min (JSNum.fin a) (JSNum.fin b) = JSNum.fin (Min.min a b) := rfl

theorem JSNum.sqrt_fin (f : α → α) (a : α) (h : 0 ≤ a) :
    JSNum.sqrt f (JSNum.fin a) = JSNum.fin (f a) := by
  simp [JSNum.sqrt, not_lt.mpr h]

theorem JSNum.log_fin (f : α → α) (a : α) (h : 0 < a) :
    JSNum.log f (JSNum.fin a) = JSNum.fin (f a) := by
  simp [JSNum.log, not_lt.mpr h.le, h.ne.symm]

theorem JSNum.orElse_fin (a b : α) (h : a ≠ 0) :
    JSNum.orElse (JSNum.fin a) (JSNum.fin b) = JSNum.fin a := by
  simp [JSNum.orElse, JSNum.truthy, h]

theorem JSNum.orElse_zero (b : α) :
    JSNum.orElse (JSNum.fin (0 : α)) (JSNum.fin b) = JSNum.fin b := by
  simp [JSNum.orElse, JSNum.truthy]

end NumberLemmas

section ViewportTheorems

variable {α : Type} [LinearOrderedField α]

theorem applyZoom_scale_range (t : Transform α) (c : ZoomCommand α)
    (h : 0.1 ≤ t.k ∧ t.k ≤ 4) : 0.1 ≤ (applyZoom t c).k ∧ (applyZoom t c).k ≤ 4 := by
  obtain ⟨h1, h2⟩ := h
  have e1 : (0.1 : α) = 1 / 10 := by norm_num
  have e2 : (1.2 : α) = 6 / 5 := by norm_num
  rw [e1] at h1 ⊢
  cases c with
  | wheel d =>
    simp only [applyZoom, handleWheel, e1]
    refine ⟨le_min (le_max_left _ _) (by norm_num), min_le_right _ _⟩
  | zoomIn =>
    simp only [applyZoom, zoomIn, e2]
    refine ⟨le_min (by linarith) (by norm_num), min_le_right _ _⟩
  | zoomOut =>
    simp only [applyZoom, zoomOut, e1, e2]
    refine ⟨le_max_right _ _, max_le ?_ (by norm_num)⟩
    rw [div_le_iff₀ (by norm_num)]
    linarith
  | fitToScreen =>
    simp only [applyZoom, fitToScreen]
    constructor <;> norm_num

theorem runZoom_scale_range (cmds : List (ZoomCommand α)) (t : Transform α)
    (h : 0.1 ≤ t.k ∧ t.k ≤ 4) : 0.1 ≤ (runZoom t cmds).k ∧ (runZoom t cmds).k ≤ 4 := by
  induction cmds generalizing t with
  | nil => simpa [runZoom] using h
  | cons c cs ih =>
    simp only [runZoom, List.foldl_cons]
    exact ih _ (applyZoom_scale_range t c h)

/-- C1: starting from the initial viewport (x=0, y=0, k=1), after every finite sequence
of wheel events (any deltaY), zoomIn, zoomOut and fitToScreen commands the scale k
satisfies 0.1 <= k <= 4. -/
theorem zoom_scale_within_bounds (cmds : List (ZoomCommand α)) :
    0.1 ≤ (runZoom initialTransform cmds).k ∧ (runZoom initialTransform cmds).k ≤ 4 := by
  apply runZoom_scale_range
  simp only [initialTransform]
  constructor <;> norm_num

end ViewportTheorems

section RadiusTheorems

/-- On a non-negative size both radius expressions evaluate to the finite clamp. -/
theorem clampedLog_fin (s : ℝ) (hs : 0 ≤ s) :
    JSNum.max (.fin 6) (JSNum.min (.fin 70) (JSNum.log Real.log (.fin (s / 1024 + 1)) * .fin 7))
      = JSNum.fin (max 6 (min 70 (Real.log (s / 1024 + 1) * 7))) := by
  have h : 0 < s / 1024 + 1 := by positivity
  rw [JSNum.log_fin _ _ h]
  simp

/-- C5: the label-visibility flag is true iff scale > 0.6 or radius > 20; for a node
whose radius is not above 20 it is false at scale exactly 0.6 and true at scale 0.61. -/
theorem showLabel_iff_scale_or_radius {α : Type} [LinearOrderedField α] (log : α → α)
    (node : SimNode α) :
    (∀ scale : α, showLabel log node scale = true ↔
      (0.6 < scale ∨ JSNum.gt (nodeRadius log node) (.fin 20) = true)) ∧
    (JSNum.gt (nodeRadius log node) (.fin 20) = false →
      showLabel log node 0.6 = false ∧ showLabel log node 0.61 = true) := by
  refine ⟨fun scale => by simp [showLabel], fun h => ?_⟩
  simp only [showLabel, h, Bool.or_false, gt_iff_lt, decide_eq_false_iff_not, decide_eq_true_eq]
  constructor <;> norm_num

/-- The flag evaluated on a node of size 0 (radius 6) with the real logarithm. -/
theorem showLabel_iff_scale_or_radius_witness :
    JSNum.gt (nodeRadius Real.log (seedNode Real.log sampleEmpty 0 0)) (.fin 20) = false ∧
    showLabel Real.log (seedNode Real.log sampleEmpty 0 0) 0.6 = false ∧
    showLabel Real.log (seedNode Real.log sampleEmpty 0 0) 0.61 = true := by
  have h : JSNum.gt (nodeRadius Real.log (seedNode Real.log sampleEmpty 0 0)) (.fin 20)
      = false := by
    have e := clampedLog_fin 0 le_rfl
    simp only [nodeRadius, seedNode, sampleEmpty]
    rw [if_neg (by decide), e]
    norm_num
  exact ⟨h, (showLabel_iff_scale_or_radius Real.log _).2 h⟩

/-- The store radius of a non-root record of non-negative size is the finite clamp. -/
theorem storeRadius_nonroot (d : Resource ℝ) (hid : d.id ≠ "root") (hs : 0 ≤ d.size) :
    storeRadius Real.log d = .fin (max 6 (min 70 (Real.log (d.size / 1024 + 1) * 7))) := by
  simp only [storeRadius]
  rw [if_neg hid, clampedLog_fin _ hs]

/-- C6: for a non-root record of non-negative size the radius of the node store, and
identically the radius of the Node component, is clamp(ln(size/1024 + 1) * 7, 6, 70),
hence between 6 and 70, and exactly 6 for size 0. -/
theorem radius_is_clamped_log (d : Resource ℝ) (hid : d.id ≠ "root") (hs : 0 ≤ d.size) :
    storeRadius Real.log d = .fin (max 6 (min 70 (Real.log (d.size / 1024 + 1) * 7))) ∧
    (∀ node : SimNode ℝ, node.toResource = d →
      nodeRadius Real.log node = storeRadius Real.log d) ∧
    6 ≤ max 6 (min 70 (Real.log (d.size / 1024 + 1) * 7)) ∧
    max 6 (min 70 (Real.log (d.size / 1024 + 1) * 7)) ≤ 70 ∧
    (d.size = 0 → storeRadius Real.log d = .fin 6) := by
  have e := storeRadius_nonroot d hid hs
  refine ⟨e, ?_, le_max_left _ _, max_le (by norm_num) (min_le_left _ _), ?_⟩
  · intro node hn
    subst hn
    simp only [nodeRadius, storeRadius]
  · intro h0
    rw [e, h0]
    norm_num

/-- The radius of the 150 KB script of the mock dataset. -/
theorem radius_is_clamped_log_witness :
    (sampleScript : Resource ℝ).id ≠ "root" ∧ (0 : ℝ) ≤ (sampleScript : Resource ℝ).size ∧
    storeRadius Real.log (sampleScript : Resource ℝ)
      = .fin (max 6 (min 70 (Real.log ((sampleScript : Resource ℝ).size / 1024 + 1) * 7))) :=
  ⟨by decide, by norm_num [sampleScript],
    (radius_is_clamped_log sampleScript (by decide) (by norm_num [sampleScript])).1⟩

/-- C7: the non-root radius is monotonic non-decreasing in the byte size. -/
theorem radius_monotone (d₁ d₂ : Resource ℝ) (h₁ : d₁.id ≠ "root") (h₂ : d₂.id ≠ "root")
    (hs : 0 ≤ d₁.size) (hle : d₁.size ≤ d₂.size) :
    ∃ r₁ r₂ : ℝ, storeRadius Real.log d₁ = .fin r₁ ∧ storeRadius Real.log d₂ = .fin r₂ ∧
      r₁ ≤ r₂ := by
  have hs₂ : 0 ≤ d₂.size := le_trans hs hle
  refine ⟨_, _, storeRadius_nonroot d₁ h₁ hs, storeRadius_nonroot d₂ h₂ hs₂, ?_⟩
  have hlog : Real.log (d₁.size / 1024 + 1) ≤ Real.log (d₂.size / 1024 + 1) := by
    apply Real.log_le_log (by positivity)
    linarith [div_le_div_of_nonneg_right hle (by norm_num : (0 : ℝ) ≤ 1024)]
  exact max_le_max le_rfl (min_le_min le_rfl (by linarith))

/-- Two sizes of the mock dataset compared: 45 KB and 150 KB. -/
theorem radius_monotone_witness :
    ∃ r₁ r₂ : ℝ, storeRadius Real.log (sampleStyle : Resource ℝ) = .fin r₁ ∧
      storeRadius Real.log (sampleScript : Resource ℝ) = .fin r₂ ∧ r₁ ≤ r₂ :=
  radius_monotone sampleStyle sampleScript (by decide) (by decide)
    (by norm_num [sampleStyle]) (by norm_num [sampleStyle, sampleScript])

end RadiusTheorems

section StoreTheorems

variable {α : Type} [LinearOrderedField α]

theorem seedNodesFrom_mem (log : α → α) (rnd : ℕ → α) (ds : List (Resource α)) (i : ℕ)
    (n : SimNode α) (h : n ∈ seedNodesFrom log rnd i ds) :
    n.toResource ∈ ds ∧ n.fx = none ∧ n.fy = none ∧ n.radius = storeRadius log n.toResource ∧
      n.vx = .fin 0 ∧ n.vy = .fin 0 := by
  induction ds generalizing i with
  | nil => simp [seedNodesFrom] at h
  | cons d ds ih =>
    simp only [seedNodesFrom, List.mem_cons] at h
    rcases h with h | h
    · subst h
      simp [seedNode]
    · obtain ⟨h1, h2⟩ := ih (i + 1) h
      exact ⟨List.mem_cons_of_mem _ h1, h2⟩

theorem seedNodesFrom_any (log : α → α) (rnd : ℕ → α) (url : String) (ds : List (Resource α))
    (i : ℕ) :
    (seedNodesFrom log rnd i ds).any (isRootNode url)
      = ds.any (fun d => d.id == "root" || d.url == url) := by
  induction ds generalizing i with
  | nil => simp [seedNodesFrom]
  | cons d ds ih =>
    simp only [seedNodesFrom, List.any_cons, ih]
    simp [isRootNode, seedNode]

theorem pinRoot_pinned_count (url : String) (l : List (SimNode α))
    (h : ∀ n ∈ l, n.pinned = false) :
    ((pinRoot url l).filter SimNode.pinned).length = if l.any (isRootNode url) then 1 else 0 := by
  induction l with
  | nil => simp [pinRoot]
  | cons n ns ih =>
    have hn : n.pinned = false := h n (List.mem_cons_self _ _)
    have hns : ∀ m ∈ ns, m.pinned = false := fun m hm => h m (List.mem_cons_of_mem _ hm)
    by_cases hr : isRootNode url n = true
    · have hnone : ns.filter SimNode.pinned = [] := by
        rw [List.filter_eq_nil_iff]
        intro m hm
        simp [hns m hm]
      simp [pinRoot, hr, SimNode.pinned, hnone, List.filter_cons]
    · simp only [Bool.not_eq_true] at hr
      simp [pinRoot, hr, hn, List.filter_cons, ih hns]

theorem pinRoot_mem (url : String) (l : List (SimNode α)) (n : SimNode α)
    (h : n ∈ pinRoot url l) :
    ∃ m ∈ l, n.toResource = m.toResource ∧ n.radius = m.radius ∧
      (n.pinned = true → m.pinned = true ∨ isRootNode url n = true) := by
  induction l with
  | nil => simp [pinRoot] at h
  | cons a as ih =>
    by_cases hr : isRootNode url a = true
    · simp only [pinRoot, hr, if_true, List.mem_cons] at h
      rcases h with h | h
      · subst h
        refine ⟨a, List.mem_cons_self _ _, rfl, rfl, fun _ => Or.inr ?_⟩
        simpa [isRootNode] using hr
      · exact ⟨n, List.mem_cons_of_mem _ h, rfl, rfl, fun hp => Or.inl hp⟩
    · simp only [pinRoot, hr, List.mem_cons, Bool.false_eq_true, if_false] at h
      rcases h with h | h
      · subst h
        exact ⟨n, List.mem_cons_self _ _, rfl, rfl, fun hp => Or.inl hp⟩
      · obtain ⟨m, hm, h1⟩ := ih h
        exact ⟨m, List.mem_cons_of_mem _ hm, h1⟩

theorem seedNodesFrom_getElem? (log : α → α) (rnd : ℕ → α) (ds : List (Resource α))
    (k i : ℕ) :
    (seedNodesFrom log rnd k ds)[i]?
      = (ds[i]?).map (fun d => seedNode log d (rnd (2 * (k + i))) (rnd (2 * (k + i) + 1))) := by
  induction ds generalizing k i with
  | nil => simp [seedNodesFrom]
  | cons d ds ih =>
    cases i with
    | zero => simp [seedNodesFrom]
    | succ i =>
      simp only [seedNodesFrom, List.getElem?_cons_succ, ih]
      have : k + 1 + i = k + (i + 1) := by omega
      rw [this]

/-- The pin lands on the first node matched by the `find` of line 515 and on no other
place of the array. -/
theorem pinRoot_getElem? (url : String) (l : List (SimNode α)) (i : ℕ) (a : SimNode α)
    (ha : l[i]? = some a) (hroot : isRootNode url a = true)
    (hfirst : ∀ (j : ℕ) (b : SimNode α), j < i → l[j]? = some b → isRootNode url b = false) :
    (pinRoot url l)[i]? = some { a with fx := some 400, fy := some 300 } ∧
    ∀ j : ℕ, j ≠ i → (pinRoot url l)[j]? = l[j]? := by
  induction l generalizing i with
  | nil => simp at ha
  | cons n ns ih =>
    cases i with
    | zero =>
      simp only [List.getElem?_cons_zero, Option.some.injEq] at ha
      subst ha
      simp only [pinRoot, hroot, if_true, List.getElem?_cons_zero, true_and]
      intro j hj
      cases j with
      | zero => exact absurd rfl hj
      | succ j => simp
    | succ i =>
      have hn : isRootNode url n = false := hfirst 0 n (Nat.succ_pos _) (by simp)
      simp only [List.getElem?_cons_succ] at ha
      obtain ⟨h1, h2⟩ := ih i ha (fun j b hj hb => hfirst (j + 1) b (Nat.succ_lt_succ hj)
        (by simpa using hb))
      simp only [pinRoot, hn, Bool.false_eq_true, if_false, List.getElem?_cons_succ]
      refine ⟨h1, fun j hj => ?_⟩
      cases j with
      | zero => simp
      | succ j =>
        simp only [List.getElem?_cons_succ]
        exact h2 j (fun h => hj (by rw [h]))

theorem pinRoot_of_no_match (url : String) (l : List (SimNode α))
    (h : ∀ b ∈ l, isRootNode url b = false) : pinRoot url l = l := by
  induction l with
  | nil => rfl
  | cons n ns ih =>
    have hn := h n (List.mem_cons_self _ _)
    simp only [pinRoot, hn, Bool.false_eq_true, if_false]
    rw [ih (fun b hb => h b (List.mem_cons_of_mem _ hb))]

theorem isRootNode_seedNode (log : α → α) (url : String) (d : Resource α) (r1 r2 : α) :
    isRootNode url (seedNode log d r1 r2) = (d.id == "root" || d.url == url) := rfl

/-- C8 (amended): the store of a dataset holding a record with id `root` or with the
analysed url has exactly one pinned node, and it is the node of the first such record:
at the index of that record the store holds the seeded node with `fx = 400` and
`fy = 300`, at every other index the seeded node without fixed position.  The store of
a dataset without such a record is the list of seeded nodes, none of them pinned. -/
theorem pinned_count_of_store (log : α → α) (url : String) (data : List (Resource α))
    (rnd : ℕ → α) :
    ((simulationNodes log url data rnd).filter SimNode.pinned).length
      = (if data.any (fun d => d.id == "root" || d.url == url) then 1 else 0) ∧
    (∀ (i : ℕ) (d : Resource α), data[i]? = some d → (d.id = "root" ∨ d.url = url) →
      (∀ (j : ℕ) (e : Resource α), j < i → data[j]? = some e → e.id ≠ "root" ∧ e.url ≠ url) →
      (simulationNodes log url data rnd)[i]?
        = some { seedNode log d (rnd (2 * i)) (rnd (2 * i + 1)) with
                  fx := some 400, fy := some 300 } ∧
      (∃ n, (simulationNodes log url data rnd)[i]? = some n ∧ n.toResource = d ∧
        n.pinned = true) ∧
      (∀ j : ℕ, j ≠ i → (simulationNodes log url data rnd)[j]?
        = (data[j]?).map (fun e => seedNode log e (rnd (2 * j)) (rnd (2 * j + 1)))) ∧
      (∀ (j : ℕ) (m : SimNode α), j ≠ i → (simulationNodes log url data rnd)[j]? = some m →
        m.pinned = false)) ∧
    ((∀ d ∈ data, d.id ≠ "root" ∧ d.url ≠ url) →
      simulationNodes log url data rnd = seedNodesFrom log rnd 0 data ∧
      ∀ n ∈ simulationNodes log url data rnd, n.pinned = false) := by
  have hfree : ∀ n ∈ seedNodesFrom log rnd 0 data, n.pinned = false := by
    intro n hn
    obtain ⟨-, h1, h2, -⟩ := seedNodesFrom_mem log rnd data 0 n hn
    simp [SimNode.pinned, h1, h2]
  have hseed : ∀ j : ℕ, (seedNodesFrom log rnd 0 data)[j]?
      = (data[j]?).map (fun e => seedNode log e (rnd (2 * j)) (rnd (2 * j + 1))) := by
    intro j
    rw [seedNodesFrom_getElem?, Nat.zero_add]
  refine ⟨?_, ?_, ?_⟩
  · rw [simulationNodes, pinRoot_pinned_count _ _ hfree, seedNodesFrom_any]
  · intro i d hd hmatch hfirst
    have ha : (seedNodesFrom log rnd 0 data)[i]?
        = some (seedNode log d (rnd (2 * i)) (rnd (2 * i + 1))) := by
      rw [hseed, hd]
      rfl
    have hroot : isRootNode url (seedNode log d (rnd (2 * i)) (rnd (2 * i + 1))) = true := by
      rw [isRootNode_seedNode]
      rcases hmatch with h | h <;> simp [h]
    have hbefore : ∀ (j : ℕ) (b : SimNode α), j < i →
        (seedNodesFrom log rnd 0 data)[j]? = some b → isRootNode url b = false := by
      intro j b hj hb
      rw [hseed, Option.map_eq_some'] at hb
      obtain ⟨e, he, hbe⟩ := hb
      obtain ⟨h1, h2⟩ := hfirst j e hj he
      rw [← hbe, isRootNode_seedNode]
      simp [h1, h2]
    obtain ⟨h1, h2⟩ := pinRoot_getElem? url _ i _ ha hroot hbefore
    have hother : ∀ j : ℕ, j ≠ i → (simulationNodes log url data rnd)[j]?
        = (data[j]?).map (fun e => seedNode log e (rnd (2 * j)) (rnd (2 * j + 1))) := by
      intro j hj
      rw [simulationNodes, h2 j hj, hseed]
    refine ⟨h1, ⟨_, h1, rfl, rfl⟩, hother, ?_⟩
    intro j m hj hm
    rw [hother j hj, Option.map_eq_some'] at hm
    obtain ⟨e, -, hme⟩ := hm
    rw [← hme]
    rfl
  · intro hnone
    have hno : ∀ b ∈ seedNodesFrom log rnd 0 data, isRootNode url b = false := by
      intro b hb
      obtain ⟨hmem, -⟩ := seedNodesFrom_mem log rnd data 0 b hb
      obtain ⟨h1, h2⟩ := hnone _ hmem
      simp only [isRootNode, Bool.or_eq_false_iff, beq_eq_false_iff_ne, ne_eq]
      exact ⟨h1, h2⟩
    have hs : simulationNodes log url data rnd = seedNodesFrom log rnd 0 data := by
      rw [simulationNodes, pinRoot_of_no_match url _ hno]
    exact ⟨hs, by rw [hs]; exact hfree⟩

/-- C8 as stated fails: a non-empty dataset without a root record yields a store in
which no node is pinned. -/
theorem pinned_count_counterexample :
    ([sampleScript] : List (Resource ℝ)) ≠ [] ∧
    ((simulationNodes Real.log sampleUrl [sampleScript]
      (fun _ => 1 / 2)).filter SimNode.pinned).length = 0 := by
  refine ⟨by simp, ?_⟩
  simp [simulationNodes, seedNodesFrom, pinRoot, isRootNode, seedNode, sampleScript, sampleUrl,
    SimNode.pinned]

/-- C9 (amended): a pinned node of a constructed store whose id is `root` has radius 30;
a node pinned through the url match alone has the size-based radius. -/
theorem pinned_radius (log : α → α) (url : String) (data : List (Resource α)) (rnd : ℕ → α)
    (n : SimNode α) (hn : n ∈ simulationNodes log url data rnd) (hp : n.pinned = true) :
    (n.id = "root" → n.radius = .fin 30) ∧
    (n.id ≠ "root" → n.url = url ∧ n.radius = JSNum.max (.fin 6)
      (JSNum.min (.fin 70) (JSNum.log log (.fin (n.size / 1024 + 1)) * .fin 7))) := by
  obtain ⟨m, hm, hres, hrad, hpin⟩ := pinRoot_mem url _ n hn
  obtain ⟨-, h1, h2, h3, -⟩ := seedNodesFrom_mem log rnd data 0 m hm
  have hroot : isRootNode url n = true := by
    rcases hpin hp with h | h
    · simp [SimNode.pinned, h1, h2] at h
    · exact h
  rw [hrad, h3, ← hres]
  constructor
  · intro hid
    simp [storeRadius, hid]
  · intro hid
    refine ⟨?_, by simp [storeRadius, hid]⟩
    simpa [isRootNode, hid] using hroot

/-- The pinned document node of the store of a two-record mock dataset has radius 30. -/
theorem pinned_radius_witness :
    ∃ n ∈ simulationNodes Real.log sampleUrl [sampleRoot, sampleScript]
        (fun _ => 1 / 2),
      n.pinned = true ∧ n.id = "root" ∧ n.radius = .fin 30 := by
  have hmem : ({ seedNode Real.log sampleRoot (1 / 2) (1 / 2) with
        fx := some 400, fy := some 300 } : SimNode ℝ)
      ∈ simulationNodes Real.log sampleUrl [sampleRoot, sampleScript]
        (fun _ => 1 / 2) := by
    simp [simulationNodes, seedNodesFrom, pinRoot, isRootNode, seedNode, sampleRoot]
  exact ⟨_, hmem, rfl, rfl, (pinned_radius Real.log _ _ _ _ hmem rfl).1 rfl⟩

/-- C9 as stated fails: a record matched by the analysed url under another id is pinned
and keeps the size-based radius, here 6. -/
theorem pinned_radius_counterexample :
    ∃ n ∈ simulationNodes Real.log sampleUrl [samplePage] (fun _ => 1 / 2),
      n.pinned = true ∧ n.id ≠ "root" ∧ n.url = sampleUrl ∧ n.radius = .fin 6 ∧
        n.radius ≠ .fin 30 := by
  have hrad : storeRadius Real.log (samplePage : Resource ℝ) = .fin 6 := by
    have e := clampedLog_fin 0 le_rfl
    simp only [storeRadius, samplePage]
    rw [if_neg (by decide), e]
    norm_num
  refine ⟨{ seedNode Real.log samplePage (1 / 2) (1 / 2) with fx := some 400, fy := some 300 },
    ?_, rfl, by decide, rfl, ?_, ?_⟩
  · simp [simulationNodes, seedNodesFrom, pinRoot, isRootNode, seedNode, samplePage, sampleUrl]
  · simpa [seedNode] using hrad
  · have : (seedNode Real.log samplePage (1 / 2) (1 / 2)).radius = .fin 6 := by
      simpa [seedNode] using hrad
    simp only [this]
    intro h
    injection h with h
    norm_num at h

end StoreTheorems

section RenderTheorems

theorem mem_visibleNodes {α : Type} (nodes : List (SimNode α)) (activeFilters : List String)
    (n : SimNode α) :
    n ∈ visibleNodes nodes activeFilters ↔ n ∈ nodes ∧ n.type ∈ activeFilters := by
  simp [visibleNodes, List.mem_filter]

theorem findParent_mem {α : Type} (nodes : List (SimNode α)) (s : String) (p : SimNode α)
    (h : findParent nodes s = some p) : p ∈ nodes :=
  List.mem_of_find?_eq_some h

/-- Every drawn link joins a visible child to a parent of the store that shares its id
with a visible node. -/
theorem mem_links {α : Type} (nodes : List (SimNode α)) (activeFilters : List String) (l : Link α)
    (h : l ∈ links nodes activeFilters) :
    l.child ∈ visibleNodes nodes activeFilters ∧ l.parent ∈ nodes ∧
      ∃ v ∈ visibleNodes nodes activeFilters, v.id = l.parent.id := by
  simp only [links, List.mem_filterMap] at h
  obtain ⟨node, hnode, hl⟩ := h
  simp only [linkOf] at hl
  split at hl
  · exact absurd hl (by simp)
  · split at hl
    · exact absurd hl (by simp)
    · rename_i parent hparent
      split at hl
      · rename_i hvis
        simp only [Option.some.injEq] at hl
        subst hl
        refine ⟨hnode, findParent_mem _ _ _ hparent, ?_⟩
        rw [Option.isSome_iff_exists] at hvis
        obtain ⟨v, hv⟩ := hvis
        refine ⟨v, List.mem_of_find?_eq_some hv, ?_⟩
        have := List.find?_some hv
        simpa using this
      · exact absurd hl (by simp)

theorem truthyString_iff (o : Option String) :
    truthyString o = true ↔ ∃ s, o = some s ∧ s ≠ "" := by
  cases o with
  | none => simp [truthyString]
  | some s => simp [truthyString]

/-- The exact condition under which the link of a visible node is drawn. -/
theorem linkOf_eq_some_iff {α : Type} (nodes : List (SimNode α)) (activeFilters : List String)
    (node : SimNode α) (l : Link α) :
    linkOf nodes activeFilters node = some l ↔
      ∃ s parent, node.initiator = some s ∧ s ≠ "" ∧ findParent nodes s = some parent ∧
        (∃ v ∈ visibleNodes nodes activeFilters, v.id = parent.id) ∧
        l = { parent := parent, child := node } := by
  cases hinit : node.initiator with
  | none => simp [linkOf, truthyString, hinit]
  | some s =>
    by_cases hs : s = ""
    · simp [linkOf, truthyString, hinit, hs]
    · cases hp : findParent nodes s with
      | none => simp [linkOf, truthyString, hinit, hs, hp]
      | some parent =>
        have hvis : ((visibleNodes nodes activeFilters).find? (fun n => n.id == parent.id)).isSome
            = true ↔ ∃ v ∈ visibleNodes nodes activeFilters, v.id = parent.id := by
          simp [List.find?_isSome]
        have hlink : linkOf nodes activeFilters node
            = if ((visibleNodes nodes activeFilters).find?
                (fun n => n.id == parent.id)).isSome = true
              then some { parent := parent, child := node } else none := by
          simp [linkOf, truthyString, hinit, hs, hp]
        rw [hlink]
        by_cases hv : ∃ v ∈ visibleNodes nodes activeFilters, v.id = parent.id
        · rw [if_pos (hvis.2 hv)]
          constructor
          · intro h
            exact ⟨s, parent, rfl, hs, hp, hv, (Option.some.inj h).symm⟩
          · rintro ⟨s', p, h1, -, h3, -, hl⟩
            obtain rfl := Option.some.inj h1
            rw [hp] at h3
            obtain rfl := Option.some.inj h3
            rw [hl]
        · rw [if_neg (fun h => hv (hvis.1 h))]
          constructor
          · intro h
            exact absurd h (by simp)
          · rintro ⟨s', p, h1, -, h3, hv', -⟩
            obtain rfl := Option.some.inj h1
            rw [hp] at h3
            obtain rfl := Option.some.inj h3
            exact absurd hv' hv

variable {α : Type} [LinearOrderedField α]

theorem mem_toggleFilter_of_mem (c t : String) (prev : List String) (hc : c ∈ prev) :
    t ∈ toggleFilter c prev ↔ t ∈ prev ∧ t ≠ c := by
  simp [toggleFilter, hc, List.mem_filter]

/-- C10: with unique ids and category c active, after toggleFilter(c) the visible nodes
are exactly the nodes of the store whose category is active and is not c, in store
order: no visible node and no endpoint of a drawn link has category c, and every node
of the store of every other active category is visible; neither the node store nor the
simulation step depends on the filter list (toggling commutes with an animation
frame), and a link between two nodes of other active categories is still drawn. -/
theorem toggleFilter_hides_category (sqrt : α → α) (st : AppState α) (c : String)
    (hc : c ∈ st.activeFilters) (hid : (st.nodes.map (fun n => n.id)).Nodup) :
    visibleNodes (st.toggleFilter c).nodes (st.toggleFilter c).activeFilters
      = st.nodes.filter (fun n => decide (n.type ∈ st.activeFilters) && decide (n.type ≠ c)) ∧
    (∀ n : SimNode α,
      n ∈ visibleNodes (st.toggleFilter c).nodes (st.toggleFilter c).activeFilters
        ↔ n ∈ st.nodes ∧ n.type ∈ st.activeFilters ∧ n.type ≠ c) ∧
    (∀ n ∈ st.nodes, n.type ∈ st.activeFilters → n.type ≠ c →
      n ∈ visibleNodes (st.toggleFilter c).nodes (st.toggleFilter c).activeFilters) ∧
    (∀ n ∈ st.nodes, n.type = c →
      n ∉ visibleNodes (st.toggleFilter c).nodes (st.toggleFilter c).activeFilters) ∧
    (∀ n ∈ visibleNodes (st.toggleFilter c).nodes (st.toggleFilter c).activeFilters,
      n.type ≠ c) ∧
    (∀ l ∈ links (st.toggleFilter c).nodes (st.toggleFilter c).activeFilters,
      l.child.type ≠ c ∧ l.parent.type ≠ c) ∧
    (∀ (n p : SimNode α) (s : String), n ∈ st.nodes → n.type ∈ st.activeFilters → n.type ≠ c →
      n.initiator = some s → s ≠ "" → findParent st.nodes s = some p →
      p.type ∈ st.activeFilters → p.type ≠ c →
      ({ parent := p, child := n } : Link α)
        ∈ links (st.toggleFilter c).nodes (st.toggleFilter c).activeFilters) ∧
    (∀ n ∈ visibleNodes st.nodes st.activeFilters, n.type ≠ c →
      n ∈ visibleNodes (st.toggleFilter c).nodes (st.toggleFilter c).activeFilters) ∧
    (st.toggleFilter c).nodes = st.nodes ∧
    (st.toggleFilter c).simulationNodes = st.simulationNodes ∧
    (st.toggleFilter c).frame sqrt = (st.frame sqrt).toggleFilter c := by
  have hiff : ∀ n : SimNode α,
      n ∈ visibleNodes (st.toggleFilter c).nodes (st.toggleFilter c).activeFilters
        ↔ n ∈ st.nodes ∧ n.type ∈ st.activeFilters ∧ n.type ≠ c := by
    intro n
    rw [mem_visibleNodes]
    exact and_congr_right (fun _ => mem_toggleFilter_of_mem c _ _ hc)
  have hvis : ∀ n ∈ visibleNodes (st.toggleFilter c).nodes (st.toggleFilter c).activeFilters,
      n.type ≠ c := fun n hn => ((hiff n).1 hn).2.2
  refine ⟨?_, hiff, fun n hn ha hne => (hiff n).2 ⟨hn, ha, hne⟩,
    fun n _ hn hmem => hvis n hmem hn, hvis, ?_, ?_, ?_, rfl, rfl, rfl⟩
  · simp only [visibleNodes, AppState.toggleFilter]
    apply List.filter_congr
    intro n _
    have := mem_toggleFilter_of_mem c n.type st.activeFilters hc
    by_cases h1 : n.type ∈ st.activeFilters <;> by_cases h2 : n.type = c <;>
      simp_all
  · intro l hl
    obtain ⟨h1, h2, v, hv, hvid⟩ := mem_links _ _ l hl
    refine ⟨hvis _ h1, ?_⟩
    have hvn : v ∈ st.nodes := ((mem_visibleNodes _ _ v).1 hv).1
    have hpn : l.parent ∈ st.nodes := h2
    have : v = l.parent := List.inj_on_of_nodup_map hid hvn hpn hvid
    rw [← this]
    exact hvis v hv
  · intro n p s hn hnt hnc hinit hs hfind hpt hpc
    have hp : p ∈ st.nodes := findParent_mem _ _ _ hfind
    simp only [links, List.mem_filterMap]
    refine ⟨n, (hiff n).2 ⟨hn, hnt, hnc⟩, ?_⟩
    exact (linkOf_eq_some_iff _ _ n _).2
      ⟨s, p, hinit, hs, hfind, ⟨p, (hiff p).2 ⟨hp, hpt, hpc⟩, rfl⟩, rfl⟩
  · intro n hn hne
    rw [mem_visibleNodes] at hn
    exact (hiff n).2 ⟨hn.1, hn.2, hne⟩

/-- Hiding the scripts of the two-node sample state: the document stays visible, the
script chunk does not. -/
theorem toggleFilter_hides_category_witness :
    "js" ∈ (sampleState : AppState ℝ).activeFilters ∧
    ((sampleState : AppState ℝ).nodes.map (fun n => n.id)).Nodup ∧
    visibleNodes ((sampleState : AppState ℝ).toggleFilter "js").nodes
        ((sampleState : AppState ℝ).toggleFilter "js").activeFilters
      = (sampleState : AppState ℝ).nodes.filter
          (fun n => decide (n.type ∈ (sampleState : AppState ℝ).activeFilters)
            && decide (n.type ≠ "js")) ∧
    (pinnedRoot : SimNode ℝ)
      ∈ visibleNodes ((sampleState : AppState ℝ).toggleFilter "js").nodes
          ((sampleState : AppState ℝ).toggleFilter "js").activeFilters ∧
    (childNode 460 300 0 0 : SimNode ℝ)
      ∉ visibleNodes ((sampleState : AppState ℝ).toggleFilter "js").nodes
          ((sampleState : AppState ℝ).toggleFilter "js").activeFilters :=
  have hc : "js" ∈ (sampleState : AppState ℝ).activeFilters := by decide
  have hid : ((sampleState : AppState ℝ).nodes.map (fun n => n.id)).Nodup := by
    simp [sampleState, twoNodeStore, pinnedRoot, childNode, sampleRoot]
  ⟨hc, hid, (toggleFilter_hides_category Real.sqrt sampleState "js" hc hid).1,
    (toggleFilter_hides_category Real.sqrt sampleState "js" hc hid).2.2.1 pinnedRoot
      (by simp [sampleState, twoNodeStore]) (by decide) (by decide),
    (toggleFilter_hides_category Real.sqrt sampleState "js" hc hid).2.2.2.1
      (childNode 460 300 0 0) (by simp [sampleState, twoNodeStore]) rfl⟩

end RenderTheorems

section PinnedTheorems

variable {α : Type} [LinearOrderedField α]

theorem updateNode_keepsPinned (sqrt : α → α) (nodes : List (SimNode α)) (node : SimNode α) :
    KeepsPinned node (updateNode sqrt nodes node) := by
  unfold KeepsPinned updateNode
  split
  · refine ⟨rfl, rfl, rfl, rfl, fun h1 h2 => ?_⟩
    simp [h1, h2, fixedValue]
  · rename_i h
    refine ⟨rfl, rfl, rfl, rfl, fun h1 _ => ?_⟩
    exfalso
    apply h
    simp [h1, truthyFixed]

/-- The in-place pass relates every node to its updated version by any relation that
each single visit establishes. -/
theorem animateFrom_forall₂ (sqrt : α → α) (R : SimNode α → SimNode α → Prop)
    (hR : ∀ nodes node, R node (updateNode sqrt nodes node))
    (done todo : List (SimNode α)) :
    ∃ upd, animateFrom sqrt done todo = done ++ upd ∧ List.Forall₂ R todo upd := by
  induction todo generalizing done with
  | nil => exact ⟨[], by simp [animateFrom], List.Forall₂.nil⟩
  | cons node rest ih =>
    obtain ⟨upd, h1, h2⟩ := ih (done ++ [updateNode sqrt (done ++ node :: rest) node])
    refine ⟨updateNode sqrt (done ++ node :: rest) node :: upd, ?_, List.Forall₂.cons (hR _ _) h2⟩
    rw [animateFrom, h1]
    simp

theorem animate_forall₂ (sqrt : α → α) (R : SimNode α → SimNode α → Prop)
    (hR : ∀ nodes node, R node (updateNode sqrt nodes node)) (nodes : List (SimNode α)) :
    List.Forall₂ R nodes (animate sqrt nodes) := by
  obtain ⟨upd, h1, h2⟩ := animateFrom_forall₂ sqrt R hR [] nodes
  rw [animate, h1]
  simpa using h2

theorem forall₂_getElem? {β γ : Type} {R : β → γ → Prop} {l₁ : List β} {l₂ : List γ}
    (h : List.Forall₂ R l₁ l₂) (i : ℕ) (a : β) (ha : l₁[i]? = some a) :
    ∃ b, l₂[i]? = some b ∧ R a b := by
  induction h generalizing i with
  | nil => simp at ha
  | cons hab _ ih =>
    cases i with
    | zero =>
      simp only [List.getElem?_cons_zero, Option.some.injEq] at ha
      subst ha
      exact ⟨_, by simp, hab⟩
    | succ j =>
      simp only [List.getElem?_cons_succ] at ha
      simpa using ih j ha

/-- A node fixed at (400, 300) keeps its record, radius, fixed position and velocity
through any number of steps and sits at (400, 300) after each of them. -/
theorem iterate_animate_pinned (sqrt : α → α) (k : ℕ) (nodes : List (SimNode α)) (i : ℕ)
    (node : SimNode α) (hi : nodes[i]? = some node) (hx : node.fx = some 400)
    (hy : node.fy = some 300) :
    ∃ node', ((animate sqrt)^[k] nodes)[i]? = some node' ∧
      node'.toResource = node.toResource ∧ node'.radius = node.radius ∧
      node'.fx = some 400 ∧ node'.fy = some 300 ∧
      node'.vx = node.vx ∧ node'.vy = node.vy ∧
      (1 ≤ k → node'.x = .fin 400 ∧ node'.y = .fin 300) := by
  induction k generalizing nodes node with
  | zero => exact ⟨node, by simpa using hi, rfl, rfl, hx, hy, rfl, rfl, by simp⟩
  | succ k ih =>
    obtain ⟨m, hm, hres, hrad, hfx, hfy, hpos⟩ :=
      forall₂_getElem? (animate_forall₂ sqrt KeepsPinned (updateNode_keepsPinned sqrt) nodes)
        i node hi
    obtain ⟨hmx, hmy, hmvx, hmvy⟩ := hpos hx hy
    obtain ⟨node', h1, h2, h3, h4, h5, h6, h7, h8⟩ :=
      ih (animate sqrt nodes) m hm (hfx.trans hx) (hfy.trans hy)
    refine ⟨node', by simpa [Function.iterate_succ] using h1, h2.trans hres, h3.trans hrad,
      h4, h5, h6.trans hmvx, h7.trans hmvy, fun _ => ?_⟩
    rcases Nat.eq_zero_or_pos k with hk | hk
    · subst hk
      simp only [Function.iterate_zero, id_eq] at h1
      rw [hm] at h1
      simp only [Option.some.injEq] at h1
      subst h1
      exact ⟨hmx, hmy⟩
    · exact h8 hk

/-- In a constructed store a pinned node is fixed at (400, 300) and has velocity 0. -/
theorem simulationNodes_pinned (log : α → α) (url : String) (data : List (Resource α))
    (rnd : ℕ → α) (n : SimNode α) (hn : n ∈ simulationNodes log url data rnd)
    (hp : n.pinned = true) :
    n.fx = some 400 ∧ n.fy = some 300 ∧ n.vx = .fin 0 ∧ n.vy = .fin 0 := by
  have key : ∀ l : List (SimNode α),
      (∀ m ∈ l, m.fx = none ∧ m.fy = none ∧ m.vx = .fin 0 ∧ m.vy = .fin 0) →
      n ∈ pinRoot url l → n.fx = some 400 ∧ n.fy = some 300 ∧ n.vx = .fin 0 ∧ n.vy = .fin 0 := by
    intro l
    induction l with
    | nil => intro _ h; simp [pinRoot] at h
    | cons a as ih =>
      intro hl h
      have ha := hl a (List.mem_cons_self _ _)
      have has : ∀ m ∈ as, m.fx = none ∧ m.fy = none ∧ m.vx = .fin 0 ∧ m.vy = .fin 0 :=
        fun m hm => hl m (List.mem_cons_of_mem _ hm)
      by_cases hr : isRootNode url a = true
      · simp only [pinRoot, hr, if_true, List.mem_cons] at h
        rcases h with h | h
        · subst h
          exact ⟨rfl, rfl, ha.2.2.1, ha.2.2.2⟩
        · have := has n h
          simp [SimNode.pinned, this.1, this.2.1] at hp
      · simp only [pinRoot, hr, List.mem_cons, Bool.false_eq_true, if_false] at h
        rcases h with h | h
        · subst h
          simp [SimNode.pinned, ha.1, ha.2.1] at hp
        · exact ih has h
  apply key _ _ hn
  intro m hm
  obtain ⟨-, h1, h2, -, h3, h4⟩ := seedNodesFrom_mem log rnd data 0 m hm
  exact ⟨h1, h2, h3, h4⟩

/-- C2 (amended): in the store of any dataset the pinned node keeps velocity (0, 0) and
its fixed position through every number of steps, and after each step (from the first
one on) it sits at (400, 300), whatever the other nodes are. -/
theorem pinned_node_stays_at_center (log sqrt : α → α) (url : String)
    (data : List (Resource α)) (rnd : ℕ → α) (k i : ℕ) (root : SimNode α)
    (hi : (simulationNodes log url data rnd)[i]? = some root) (hp : root.pinned = true) :
    ∃ root', ((animate sqrt)^[k] (simulationNodes log url data rnd))[i]? = some root' ∧
      root'.toResource = root.toResource ∧ root'.radius = root.radius ∧
      root'.fx = some 400 ∧ root'.fy = some 300 ∧
      root'.vx = .fin 0 ∧ root'.vy = .fin 0 ∧
      (1 ≤ k → root'.x = .fin 400 ∧ root'.y = .fin 300) := by
  obtain ⟨hx, hy, hvx, hvy⟩ :=
    simulationNodes_pinned log url data rnd root (List.getElem?_mem hi) hp
  obtain ⟨r, h1, h2, h3, h4, h5, h6, h7, h8⟩ :=
    iterate_animate_pinned sqrt k _ i root hi hx hy
  exact ⟨r, h1, h2, h3, h4, h5, h6.trans hvx, h7.trans hvy, h8⟩

/-- The document node of a two-record store after three steps. -/
theorem pinned_node_stays_at_center_witness :
    ∃ root root' : SimNode ℝ,
      (simulationNodes Real.log sampleUrl [sampleRoot, sampleScript] sampleDraws)[0]?
        = some root ∧ root.pinned = true ∧
      ((animate Real.sqrt)^[3]
        (simulationNodes Real.log sampleUrl [sampleRoot, sampleScript] sampleDraws))[0]?
        = some root' ∧
      root'.x = .fin 400 ∧ root'.y = .fin 300 ∧ root'.vx = .fin 0 ∧ root'.vy = .fin 0 := by
  have hi : (simulationNodes Real.log sampleUrl [sampleRoot, sampleScript] sampleDraws)[0]?
      = some { seedNode Real.log sampleRoot (sampleDraws 0) (sampleDraws 1) with
          fx := some 400, fy := some 300 } := by
    simp [simulationNodes, seedNodesFrom, pinRoot, isRootNode, seedNode, sampleRoot]
  obtain ⟨r, h1, -, -, -, -, h6, h7, h8⟩ :=
    pinned_node_stays_at_center Real.log Real.sqrt sampleUrl [sampleRoot, sampleScript]
      sampleDraws 3 0 _ hi rfl
  exact ⟨_, r, hi, rfl, h1, (h8 (by norm_num)).1, (h8 (by norm_num)).2, h6, h7⟩

/-- C2 as stated fails at the first step: the fresh store holds the pinned document node
at its jittered seed position (375, 281.25), the first step moves it to (400, 300). -/
theorem pinned_position_counterexample :
    simulationNodes Real.log sampleUrl [sampleRoot] sampleDraws
      = [{ seedNode Real.log sampleRoot 0 (1 / 8) with fx := some 400, fy := some 300 }] ∧
    (seedNode Real.log (sampleRoot : Resource ℝ) 0 (1 / 8)).x = .fin 375 ∧
    (seedNode Real.log (sampleRoot : Resource ℝ) 0 (1 / 8)).y = .fin (1125 / 4) ∧
    animate Real.sqrt (simulationNodes Real.log sampleUrl [sampleRoot] sampleDraws)
      = [{ seedNode Real.log sampleRoot 0 (1 / 8) with
            fx := some 400, fy := some 300, x := .fin 400, y := .fin 300 }] := by
  have hs : simulationNodes Real.log sampleUrl [sampleRoot] sampleDraws
      = [{ seedNode Real.log sampleRoot 0 (1 / 8) with fx := some 400, fy := some 300 }] := by
    simp [simulationNodes, seedNodesFrom, pinRoot, isRootNode, seedNode, sampleRoot, sampleDraws]
  refine ⟨hs, ?_, ?_, ?_⟩
  · simp only [seedNode]
    norm_num
  · simp only [seedNode]
    norm_num
  · rw [hs]
    simp [animate, animateFrom, updateNode, truthyFixed, fixedValue]

end PinnedTheorems

section TwoNodeTheorems

/-- The distance term of the step on finite coordinates. -/
theorem sqrt_dist_fin (a b : ℝ) :
    JSNum.sqrt Real.sqrt (JSNum.fin (a * a + b * b)) = JSNum.fin (Real.sqrt (a * a + b * b)) :=
  JSNum.sqrt_fin _ _ (add_nonneg (mul_self_nonneg _) (mul_self_nonneg _))

/-- The pinned root is left as it is by its visit. -/
theorem updateNode_pinnedRoot (nodes : List (SimNode ℝ)) :
    updateNode Real.sqrt nodes pinnedRoot = pinnedRoot := by
  simp [updateNode, pinnedRoot, truthyFixed, fixedValue]

theorem animate_twoNodeStore (px py vx vy : ℝ) :
    animate Real.sqrt (twoNodeStore px py vx vy)
      = [pinnedRoot, updateNode Real.sqrt (twoNodeStore px py vx vy) (childNode px py vx vy)] := by
  simp [animate, animateFrom, twoNodeStore, updateNode_pinnedRoot]

/-- The visit of the child in the two-node store, in terms of its distance `d` to the
root: attraction beyond 90, repulsion below 55, then damping and the move. -/
theorem updateNode_child (px py vx vy d : ℝ)
    (hd : Real.sqrt ((400 - px) * (400 - px) + (300 - py) * (300 - py)) = d) (hpos : 0 < d) :
    updateNode Real.sqrt (twoNodeStore px py vx vy) (childNode px py vx vy)
      = childNode
          (px + ((if 90 < d then vx + (400 - px) / d * 0.04 else vx)
            + (if d < 55 then (px - 400) / d * ((55 - d) / 55) * 1.2 else 0)) * 0.90)
          (py + ((if 90 < d then vy + (300 - py) / d * 0.04 else vy)
            + (if d < 55 then (py - 300) / d * ((55 - d) / 55) * 1.2 else 0)) * 0.90)
          (((if 90 < d then vx + (400 - px) / d * 0.04 else vx)
            + (if d < 55 then (px - 400) / d * ((55 - d) / 55) * 1.2 else 0)) * 0.90)
          (((if 90 < d then vy + (300 - py) / d * 0.04 else vy)
            + (if d < 55 then (py - 300) / d * ((55 - d) / 55) * 1.2 else 0)) * 0.90) := by
  have hd' : Real.sqrt ((px - 400) * (px - 400) + (py - 300) * (py - 300)) = d := by
    rw [← hd]
    congr 1
    ring
  have hne : d ≠ 0 := hpos.ne.symm
  have h55 : (55 : ℝ) ≠ 0 := by norm_num
  have e1 : (80 : ℝ) + 10 = 90 := by norm_num
  have e2 : (10 : ℝ) + 30 + 15 = 55 := by norm_num
  have hatt : attract Real.sqrt (twoNodeStore px py vx vy) (childNode px py vx vy)
      = (.fin (if 90 < d then vx + (400 - px) / d * 0.04 else vx),
         .fin (if 90 < d then vy + (300 - py) / d * 0.04 else vy)) := by
    have ht : attractionTarget (twoNodeStore px py vx vy) (childNode px py vx vy)
        = (.fin 400, .fin 300) := by
      simp [attractionTarget, twoNodeStore, childNode, pinnedRoot, findParent, truthyString,
        sampleRoot]
    simp only [attract, ht]
    simp only [childNode, JSNum.fin_sub, JSNum.fin_mul, JSNum.fin_add, sqrt_dist_fin, hd,
      JSNum.orElse_fin _ _ hne, JSNum.gt_fin, e1, JSNum.fin_div _ _ hne]
    split_ifs <;> simp_all
  have hrep : ∀ a b : ℝ,
      [pinnedRoot, childNode px py vx vy].foldl (repel Real.sqrt (childNode px py vx vy))
        (JSNum.fin a, JSNum.fin b)
      = (.fin (a + (if d < 55 then (px - 400) / d * ((55 - d) / 55) * 1.2 else 0)),
         .fin (b + (if d < 55 then (py - 300) / d * ((55 - d) / 55) * 1.2 else 0))) := by
    intro a b
    have hid : (childNode px py vx vy).id ≠ (pinnedRoot : SimNode ℝ).id := by
      simp [childNode, pinnedRoot, sampleRoot]
    simp only [List.foldl_cons, List.foldl_nil]
    rw [show repel Real.sqrt (childNode px py vx vy) (JSNum.fin a, JSNum.fin b) pinnedRoot
        = (.fin (a + (if d < 55 then (px - 400) / d * ((55 - d) / 55) * 1.2 else 0)),
           .fin (b + (if d < 55 then (py - 300) / d * ((55 - d) / 55) * 1.2 else 0))) from ?_]
    · simp [repel]
    · simp only [repel, if_neg hid]
      simp only [childNode, pinnedRoot, JSNum.fin_sub, JSNum.fin_mul, JSNum.fin_add,
        sqrt_dist_fin, hd', e2, JSNum.lt_fin, JSNum.fin_div _ _ hne, JSNum.fin_div _ _ h55]
      split_ifs <;> simp_all
  simp only [updateNode]
  rw [if_neg (by simp [childNode, truthyFixed])]
  simp only [twoNodeStore, hatt] at hatt ⊢
  rw [hrep]
  simp [childNode]

/-- A child on the ray from the root in direction `(ux, uy)`, moving along the ray,
stays on it: the step acts on distance and speed as `axisStep`. -/
theorem animate_radial (ux uy d s : ℝ) (hu : ux * ux + uy * uy = 1) (hd : 0 < d) :
    animate Real.sqrt (twoNodeStore (400 + d * ux) (300 + d * uy) (s * ux) (s * uy))
      = twoNodeStore (400 + (axisStep (d, s)).1 * ux) (300 + (axisStep (d, s)).1 * uy)
          ((axisStep (d, s)).2 * ux) ((axisStep (d, s)).2 * uy) := by
  have hdist : Real.sqrt ((400 - (400 + d * ux)) * (400 - (400 + d * ux))
      + (300 - (300 + d * uy)) * (300 - (300 + d * uy))) = d := by
    have : (400 - (400 + d * ux)) * (400 - (400 + d * ux))
        + (300 - (300 + d * uy)) * (300 - (300 + d * uy)) = d * d := by
      have : (400 - (400 + d * ux)) * (400 - (400 + d * ux))
          + (300 - (300 + d * uy)) * (300 - (300 + d * uy))
          = d * d * (ux * ux + uy * uy) := by ring
      rw [this, hu, mul_one]
    rw [this, Real.sqrt_mul_self hd.le]
  have hne : d ≠ 0 := hd.ne.symm
  rw [animate_twoNodeStore, updateNode_child _ _ _ _ d hdist hd, twoNodeStore]
  congr 2
  simp only [axisStep, gt_iff_lt]
  congr 1 <;> (split_ifs <;> field_simp <;> ring)

end TwoNodeTheorems

section SettlingTheorems

/-- Iterating the step along a ray, as long as the child stays off the root. -/
theorem iterate_animate_radial (ux uy : ℝ) (hu : ux * ux + uy * uy = 1) (k : ℕ) (d s : ℝ)
    (hpos : ∀ j < k, 0 < (axisStep^[j] (d, s)).1) :
    (animate Real.sqrt)^[k] (twoNodeStore (400 + d * ux) (300 + d * uy) (s * ux) (s * uy))
      = twoNodeStore (400 + (axisStep^[k] (d, s)).1 * ux) (300 + (axisStep^[k] (d, s)).1 * uy)
          ((axisStep^[k] (d, s)).2 * ux) ((axisStep^[k] (d, s)).2 * uy) := by
  induction k with
  | zero => simp
  | succ k ih =>
    rw [Function.iterate_succ_apply', ih (fun j hj => hpos j (Nat.lt_succ_of_lt hj)),
      Function.iterate_succ_apply']
    exact animate_radial ux uy _ _ hu (hpos k (Nat.lt_succ_self k))

/-- One step of the repulsion phase in scaled coordinates. -/
theorem axisStep_scaled (e a b : ℝ) (he : 0 < e) (ha : 0 < a) :
    axisStep (55 - e * a, e * b)
      = (55 - e * (scaledStep (a, b)).1, e * (scaledStep (a, b)).2) := by
  have h1 : ¬ (55 - e * a > 90) := by nlinarith [mul_pos he ha]
  have h2 : 55 - e * a < 55 := by nlinarith [mul_pos he ha]
  simp only [axisStep, scaledStep, if_neg h1, if_pos h2, Prod.mk.injEq]
  constructor <;> ring

theorem scaledStep_cast (p : ℚ × ℚ) :
    scaledStep ((p.1 : ℝ), (p.2 : ℝ)) = (((scaledStep p).1 : ℝ), ((scaledStep p).2 : ℝ)) := by
  simp only [scaledStep, Prod.mk.injEq]
  constructor <;> (push_cast; ring)

theorem iterate_scaledStep_cast (n : ℕ) :
    scaledStep^[n] ((1 : ℝ), (0 : ℝ))
      = (((scaledStep^[n] ((1 : ℚ), (0 : ℚ))).1 : ℝ), ((scaledStep^[n] ((1 : ℚ), (0 : ℚ))).2 : ℝ)) := by
  induction n with
  | zero => simp
  | succ n ih => rw [Function.iterate_succ_apply', ih, scaledStep_cast, Function.iterate_succ_apply']

/-- The scaled repulsion phase takes exactly 15 steps: the scaled gap to distance 55 is
positive for 14 steps and not positive after the 15th. -/
theorem scaledStep_facts :
    (∀ j < 15, 0 < (scaledStep^[j] ((1 : ℚ), (0 : ℚ))).1 ∧
      (scaledStep^[j] ((1 : ℚ), (0 : ℚ))).1 ≤ 1) ∧
    (scaledStep^[15] ((1 : ℚ), (0 : ℚ))).1 ≤ 0 ∧
    0 ≤ (scaledStep^[15] ((1 : ℚ), (0 : ℚ))).2 ∧
    9 * (scaledStep^[15] ((1 : ℚ), (0 : ℚ))).2 - (scaledStep^[15] ((1 : ℚ), (0 : ℚ))).1 ≤ 7 / 11 ∧
    55 * (scaledStep^[15] ((1 : ℚ), (0 : ℚ))).2 ≤ 4 := by
  decide!

/-- The repulsion phase from rest at distance `55 - e`. -/
theorem iterate_axisStep_scaled (e : ℝ) (he : 0 < e) (n : ℕ) (hn : n ≤ 15) :
    axisStep^[n] (55 - e, 0)
      = (55 - e * (scaledStep^[n] ((1 : ℝ), (0 : ℝ))).1,
          e * (scaledStep^[n] ((1 : ℝ), (0 : ℝ))).2) := by
  induction n with
  | zero => simp
  | succ n ih =>
    have hlt : n < 15 := hn
    rw [Function.iterate_succ_apply', ih hlt.le, Function.iterate_succ_apply']
    apply axisStep_scaled e _ _ he
    rw [iterate_scaledStep_cast]
    show (0 : ℝ) < ((scaledStep^[n] ((1 : ℚ), (0 : ℚ))).1 : ℝ)
    exact_mod_cast (scaledStep_facts.1 n hlt).1

/-- Inside the band between 55 and 90 no force acts: the invariant `d + 9 * s` is kept,
the distance does not decrease and the speed shrinks by 0.9 per step. -/
theorem iterate_axisStep_band (W : ℝ) (hW : W ≤ 90) (n : ℕ) (d s : ℝ) (h55 : 55 ≤ d)
    (hs : 0 ≤ s) (hds : d + 9 * s ≤ W) :
    55 ≤ (axisStep^[n] (d, s)).1 ∧ 0 ≤ (axisStep^[n] (d, s)).2 ∧
      (axisStep^[n] (d, s)).1 + 9 * (axisStep^[n] (d, s)).2 ≤ W ∧
      (axisStep^[n] (d, s)).2 = s * (9 / 10) ^ n := by
  induction n generalizing d s with
  | zero => simp [h55, hs, hds]
  | succ n ih =>
    have h1 : ¬ (d > 90) := by linarith
    have h2 : ¬ (d < 55) := by linarith
    have hstep : axisStep (d, s) = (d + s * 0.90, s * 0.90) := by
      simp only [axisStep, if_neg h1, if_neg h2]
    rw [Function.iterate_succ_apply, hstep]
    obtain ⟨i1, i2, i3, i4⟩ := ih (d + s * 0.90) (s * 0.90) (by linarith [mul_nonneg hs (by norm_num : (0:ℝ) ≤ 0.90)])
      (by positivity) (by norm_num at hds ⊢; linarith)
    refine ⟨i1, i2, i3, ?_⟩
    rw [i4, pow_succ]
    norm_num
    ring

/-- Length of a vector along the unit direction `(ux, uy)`. -/
theorem sqrt_scaled_unit (ux uy t : ℝ) (hu : ux * ux + uy * uy = 1) (ht : 0 ≤ t) :
    Real.sqrt (t * ux * (t * ux) + t * uy * (t * uy)) = t := by
  have : t * ux * (t * ux) + t * uy * (t * uy) = t * t * (ux * ux + uy * uy) := by ring
  rw [this, hu, mul_one, Real.sqrt_mul_self ht]

/-- The repulsion phase from rest at distance `55 - e`: the child does not come closer
to the root during the first 15 steps, and after the 15th it has left the repulsion
range with `distance + 9 * speed` at most `55 + 7/11 * e`. -/
theorem repulsion_phase (e : ℝ) (he : 0 < e) :
    (∀ j < 15, 55 - e ≤ (axisStep^[j] ((55 - e, 0) : ℝ × ℝ)).1) ∧
    ∃ a b : ℝ, axisStep^[15] ((55 - e, 0) : ℝ × ℝ) = (55 - e * a, e * b) ∧
      a ≤ 0 ∧ 0 ≤ b ∧ 9 * b - a ≤ 7 / 11 ∧ 55 * b ≤ 4 := by
  obtain ⟨f1, f2, f3, f4, f5⟩ := scaledStep_facts
  constructor
  · intro j hj
    have key := iterate_axisStep_scaled e he j hj.le
    rw [iterate_scaledStep_cast] at key
    have c1 := (f1 j hj).2
    generalize scaledStep^[j] ((1 : ℚ), (0 : ℚ)) = x at key c1
    rw [key]
    have c2 : (x.1 : ℝ) ≤ 1 := by exact_mod_cast c1
    show 55 - e ≤ 55 - e * (x.1 : ℝ)
    nlinarith
  · have key := iterate_axisStep_scaled e he 15 le_rfl
    rw [iterate_scaledStep_cast] at key
    generalize scaledStep^[15] ((1 : ℚ), (0 : ℚ)) = x at key f2 f3 f4 f5
    refine ⟨(x.1 : ℝ), (x.2 : ℝ), key, by exact_mod_cast f2, by exact_mod_cast f3, ?_, ?_⟩
    · have := (Rat.cast_le (K := ℝ)).2 f4
      push_cast at this
      exact this
    · have := (Rat.cast_le (K := ℝ)).2 f5
      push_cast at this
      exact this

/-- The two-node store started at rest anywhere in the jitter box except on the root, in
radial form: after 15 + n steps the child is on the ray through its seed position in
direction `(ux, uy)`, at distance `q₁` from the root and moving away at speed `q₂`. -/
theorem twoNode_radial_run (px py : ℝ) (hx : |px - 400| ≤ 25) (hy : |py - 300| ≤ 25)
    (hne : ¬ (px = 400 ∧ py = 300)) (n : ℕ) :
    ∃ ux uy q₁ q₂ : ℝ, ux * ux + uy * uy = 1 ∧
      (animate Real.sqrt)^[15 + n] (twoNodeStore px py 0 0)
        = twoNodeStore (400 + q₁ * ux) (300 + q₁ * uy) (q₂ * ux) (q₂ * uy) ∧
      55 ≤ q₁ ∧ 0 ≤ q₂ ∧
      q₁ + 9 * q₂ ≤ 90 - 7 / 11 * Real.sqrt ((400 - px) * (400 - px) + (300 - py) * (300 - py)) ∧
      q₂ ≤ 4 * (9 / 10) ^ n := by
  obtain ⟨hx1, hx2⟩ := abs_le.1 hx
  obtain ⟨hy1, hy2⟩ := abs_le.1 hy
  set D : ℝ := (400 - px) * (400 - px) + (300 - py) * (300 - py) with hD
  have hDpos : 0 < D := by
    rcases eq_or_ne px 400 with h | h
    · have h' : py ≠ 300 := fun hpy => hne ⟨h, hpy⟩
      have : 0 < (300 - py) * (300 - py) := mul_self_pos.2 (sub_ne_zero.2 h'.symm)
      nlinarith [mul_self_nonneg (400 - px)]
    · have : 0 < (400 - px) * (400 - px) := mul_self_pos.2 (sub_ne_zero.2 h.symm)
      nlinarith [mul_self_nonneg (300 - py)]
  have hDle : D ≤ 1250 := by
    rw [hD]
    nlinarith
  set d₀ : ℝ := Real.sqrt D with hd₀
  have hd₀pos : 0 < d₀ := Real.sqrt_pos.2 hDpos
  have hd₀sq : d₀ * d₀ = D := Real.mul_self_sqrt hDpos.le
  have hd₀lt : d₀ < 55 := by nlinarith
  have hd₀ne : d₀ ≠ 0 := hd₀pos.ne.symm
  have hu : (px - 400) / d₀ * ((px - 400) / d₀) + (py - 300) / d₀ * ((py - 300) / d₀) = 1 := by
    field_simp
    rw [hd₀sq, hD]
    ring
  have hstore : twoNodeStore px py 0 0
      = twoNodeStore (400 + d₀ * ((px - 400) / d₀)) (300 + d₀ * ((py - 300) / d₀))
          (0 * ((px - 400) / d₀)) (0 * ((py - 300) / d₀)) := by
    congr 1 <;> field_simp
  have he : 0 < 55 - d₀ := by linarith
  have hstart : ((d₀, 0) : ℝ × ℝ) = (55 - (55 - d₀), 0) := by simp
  obtain ⟨hfirst, a, b, h15, g2, g3, g4, g5⟩ := repulsion_phase (55 - d₀) he
  rw [← hstart] at h15 hfirst
  have k1 : 55 ≤ 55 - (55 - d₀) * a := by nlinarith
  have k2 : 0 ≤ (55 - d₀) * b := mul_nonneg he.le g3
  have k3 : 55 - (55 - d₀) * a + 9 * ((55 - d₀) * b) ≤ 90 - 7 / 11 * d₀ := by nlinarith
  have k4 : (55 - d₀) * b ≤ 4 := by nlinarith
  obtain ⟨b1, b2, b3, b4⟩ := iterate_axisStep_band (90 - 7 / 11 * d₀) (by linarith) n
    (55 - (55 - d₀) * a) ((55 - d₀) * b) k1 k2 k3
  have hiter : axisStep^[15 + n] ((d₀, 0) : ℝ × ℝ)
      = axisStep^[n] (55 - (55 - d₀) * a, (55 - d₀) * b) := by
    rw [add_comm, Function.iterate_add_apply, h15]
  -- the child stays off the root throughout
  have hpos : ∀ j < 15 + n, 0 < (axisStep^[j] ((d₀, 0) : ℝ × ℝ)).1 := by
    intro j hj
    rcases Nat.lt_or_ge j 15 with hj15 | hj15
    · have := hfirst j hj15
      linarith
    · obtain ⟨m, rfl⟩ := Nat.exists_eq_add_of_le hj15
      rw [add_comm 15 m, Function.iterate_add_apply, h15]
      have := (iterate_axisStep_band (90 - 7 / 11 * d₀) (by linarith) m
        (55 - (55 - d₀) * a) ((55 - d₀) * b) k1 k2 k3).1
      linarith
  have hrun := iterate_animate_radial _ _ hu (15 + n) d₀ 0 hpos
  rw [← hstore, hiter] at hrun
  generalize axisStep^[n] (55 - (55 - d₀) * a, (55 - d₀) * b) = q at hrun b1 b2 b3 b4
  refine ⟨_, _, q.1, q.2, hu, hrun, b1, b2, b3, ?_⟩
  rw [b4]
  exact mul_le_mul_of_nonneg_right k4 (by positivity)

/-- Distance to the root of a child on the ray in direction `(ux, uy)`. -/
theorem dist_on_ray (ux uy t : ℝ) (hu : ux * ux + uy * uy = 1) (ht : 0 ≤ t) :
    Real.sqrt ((400 - (400 + t * ux)) * (400 - (400 + t * ux))
      + (300 - (300 + t * uy)) * (300 - (300 + t * uy))) = t := by
  have : (400 - (400 + t * ux)) * (400 - (400 + t * ux))
      + (300 - (300 + t * uy)) * (300 - (300 + t * uy))
      = t * ux * (t * ux) + t * uy * (t * uy) := by ring
  rw [this, sqrt_scaled_unit _ _ t hu ht]

/-- C4 (amended): the two-node store started at rest at any seeded position other than
the root itself converges into the force-free band: from step 15 on the child's
distance to the root stays between 55 and 90 - 7/11 * (start distance), and its speed
after step 15 + n is at most 4 * 0.9 ^ n. -/
theorem child_settles_inside_band (px py : ℝ) (hx : |px - 400| ≤ 25) (hy : |py - 300| ≤ 25)
    (hne : ¬ (px = 400 ∧ py = 300)) (n : ℕ) :
    ∃ px' py' vx' vy' : ℝ,
      (animate Real.sqrt)^[15 + n] (twoNodeStore px py 0 0) = twoNodeStore px' py' vx' vy' ∧
      55 ≤ Real.sqrt ((400 - px') * (400 - px') + (300 - py') * (300 - py')) ∧
      Real.sqrt ((400 - px') * (400 - px') + (300 - py') * (300 - py'))
        ≤ 90 - 7 / 11 * Real.sqrt ((400 - px) * (400 - px) + (300 - py) * (300 - py)) ∧
      Real.sqrt (vx' * vx' + vy' * vy') ≤ 4 * (9 / 10) ^ n := by
  obtain ⟨ux, uy, q₁, q₂, hu, hrun, h55, hq₂, hW, hspeed⟩ := twoNode_radial_run px py hx hy hne n
  have hq₁ : 0 ≤ q₁ := by linarith
  refine ⟨_, _, _, _, hrun, ?_, ?_, ?_⟩
  · rw [dist_on_ray ux uy q₁ hu hq₁]
    exact h55
  · rw [dist_on_ray ux uy q₁ hu hq₁]
    linarith
  · rw [sqrt_scaled_unit ux uy q₂ hu hq₂]
    exact hspeed

/-- The child seeded at (375, 300), 20 steps later. -/
theorem child_settles_inside_band_witness :
    |(375 : ℝ) - 400| ≤ 25 ∧ |(300 : ℝ) - 300| ≤ 25 ∧ ¬ ((375 : ℝ) = 400 ∧ (300 : ℝ) = 300) ∧
    ∃ px' py' vx' vy' : ℝ,
      (animate Real.sqrt)^[15 + 5] (twoNodeStore 375 300 0 0) = twoNodeStore px' py' vx' vy' ∧
      55 ≤ Real.sqrt ((400 - px') * (400 - px') + (300 - py') * (300 - py')) ∧
      Real.sqrt ((400 - px') * (400 - px') + (300 - py') * (300 - py'))
        ≤ 90 - 7 / 11 * Real.sqrt ((400 - 375) * (400 - 375) + (300 - 300) * (300 - 300)) ∧
      Real.sqrt (vx' * vx' + vy' * vy') ≤ 4 * (9 / 10) ^ 5 :=
  ⟨by norm_num [abs_le], by norm_num, by norm_num,
    child_settles_inside_band 375 300 (by norm_num [abs_le]) (by norm_num) (by norm_num) 5⟩

theorem twoNodeStore_inj (a b c d a' b' c' d' : ℝ)
    (h : twoNodeStore a b c d = twoNodeStore a' b' c' d') :
    a = a' ∧ b = b' ∧ c = c' ∧ d = d' := by
  simpa [twoNodeStore, childNode] using h

/-- C4 as stated fails: from the seed (375, 300) the child's distance to the root stays
at most 75 from step 15 on, so there is no step count after which it stays within 10 of
the distance 90. -/
theorem child_settles_counterexample :
    ¬ ∃ N : ℕ, ∀ k : ℕ, N ≤ k → ∃ px' py' vx' vy' : ℝ,
      (animate Real.sqrt)^[k] (twoNodeStore 375 300 0 0) = twoNodeStore px' py' vx' vy' ∧
      |Real.sqrt ((400 - px') * (400 - px') + (300 - py') * (300 - py')) - 90| ≤ 10 := by
  rintro ⟨N, hN⟩
  obtain ⟨px', py', vx', vy', h1, h2⟩ := hN (15 + N) (Nat.le_add_left N 15)
  obtain ⟨ux, uy, q₁, q₂, hu, g1, h55, hq₂, g3, -⟩ :=
    twoNode_radial_run 375 300 (by norm_num [abs_le]) (by norm_num) (by norm_num) N
  rw [h1] at g1
  obtain ⟨rfl, rfl, -, -⟩ := twoNodeStore_inj _ _ _ _ _ _ _ _ g1
  rw [dist_on_ray ux uy q₁ hu (by linarith)] at h2
  have h25 : Real.sqrt ((400 - 375) * (400 - 375) + (300 - 300) * (300 - 300)) = (25 : ℝ) := by
    rw [show ((400 : ℝ) - 375) * (400 - 375) + (300 - 300) * (300 - 300) = 25 * 25 by norm_num]
    exact Real.sqrt_mul_self (by norm_num)
  rw [h25] at g3
  have := (abs_le.1 h2).1
  norm_num at g3
  linarith

end SettlingTheorems

section RestTheorems

/-- A pass that leaves every node as it is leaves the store as it is. -/
theorem animateFrom_eq_self {α : Type} [LinearOrderedField α] (sqrt : α → α)
    (done todo : List (SimNode α))
    (h : ∀ n ∈ todo, updateNode sqrt (done ++ todo) n = n) :
    animateFrom sqrt done todo = done ++ todo := by
  induction todo generalizing done with
  | nil => simp [animateFrom]
  | cons node rest ih =>
    have hnode := h node (List.mem_cons_self _ _)
    rw [animateFrom, hnode]
    have := ih (done ++ [node]) (by
      intro n hn
      have := h n (List.mem_cons_of_mem _ hn)
      simpa using this)
    simpa using this

theorem animate_eq_self {α : Type} [LinearOrderedField α] (sqrt : α → α)
    (nodes : List (SimNode α)) (h : ∀ n ∈ nodes, updateNode sqrt nodes n = n) :
    animate sqrt nodes = nodes := by
  have := animateFrom_eq_self sqrt [] nodes (by simpa using h)
  simpa [animate] using this

theorem repel_self {α : Type} [LinearOrderedField α] (sqrt : α → α) (node : SimNode α)
    (v : JSNum α × JSNum α) : repel sqrt node v node = v := by
  simp [repel]

theorem sqrt_on_line (a b c : ℝ) :
    Real.sqrt ((a - b) * (a - b) + (c - c) * (c - c)) = |a - b| := by
  rw [sub_self, mul_zero, add_zero]
  exact Real.sqrt_mul_self_eq_abs _

/-- Repulsion between two large images on the line. -/
theorem repel_big_big (i j : String) (a b va vb : ℝ) (hij : i ≠ j) (hab : a ≠ b) :
    repel Real.sqrt (bigNode i a) (JSNum.fin va, JSNum.fin vb) (bigNode j b)
      = (.fin (va + if |a - b| < 155
            then (a - b) / |a - b| * ((155 - |a - b|) / 155) * 1.2 else 0), .fin vb) := by
  have hne : |a - b| ≠ 0 := abs_ne_zero.2 (sub_ne_zero.2 hab)
  have h155 : (155 : ℝ) ≠ 0 := by norm_num
  have e : (70 : ℝ) + 70 + 15 = 155 := by norm_num
  have hid : (bigNode i a).id ≠ (bigNode j b).id := hij
  simp only [repel, if_neg hid]
  simp only [bigNode, JSNum.fin_sub, JSNum.fin_mul, JSNum.fin_add, sqrt_dist_fin, sqrt_on_line,
    e, JSNum.lt_fin, JSNum.fin_div _ _ hne, JSNum.fin_div _ _ h155]
  split_ifs <;> simp_all

/-- Repulsion of a large image on the line by the pinned root. -/
theorem repel_big_root (i : String) (a va vb : ℝ) (hi : i ≠ "root") (ha : a ≠ 400) :
    repel Real.sqrt (bigNode i a) (JSNum.fin va, JSNum.fin vb) pinnedRoot
      = (.fin (va + if |a - 400| < 115
            then (a - 400) / |a - 400| * ((115 - |a - 400|) / 115) * 1.2 else 0), .fin vb) := by
  have hne : |a - 400| ≠ 0 := abs_ne_zero.2 (sub_ne_zero.2 ha)
  have h115 : (115 : ℝ) ≠ 0 := by norm_num
  have e : (70 : ℝ) + 30 + 15 = 115 := by norm_num
  have hid : (bigNode i a).id ≠ (pinnedRoot : SimNode ℝ).id := hi
  simp only [repel, if_neg hid]
  simp only [bigNode, pinnedRoot, JSNum.fin_sub, JSNum.fin_mul, JSNum.fin_add, sqrt_dist_fin,
    sqrt_on_line, e, JSNum.lt_fin, JSNum.fin_div _ _ hne, JSNum.fin_div _ _ h115]
  split_ifs <;> simp_all

/-- Attraction of a large image on the line towards the pinned root, found first. -/
theorem attract_big (i : String) (a : ℝ) (rest : List (SimNode ℝ)) (hi : i ≠ "root")
    (ha : a ≠ 400) :
    attract Real.sqrt (pinnedRoot :: rest) (bigNode i a)
      = (.fin (if 150 < |400 - a| then (400 - a) / |400 - a| * 0.04 else 0), .fin 0) := by
  have hne : |400 - a| ≠ 0 := abs_ne_zero.2 (sub_ne_zero.2 (Ne.symm ha))
  have e : (80 : ℝ) + 70 = 150 := by norm_num
  have ht : attractionTarget (pinnedRoot :: rest) (bigNode i a) = (.fin 400, .fin 300) := by
    have h1 : (some "root" != some i) = true := by
      simp only [bne_iff_ne, ne_eq, Option.some.injEq]
      exact fun h => hi h.symm
    simp [attractionTarget, bigNode, pinnedRoot, findParent, truthyString, sampleRoot, h1]
  simp only [attract, ht]
  simp only [bigNode, JSNum.fin_sub, JSNum.fin_mul, JSNum.fin_add, sqrt_dist_fin, sqrt_on_line,
    JSNum.orElse_fin _ _ hne, JSNum.gt_fin, e, JSNum.fin_div _ _ hne]
  split_ifs <;> simp_all

/-- A large image of the row `crowdedStore` is left as it is by its visit when the
forces on it cancel. -/
theorem updateNode_big (i : String) (a t : ℝ) (nodes : List (SimNode ℝ))
    (h : nodes.foldl (repel Real.sqrt (bigNode i a)) (attract Real.sqrt nodes (bigNode i a))
      = (.fin t, .fin 0)) (ht : t = 0) :
    updateNode Real.sqrt nodes (bigNode i a) = bigNode i a := by
  subst ht
  simp only [updateNode]
  rw [if_neg (by simp [bigNode, truthyFixed]), h]
  simp [bigNode]

/-- The row `crowdedStore` is a fixed point of the step. -/
theorem animate_crowdedStore : animate Real.sqrt crowdedStore = (crowdedStore : List (SimNode ℝ)) := by
  apply animate_eq_self
  intro n hn
  simp only [crowdedStore, List.mem_cons, List.mem_singleton, List.not_mem_nil, or_false] at hn
  rcases hn with rfl | rfl | rfl | rfl | rfl | rfl
  · exact updateNode_pinnedRoot _
  · apply updateNode_big
    · simp only [crowdedStore, List.foldl_cons, List.foldl_nil]
      rw [attract_big _ _ _ (by decide) (by norm_num),
        repel_big_root _ _ _ _ (by decide) (by norm_num),
        repel_self,
        repel_big_big _ _ _ _ _ _ (by decide) (by norm_num),
        repel_big_big _ _ _ _ _ _ (by decide) (by norm_num),
        repel_big_big _ _ _ _ _ _ (by decide) (by norm_num),
        repel_big_big _ _ _ _ _ _ (by decide) (by norm_num)]
    · norm_num [abs_of_neg, abs_of_pos]
  · apply updateNode_big
    · simp only [crowdedStore, List.foldl_cons, List.foldl_nil]
      rw [attract_big _ _ _ (by decide) (by norm_num),
        repel_big_root _ _ _ _ (by decide) (by norm_num),
        repel_big_big _ _ _ _ _ _ (by decide) (by norm_num),
        repel_self,
        repel_big_big _ _ _ _ _ _ (by decide) (by norm_num),
        repel_big_big _ _ _ _ _ _ (by decide) (by norm_num),
        repel_big_big _ _ _ _ _ _ (by decide) (by norm_num)]
    · norm_num [abs_of_neg, abs_of_pos]
  · apply updateNode_big
    · simp only [crowdedStore, List.foldl_cons, List.foldl_nil]
      rw [attract_big _ _ _ (by decide) (by norm_num),
        repel_big_root _ _ _ _ (by decide) (by norm_num),
        repel_big_big _ _ _ _ _ _ (by decide) (by norm_num),
        repel_big_big _ _ _ _ _ _ (by decide) (by norm_num),
        repel_self,
        repel_big_big _ _ _ _ _ _ (by decide) (by norm_num),
        repel_big_big _ _ _ _ _ _ (by decide) (by norm_num)]
    · norm_num [abs_of_neg, abs_of_pos]
  · apply updateNode_big
    · simp only [crowdedStore, List.foldl_cons, List.foldl_nil]
      rw [attract_big _ _ _ (by decide) (by norm_num),
        repel_big_root _ _ _ _ (by decide) (by norm_num),
        repel_big_big _ _ _ _ _ _ (by decide) (by norm_num),
        repel_big_big _ _ _ _ _ _ (by decide) (by norm_num),
        repel_big_big _ _ _ _ _ _ (by decide) (by norm_num),
        repel_self,
        repel_big_big _ _ _ _ _ _ (by decide) (by norm_num)]
    · norm_num [abs_of_neg, abs_of_pos]
  · apply updateNode_big
    · simp only [crowdedStore, List.foldl_cons, List.foldl_nil]
      rw [attract_big _ _ _ (by decide) (by norm_num),
        repel_big_root _ _ _ _ (by decide) (by norm_num),
        repel_big_big _ _ _ _ _ _ (by decide) (by norm_num),
        repel_big_big _ _ _ _ _ _ (by decide) (by norm_num),
        repel_big_big _ _ _ _ _ _ (by decide) (by norm_num),
        repel_big_big _ _ _ _ _ _ (by decide) (by norm_num),
        repel_self]
    · norm_num [abs_of_neg, abs_of_pos]

/-- The radius 70 of a large image is the radius the store construction gives it. -/
theorem storeRadius_bigNode (i : String) (a : ℝ) (hi : i ≠ "root") :
    storeRadius Real.log (bigNode i a).toResource = .fin 70 := by
  have hid : (bigNode i a).id ≠ "root" := hi
  have hs : (0 : ℝ) ≤ (bigNode i a).size := by
    simp only [bigNode]
    norm_num
  rw [storeRadius_nonroot _ hid hs]
  have hexp : Real.exp 10 ≤ 30721 := by
    have h1 : Real.exp 10 = Real.exp 1 ^ 10 := by
      rw [← Real.exp_nat_mul]
      norm_num
    rw [h1]
    have h2 : Real.exp 1 ≤ 2.7182818286 := Real.exp_one_lt_d9.le
    calc Real.exp 1 ^ 10 ≤ (2.7182818286 : ℝ) ^ 10 :=
          pow_le_pow_left₀ (Real.exp_pos 1).le h2 10
      _ ≤ 30721 := by norm_num
  have hlog : (10 : ℝ) ≤ Real.log ((bigNode i a).size / 1024 + 1) := by
    rw [Real.le_log_iff_exp_le (by simp only [bigNode]; norm_num)]
    simp only [bigNode]
    norm_num
    exact hexp
  congr 1
  rw [min_eq_left (by linarith), max_eq_right (by norm_num)]

/-- The row `crowdedStore` is at rest. -/
theorem atRest_crowdedStore : AtRest Real.sqrt (crowdedStore : List (SimNode ℝ)) := by
  refine ⟨animate_crowdedStore, ?_⟩
  intro n hn
  simp only [crowdedStore, List.mem_cons, List.mem_singleton, List.not_mem_nil, or_false] at hn
  rcases hn with rfl | rfl | rfl | rfl | rfl | rfl <;>
    exact ⟨rfl, rfl, rfl, rfl⟩

/-- C3 as stated fails: the row `crowdedStore` is at rest, yet its first two images, of
radius 70 each, are 403/3 apart, so their circles overlap by 17/3. -/
theorem rest_overlap_counterexample :
    AtRest Real.sqrt (crowdedStore : List (SimNode ℝ)) ∧
    (bigNode "img-0" (1499 / 3) : SimNode ℝ) ∈ crowdedStore ∧
    (bigNode "img-1" 634 : SimNode ℝ) ∈ crowdedStore ∧
    (bigNode "img-0" (1499 / 3) : SimNode ℝ).radius = .fin 70 ∧
    (bigNode "img-1" 634 : SimNode ℝ).radius = .fin 70 ∧
    storeRadius Real.log (bigNode "img-0" (1499 / 3) : SimNode ℝ).toResource = .fin 70 ∧
    storeRadius Real.log (bigNode "img-1" 634 : SimNode ℝ).toResource = .fin 70 ∧
    Real.sqrt ((1499 / 3 - 634) * (1499 / 3 - 634) + (300 - 300) * (300 - 300)) = 403 / 3 ∧
    (403 / 3 : ℝ) < 70 + 70 - 5 := by
  refine ⟨atRest_crowdedStore, by simp [crowdedStore], by simp [crowdedStore], rfl, rfl,
    storeRadius_bigNode _ _ (by decide), storeRadius_bigNode _ _ (by decide), ?_, by norm_num⟩
  rw [sqrt_on_line]
  norm_num [abs_of_neg]

/-- At a fixed point of the step every single visit leaves its node as it is. -/
theorem updateNode_of_animateFrom_eq {α : Type} [LinearOrderedField α] (sqrt : α → α)
    (done todo : List (SimNode α)) (h : animateFrom sqrt done todo = done ++ todo) :
    ∀ n ∈ todo, updateNode sqrt (done ++ todo) n = n := by
  induction todo generalizing done with
  | nil => intro n hn; simp at hn
  | cons node rest ih =>
    obtain ⟨upd, h1, h2⟩ := animateFrom_forall₂ sqrt (fun _ _ => True) (fun _ _ => trivial)
      (done ++ [updateNode sqrt (done ++ node :: rest) node]) rest
    rw [animateFrom, h1] at h
    have hlen : upd.length = rest.length := h2.length_eq.symm
    simp only [List.append_assoc, List.singleton_append] at h
    have h3 := List.append_cancel_left h
    simp only [List.cons.injEq] at h3
    obtain ⟨hnode, hupd⟩ := h3
    have h4 : animateFrom sqrt (done ++ [node]) rest = (done ++ [node]) ++ rest := by
      rw [hnode] at h1
      rw [h1, hupd]
    intro n hn
    rcases List.mem_cons.1 hn with rfl | hn
    · exact hnode
    · have := ih (done ++ [node]) h4 n hn
      simpa using this

theorem updateNode_of_animate_eq {α : Type} [LinearOrderedField α] (sqrt : α → α)
    (nodes : List (SimNode α)) (h : animate sqrt nodes = nodes) :
    ∀ n ∈ nodes, updateNode sqrt nodes n = n := by
  have := updateNode_of_animateFrom_eq sqrt [] nodes (by simpa [animate] using h)
  simpa using this

theorem JSNum.isFinite_iff {α : Type} (w : JSNum α) : w.isFinite = true ↔ ∃ a, w = .fin a := by
  cases w <;> simp [JSNum.isFinite]

theorem JSNum.add_nan {α : Type} [LinearOrderedField α] (w : JSNum α) : w + JSNum.nan = JSNum.nan := by
  cases w <;> rfl

theorem JSNum.mul_fin_eq_zero {α : Type} [LinearOrderedField α] (w : JSNum α) (c : α)
    (hc : 0 < c) (h : w * JSNum.fin c = JSNum.fin 0) : w = JSNum.fin 0 := by
  cases w with
  | fin a =>
    simp only [JSNum.fin_mul, JSNum.fin.injEq] at h
    rcases mul_eq_zero.1 h with h | h
    · rw [h]
    · exact absurd h hc.ne.symm
  | posInf =>
    have : (JSNum.posInf * JSNum.fin c : JSNum α) = JSNum.posInf := by
      show JSNum.scaleInf true c = _
      simp [JSNum.scaleInf, hc]
    rw [this] at h
    exact absurd h (by simp)
  | negInf =>
    have : (JSNum.negInf * JSNum.fin c : JSNum α) = JSNum.negInf := by
      show JSNum.scaleInf false c = _
      simp [JSNum.scaleInf, hc]
    rw [this] at h
    exact absurd h (by simp)
  | nan => exact absurd h (by show JSNum.nan ≠ JSNum.fin 0; simp)

/-- The attraction term on a node at rest is a finite vector of length at most 0.04. -/
theorem attract_bounded (s : List (SimNode ℝ)) (A : SimNode ℝ) (xa ya rA : ℝ)
    (hfin : ∀ n ∈ s, n.x.isFinite = true ∧ n.y.isFinite = true)
    (hAx : A.x = .fin xa) (hAy : A.y = .fin ya) (hAr : A.radius = .fin rA)
    (hvx : A.vx = .fin 0) (hvy : A.vy = .fin 0) :
    ∃ a₁ a₂ : ℝ, attract Real.sqrt s A = (.fin a₁, .fin a₂) ∧
      a₁ * a₁ + a₂ * a₂ ≤ 0.04 * 0.04 := by
  obtain ⟨tx, ty, ht⟩ : ∃ tx ty : ℝ, attractionTarget s A = (.fin tx, .fin ty) := by
    unfold attractionTarget
    split
    · split
      · rename_i parent hparent
        obtain ⟨h1, h2⟩ := hfin parent (findParent_mem _ _ _ hparent)
        obtain ⟨x, hx⟩ := (JSNum.isFinite_iff _).1 h1
        obtain ⟨y, hy⟩ := (JSNum.isFinite_iff _).1 h2
        exact ⟨x, y, by rw [hx, hy]⟩
      · exact ⟨400, 300, rfl⟩
    · exact ⟨400, 300, rfl⟩
  simp only [attract, ht, hAx, hAy, hAr, hvx, hvy, JSNum.fin_sub, JSNum.fin_mul, JSNum.fin_add,
    sqrt_dist_fin]
  have hq0 : 0 ≤ (tx - xa) * (tx - xa) + (ty - ya) * (ty - ya) :=
    add_nonneg (mul_self_nonneg _) (mul_self_nonneg _)
  by_cases hq : Real.sqrt ((tx - xa) * (tx - xa) + (ty - ya) * (ty - ya)) = 0
  · have hz : (tx - xa) * (tx - xa) + (ty - ya) * (ty - ya) = 0 := (Real.sqrt_eq_zero hq0).1 hq
    have hx0 : tx - xa = 0 := by nlinarith [mul_self_nonneg (tx - xa), mul_self_nonneg (ty - ya)]
    have hy0 : ty - ya = 0 := by nlinarith [mul_self_nonneg (tx - xa), mul_self_nonneg (ty - ya)]
    rw [hq, JSNum.orElse_zero, hx0, hy0]
    have h1 : (1 : ℝ) ≠ 0 := one_ne_zero
    simp only [JSNum.gt_fin, JSNum.fin_div _ _ h1, JSNum.fin_mul, JSNum.fin_add]
    split
    · exact ⟨_, _, rfl, by norm_num⟩
    · exact ⟨_, _, rfl, by norm_num⟩
  · rw [JSNum.orElse_fin _ _ hq]
    simp only [JSNum.gt_fin, JSNum.fin_div _ _ hq, JSNum.fin_mul, JSNum.fin_add]
    split
    · refine ⟨_, _, rfl, ?_⟩
      have hsq : Real.sqrt ((tx - xa) * (tx - xa) + (ty - ya) * (ty - ya))
          * Real.sqrt ((tx - xa) * (tx - xa) + (ty - ya) * (ty - ya))
          = (tx - xa) * (tx - xa) + (ty - ya) * (ty - ya) := Real.mul_self_sqrt hq0
      generalize Real.sqrt ((tx - xa) * (tx - xa) + (ty - ya) * (ty - ya)) = q at hq hsq
      have : (0 + (tx - xa) / q * 0.04) * (0 + (tx - xa) / q * 0.04)
          + (0 + (ty - ya) / q * 0.04) * (0 + (ty - ya) / q * 0.04)
          = ((tx - xa) * (tx - xa) + (ty - ya) * (ty - ya)) / (q * q) * (0.04 * 0.04) := by
        field_simp
        ring
      rw [this, ← hsq, div_self (mul_ne_zero hq hq), one_mul]
    · exact ⟨_, _, rfl, by norm_num⟩

/-- The inner loop over a list in which only `B` is within range of `A`: the velocity
receives the push of `B` once for each occurrence of `B`. -/
theorem foldl_repel_lone (A B : SimNode ℝ) (P₁ P₂ : JSNum ℝ) (hid : A.id ≠ B.id)
    (hB : ∀ w, repel Real.sqrt A w B = (w.1 + P₁, w.2 + P₂)) (l : List (SimNode ℝ))
    (hl : ∀ C ∈ l, C.id ≠ A.id → C ≠ B → touches Real.sqrt A C = false)
    (w : JSNum ℝ × JSNum ℝ) :
    ∃ t : ℕ, (B ∈ l → 1 ≤ t) ∧
      l.foldl (repel Real.sqrt A) w = (fun u => (u.1 + P₁, u.2 + P₂))^[t] w := by
  induction l generalizing w with
  | nil => exact ⟨0, by simp, rfl⟩
  | cons C l ih =>
    have hl' : ∀ D ∈ l, D.id ≠ A.id → D ≠ B → touches Real.sqrt A D = false :=
      fun D hD => hl D (List.mem_cons_of_mem _ hD)
    by_cases hCB : C = B
    · subst hCB
      obtain ⟨t, -, ht⟩ := ih hl' (repel Real.sqrt A w C)
      refine ⟨t + 1, fun _ => Nat.le_add_left 1 t, ?_⟩
      rw [List.foldl_cons, ht, hB, Function.iterate_succ_apply]
    · have hskip : repel Real.sqrt A w C = w := by
        by_cases hCA : C.id = A.id
        · simp [repel, hCA]
        · have := hl C (List.mem_cons_self _ _) hCA hCB
          simp only [touches] at this
          simp only [repel, this, Bool.false_eq_true, if_false, ite_self]
      obtain ⟨t, ht1, ht2⟩ := ih hl' w
      refine ⟨t, fun hmem => ?_, ?_⟩
      · rcases List.mem_cons.1 hmem with h | h
        · exact absurd h.symm hCB
        · exact ht1 h
      · rw [List.foldl_cons, hskip, ht2]

theorem iterate_push_fin (p₁ p₂ : ℝ) (t : ℕ) (a₁ a₂ : ℝ) :
    (fun u : JSNum ℝ × JSNum ℝ => (u.1 + JSNum.fin p₁, u.2 + JSNum.fin p₂))^[t]
        (JSNum.fin a₁, JSNum.fin a₂)
      = (JSNum.fin (a₁ + t * p₁), JSNum.fin (a₂ + t * p₂)) := by
  induction t generalizing a₁ a₂ with
  | zero => simp
  | succ t ih =>
    rw [Function.iterate_succ_apply]
    simp only [JSNum.fin_add]
    rw [ih]
    push_cast
    congr 2 <;> ring

theorem iterate_push_nan (P₂ : JSNum ℝ) (t : ℕ) (ht : 1 ≤ t) (w : JSNum ℝ × JSNum ℝ) :
    ((fun u : JSNum ℝ × JSNum ℝ => (u.1 + JSNum.nan, u.2 + P₂))^[t] w).1 = JSNum.nan := by
  obtain ⟨k, rfl⟩ := Nat.exists_eq_add_of_le ht
  rw [add_comm, Function.iterate_succ_apply']
  exact JSNum.add_nan _

/-- The push a node `A` receives from a node `B` within range at distance `d > 0`. -/
theorem repel_in_range (A B : SimNode ℝ) (xa ya xb yb rA rB d : ℝ) (hid : A.id ≠ B.id)
    (hAx : A.x = .fin xa) (hAy : A.y = .fin ya) (hBx : B.x = .fin xb) (hBy : B.y = .fin yb)
    (hAr : A.radius = .fin rA) (hBr : B.radius = .fin rB)
    (hd : Real.sqrt ((xa - xb) * (xa - xb) + (ya - yb) * (ya - yb)) = d) (hpos : 0 < d)
    (hrange : d < rA + rB + 15) (w : JSNum ℝ × JSNum ℝ) :
    repel Real.sqrt A w B
      = (w.1 + .fin ((xa - xb) / d * ((rA + rB + 15 - d) / (rA + rB + 15)) * 1.2),
         w.2 + .fin ((ya - yb) / d * ((rA + rB + 15 - d) / (rA + rB + 15)) * 1.2)) := by
  have hne : d ≠ 0 := hpos.ne.symm
  have hm : rA + rB + 15 ≠ 0 := by linarith
  simp only [repel, if_neg hid, hAx, hAy, hBx, hBy, hAr, hBr, JSNum.fin_sub, JSNum.fin_mul,
    JSNum.fin_add, sqrt_dist_fin, hd, JSNum.lt_fin, hrange, decide_True, if_true,
    JSNum.fin_div _ _ hne, JSNum.fin_div _ _ hm]

/-- The push a node receives from a node at its own position is `NaN`. -/
theorem repel_coincident (A B : SimNode ℝ) (xa ya xb yb rA rB : ℝ) (hid : A.id ≠ B.id)
    (hAx : A.x = .fin xa) (hAy : A.y = .fin ya) (hBx : B.x = .fin xb) (hBy : B.y = .fin yb)
    (hAr : A.radius = .fin rA) (hBr : B.radius = .fin rB)
    (hd : Real.sqrt ((xa - xb) * (xa - xb) + (ya - yb) * (ya - yb)) = 0)
    (hrange : 0 < rA + rB + 15) (w : JSNum ℝ × JSNum ℝ) :
    repel Real.sqrt A w B = (w.1 + .nan, w.2 + .nan) := by
  have hq0 : 0 ≤ (xa - xb) * (xa - xb) + (ya - yb) * (ya - yb) :=
    add_nonneg (mul_self_nonneg _) (mul_self_nonneg _)
  have hz := (Real.sqrt_eq_zero hq0).1 hd
  have hx0 : xa - xb = 0 := by nlinarith [mul_self_nonneg (xa - xb), mul_self_nonneg (ya - yb)]
  have hy0 : ya - yb = 0 := by nlinarith [mul_self_nonneg (xa - xb), mul_self_nonneg (ya - yb)]
  have hm : rA + rB + 15 ≠ 0 := hrange.ne.symm
  simp only [repel, if_neg hid, hAx, hAy, hBx, hBy, hAr, hBr, JSNum.fin_sub, JSNum.fin_mul,
    JSNum.fin_add, sqrt_dist_fin, hd, JSNum.lt_fin, hrange, decide_True, if_true,
    JSNum.fin_div _ _ hm]
  rw [hx0, hy0, JSNum.zero_div_zero]
  rfl

/-- C3 (amended): in a store at rest, a node `A` that is not pinned and has at most the
node `B` within its repulsion range does not overlap `B`: their distance is at least
the sum of their radii. -/
theorem rest_pair_no_overlap (s : List (SimNode ℝ)) (A B : SimNode ℝ)
    (xa ya xb yb rA rB : ℝ) (hrest : AtRest Real.sqrt s) (hA : A ∈ s) (hB : B ∈ s)
    (hid : A.id ≠ B.id) (hfree : A.pinned = false)
    (hAx : A.x = .fin xa) (hAy : A.y = .fin ya) (hBx : B.x = .fin xb) (hBy : B.y = .fin yb)
    (hAr : A.radius = .fin rA) (hBr : B.radius = .fin rB)
    (hrA : 6 ≤ rA ∧ rA ≤ 70) (hrB : 6 ≤ rB ∧ rB ≤ 70)
    (hlone : ∀ C ∈ s, C.id ≠ A.id → C ≠ B → touches Real.sqrt A C = false) :
    rA + rB ≤ Real.sqrt ((xa - xb) * (xa - xb) + (ya - yb) * (ya - yb)) := by
  obtain ⟨hfix, hall⟩ := hrest
  obtain ⟨hvx, hvy, -, -⟩ := hall A hA
  have hfin : ∀ n ∈ s, n.x.isFinite = true ∧ n.y.isFinite = true :=
    fun n hn => (hall n hn).2.2
  have hupd := updateNode_of_animate_eq Real.sqrt s hfix A hA
  have hfx : truthyFixed A.fx = false := by
    have : A.fx = none := by
      simp only [SimNode.pinned, Bool.or_eq_false_iff] at hfree
      simpa using hfree.1
    rw [this]
    rfl
  simp only [updateNode, hfx, Bool.false_eq_true, if_false] at hupd
  have h1 := congrArg SimNode.vx hupd
  have h2 := congrArg SimNode.vy hupd
  simp only [hvx, hvy] at h1 h2
  have z1 := JSNum.mul_fin_eq_zero _ _ (by norm_num) h1
  have z2 := JSNum.mul_fin_eq_zero _ _ (by norm_num) h2
  obtain ⟨a₁, a₂, hatt, hnorm⟩ := attract_bounded s A xa ya rA hfin hAx hAy hAr hvx hvy
  rw [hatt] at z1 z2
  by_contra hcon
  rw [not_le] at hcon
  have hq0 : 0 ≤ (xa - xb) * (xa - xb) + (ya - yb) * (ya - yb) :=
    add_nonneg (mul_self_nonneg _) (mul_self_nonneg _)
  have hsq := Real.mul_self_sqrt hq0
  have hd0 := Real.sqrt_nonneg ((xa - xb) * (xa - xb) + (ya - yb) * (ya - yb))
  generalize hd : Real.sqrt ((xa - xb) * (xa - xb) + (ya - yb) * (ya - yb)) = d at hcon hsq hd0
  rcases hd0.eq_or_lt with hzero | hpos
  · -- coincident nodes: the push is NaN, so the store is not at rest
    obtain ⟨t, ht1, ht2⟩ := foldl_repel_lone A B .nan .nan hid
      (repel_coincident A B xa ya xb yb rA rB hid hAx hAy hBx hBy hAr hBr (by rw [hd, hzero])
        (by linarith)) s hlone (.fin a₁, .fin a₂)
    rw [ht2, iterate_push_nan _ t (ht1 hB)] at z1
    exact absurd z1 (by simp)
  · obtain ⟨t, ht1, ht2⟩ := foldl_repel_lone A B _ _ hid
      (repel_in_range A B xa ya xb yb rA rB d hid hAx hAy hBx hBy hAr hBr hd hpos
        (by linarith)) s hlone (.fin a₁, .fin a₂)
    rw [ht2, iterate_push_fin] at z1 z2
    simp only [JSNum.fin.injEq] at z1 z2
    have ht : (1 : ℝ) ≤ t := by exact_mod_cast ht1 hB
    have hm : 0 < rA + rB + 15 := by linarith
    set g : ℝ := (rA + rB + 15 - d) / (rA + rB + 15) * 1.2 with hg
    have hgpos : 0 < g := by
      have : 0 < rA + rB + 15 - d := by linarith
      positivity
    have e1 : a₁ = -(t * g) * ((xa - xb) / d) := by
      have : (xa - xb) / d * ((rA + rB + 15 - d) / (rA + rB + 15)) * 1.2
          = g * ((xa - xb) / d) := by rw [hg]; ring
      rw [this] at z1
      linarith
    have e2 : a₂ = -(t * g) * ((ya - yb) / d) := by
      have : (ya - yb) / d * ((rA + rB + 15 - d) / (rA + rB + 15)) * 1.2
          = g * ((ya - yb) / d) := by rw [hg]; ring
      rw [this] at z2
      linarith
    have hunit : (xa - xb) / d * ((xa - xb) / d) + (ya - yb) / d * ((ya - yb) / d) = 1 := by
      field_simp
      linarith
    have hnorm' : (t * g) * (t * g) ≤ 0.04 * 0.04 := by
      have : a₁ * a₁ + a₂ * a₂ = (t * g) * (t * g)
          * ((xa - xb) / d * ((xa - xb) / d) + (ya - yb) / d * ((ya - yb) / d)) := by
        rw [e1, e2]
        ring
      rw [this, hunit, mul_one] at hnorm
      exact hnorm
    have htg : t * g ≤ 0.04 := by
      by_contra h
      rw [not_le] at h
      have : (0.04 : ℝ) * 0.04 < (t * g) * (t * g) := by nlinarith
      linarith
    have hg04 : g ≤ 0.04 := by
      have : g ≤ t * g := le_mul_of_one_le_left hgpos.le ht
      linarith
    have hgm : g * (rA + rB + 15) = (rA + rB + 15 - d) * 1.2 := by
      rw [hg]
      field_simp
    have hfinal : g * (rA + rB + 15) ≤ 0.04 * (rA + rB + 15) :=
      mul_le_mul_of_nonneg_right hg04 hm.le
    rw [hgm] at hfinal
    have c1 : (1.2 : ℝ) = 6 / 5 := by norm_num
    have c2 : (0.04 : ℝ) = 1 / 25 := by norm_num
    rw [c1, c2] at hfinal
    linarith

/-- Range test between two large images on the line. -/
theorem touches_big_big (i j : String) (a b : ℝ) :
    touches Real.sqrt (bigNode i a) (bigNode j b) = decide (|a - b| < 155) := by
  have e : (70 : ℝ) + 70 + 15 = 155 := by norm_num
  simp only [touches, bigNode, JSNum.fin_sub, JSNum.fin_mul, JSNum.fin_add, sqrt_dist_fin,
    sqrt_on_line, e, JSNum.lt_fin]

/-- Range test between a large image on the line and the pinned root. -/
theorem touches_big_root (i : String) (a : ℝ) :
    touches Real.sqrt (bigNode i a) pinnedRoot = decide (|a - 400| < 115) := by
  have e : (70 : ℝ) + 30 + 15 = 115 := by norm_num
  simp only [touches, bigNode, pinnedRoot, JSNum.fin_sub, JSNum.fin_mul, JSNum.fin_add,
    sqrt_dist_fin, sqrt_on_line, e, JSNum.lt_fin]

/-- The outermost image of the row `crowdedStore` has only its inner neighbour within
range, which pushes it against its attraction; the two do not overlap. -/
theorem rest_pair_no_overlap_witness :
    AtRest Real.sqrt (crowdedStore : List (SimNode ℝ)) ∧
    (bigNode "img-4" 1068 : SimNode ℝ) ∈ crowdedStore ∧
    (bigNode "img-3" (5509 / 6) : SimNode ℝ) ∈ crowdedStore ∧
    (bigNode "img-4" 1068 : SimNode ℝ).pinned = false ∧
    touches Real.sqrt (bigNode "img-4" 1068 : SimNode ℝ) (bigNode "img-3" (5509 / 6)) = true ∧
    (70 : ℝ) + 70
      ≤ Real.sqrt ((1068 - 5509 / 6) * (1068 - 5509 / 6) + (300 - 300) * (300 - 300)) := by
  have hA : (bigNode "img-4" 1068 : SimNode ℝ) ∈ crowdedStore := by simp [crowdedStore]
  have hB : (bigNode "img-3" (5509 / 6) : SimNode ℝ) ∈ crowdedStore := by simp [crowdedStore]
  have hlone : ∀ C ∈ (crowdedStore : List (SimNode ℝ)),
      C.id ≠ (bigNode "img-4" 1068 : SimNode ℝ).id → C ≠ bigNode "img-3" (5509 / 6) →
      touches Real.sqrt (bigNode "img-4" 1068) C = false := by
    intro C hC h1 h2
    simp only [crowdedStore, List.mem_cons, List.mem_singleton, List.not_mem_nil, or_false] at hC
    rcases hC with rfl | rfl | rfl | rfl | rfl | rfl
    · rw [touches_big_root]
      norm_num [abs_of_pos]
    · rw [touches_big_big]
      norm_num [abs_of_pos]
    · rw [touches_big_big]
      norm_num [abs_of_pos]
    · rw [touches_big_big]
      norm_num [abs_of_pos]
    · exact absurd rfl h2
    · exact absurd rfl h1
  refine ⟨atRest_crowdedStore, hA, hB, rfl, ?_, ?_⟩
  · rw [touches_big_big]
    norm_num [abs_of_pos]
  · exact rest_pair_no_overlap crowdedStore (bigNode "img-4" 1068) (bigNode "img-3" (5509 / 6))
      1068 300 (5509 / 6) 300 70 70 atRest_crowdedStore hA hB (by decide) rfl rfl rfl rfl rfl
      rfl rfl (by norm_num) (by norm_num) hlone

end RestTheorems

section InteractionTheorems

variable {α : Type} [LinearOrderedField α]

/-- During a drag, mouse moves and zoom commands keep the dragging flag and the recorded
drag start. -/
theorem drag_keeps_start (events : List (DragEvent α)) (s : ViewState α) :
    (s.drag events).isDragging = s.isDragging ∧ (s.drag events).dragStart = s.dragStart ∧
      (s.drag events).viewMode = s.viewMode := by
  induction events generalizing s with
  | nil => exact ⟨rfl, rfl, rfl⟩
  | cons e es ih =>
    have hstep : (s.dragStep e).isDragging = s.isDragging ∧
        (s.dragStep e).dragStart = s.dragStart ∧ (s.dragStep e).viewMode = s.viewMode := by
      cases e with
      | move p =>
        simp only [ViewState.dragStep, handleMouseMove]
        split <;> exact ⟨rfl, rfl, rfl⟩
      | zoom c => exact ⟨rfl, rfl, rfl⟩
    obtain ⟨h1, h2, h3⟩ := ih (s.dragStep e)
    simp only [ViewState.drag, List.foldl_cons] at h1 h2 h3 ⊢
    exact ⟨h1.trans hstep.1, h2.trans hstep.2.1, h3.trans hstep.2.2⟩

/-- C17: in graph view, after a drag start at pointer position p0 with pan offset t0,
every drag move at pointer position p (whatever moves and zoom commands came in
between) sets the pan offset to t0 + (p - p0) and leaves the scale unchanged; a mouse
move while not dragging leaves the viewport unchanged, and drag end clears the dragging
flag. -/
theorem drag_tracks_pointer (s : ViewState α) (p0 p : Point α) (events : List (DragEvent α))
    (hmode : s.viewMode = "graph") :
    (handleMouseMove p ((handleMouseDown p0 s).drag events)).transform.x
        = s.transform.x + (p.x - p0.x) ∧
    (handleMouseMove p ((handleMouseDown p0 s).drag events)).transform.y
        = s.transform.y + (p.y - p0.y) ∧
    (handleMouseMove p ((handleMouseDown p0 s).drag events)).transform.k
        = ((handleMouseDown p0 s).drag events).transform.k ∧
    (handleMouseDown p0 s).transform = s.transform ∧
    (∀ u : ViewState α, u.isDragging = false → handleMouseMove p u = u) ∧
    (∀ u : ViewState α, (handleMouseUp u).isDragging = false ∧
      (handleMouseUp u).transform = u.transform) := by
  have hdown : handleMouseDown p0 s
      = { s with isDragging := true,
                 dragStart := { x := p0.x - s.transform.x, y := p0.y - s.transform.y } } := by
    simp [handleMouseDown, hmode]
  obtain ⟨h1, h2, -⟩ := drag_keeps_start events (handleMouseDown p0 s)
  rw [hdown] at h1 h2
  simp only at h1 h2
  rw [← hdown] at h1 h2
  have hmove : handleMouseMove p ((handleMouseDown p0 s).drag events)
      = { ((handleMouseDown p0 s).drag events) with
          transform := { ((handleMouseDown p0 s).drag events).transform with
            x := p.x - (p0.x - s.transform.x), y := p.y - (p0.y - s.transform.y) } } := by
    simp [handleMouseMove, h1, h2]
  refine ⟨?_, ?_, ?_, ?_, ?_, ?_⟩
  · rw [hmove]
    simp only
    ring
  · rw [hmove]
    simp only
    ring
  · rw [hmove]
  · rw [hdown]
  · intro u hu
    simp [handleMouseMove, hu]
  · intro u
    exact ⟨rfl, rfl⟩

/-- A drag of the sample view from (100, 100) through a wheel event to (130, 90). -/
theorem drag_tracks_pointer_witness :
    (sampleView : ViewState ℚ).viewMode = "graph" ∧
    (handleMouseMove sampleMove
      ((handleMouseDown samplePress (sampleView : ViewState ℚ)).drag
        sampleDragEvents)).transform.x
      = (sampleView : ViewState ℚ).transform.x + ((sampleMove : Point ℚ).x - (samplePress : Point ℚ).x) :=
  ⟨rfl, (drag_tracks_pointer sampleView samplePress sampleMove sampleDragEvents rfl).1⟩

/-- C18 (amended): wheel, zoom-in and zoom-out leave the pan offset unchanged for every
viewport state; fit resets it to (0, 0). -/
theorem zoom_commands_and_pan (t : Transform α) :
    (∀ closure : Transform α, ∀ deltaY : α,
      (handleWheel closure deltaY t).x = t.x ∧ (handleWheel closure deltaY t).y = t.y) ∧
    ((zoomIn t).x = t.x ∧ (zoomIn t).y = t.y) ∧
    ((zoomOut t).x = t.x ∧ (zoomOut t).y = t.y) ∧
    ((fitToScreen t).x = 0 ∧ (fitToScreen t).y = 0) :=
  ⟨fun _ _ => ⟨rfl, rfl⟩, ⟨rfl, rfl⟩, ⟨rfl, rfl⟩, ⟨rfl, rfl⟩⟩

/-- C18 as stated fails: fit moves the pan offset (5, 7) of the sample view to (0, 0). -/
theorem fit_resets_pan_counterexample :
    (sampleView : ViewState ℚ).transform.x = 5 ∧ (sampleView : ViewState ℚ).transform.y = 7 ∧
    (applyZoom (sampleView : ViewState ℚ).transform .fitToScreen).x = 0 ∧
    (applyZoom (sampleView : ViewState ℚ).transform .fitToScreen).y = 0 ∧
    (applyZoom (sampleView : ViewState ℚ).transform .fitToScreen).x
      ≠ (sampleView : ViewState ℚ).transform.x :=
  ⟨rfl, rfl, rfl, rfl, by decide!⟩

end InteractionTheorems

section LinkTheorems

/-- C11 (amended): a link is drawn for a node if and only if the node is visible, its
initiator is neither null nor empty and resolves (by id or url) to a node of the store,
and some visible node carries the id of the resolved node; with unique ids this last
condition says that the resolved initiator is itself eligible, and every drawn link then
has both endpoints among the visible nodes. -/
theorem link_drawn_iff {α : Type} (nodes : List (SimNode α)) (activeFilters : List String)
    (node : SimNode α) :
    ((∃ l ∈ links nodes activeFilters, l.child = node) ↔
      (node ∈ visibleNodes nodes activeFilters ∧
        ∃ s parent, node.initiator = some s ∧ s ≠ "" ∧ findParent nodes s = some parent ∧
          ∃ v ∈ visibleNodes nodes activeFilters, v.id = parent.id)) ∧
    ((nodes.map (fun n => n.id)).Nodup →
      ((∃ l ∈ links nodes activeFilters, l.child = node) ↔
        (node ∈ visibleNodes nodes activeFilters ∧
          ∃ s parent, node.initiator = some s ∧ s ≠ "" ∧ findParent nodes s = some parent ∧
            parent.type ∈ activeFilters)) ∧
      ∀ l ∈ links nodes activeFilters,
        l.child ∈ visibleNodes nodes activeFilters ∧
          l.parent ∈ visibleNodes nodes activeFilters) := by
  have hmain : (∃ l ∈ links nodes activeFilters, l.child = node) ↔
      (node ∈ visibleNodes nodes activeFilters ∧
        ∃ s parent, node.initiator = some s ∧ s ≠ "" ∧ findParent nodes s = some parent ∧
          ∃ v ∈ visibleNodes nodes activeFilters, v.id = parent.id) := by
    constructor
    · rintro ⟨l, hl, hchild⟩
      simp only [links, List.mem_filterMap] at hl
      obtain ⟨m, hm, hlm⟩ := hl
      obtain ⟨s, parent, h1, h2, h3, h4, h5⟩ := (linkOf_eq_some_iff _ _ _ _).1 hlm
      have : m = node := by rw [← hchild, h5]
      subst this
      exact ⟨hm, s, parent, h1, h2, h3, h4⟩
    · rintro ⟨hvis, s, parent, h1, h2, h3, h4⟩
      refine ⟨{ parent := parent, child := node }, ?_, rfl⟩
      simp only [links, List.mem_filterMap]
      exact ⟨node, hvis, (linkOf_eq_some_iff _ _ _ _).2 ⟨s, parent, h1, h2, h3, h4, rfl⟩⟩
  refine ⟨hmain, fun hid => ?_⟩
  have hpar : ∀ parent : SimNode α, parent ∈ nodes →
      ((∃ v ∈ visibleNodes nodes activeFilters, v.id = parent.id) ↔
        parent.type ∈ activeFilters) := by
    intro parent hp
    constructor
    · rintro ⟨v, hv, hvid⟩
      have hvn : v ∈ nodes := ((mem_visibleNodes _ _ v).1 hv).1
      have : v = parent := List.inj_on_of_nodup_map hid hvn hp hvid
      rw [← this]
      exact ((mem_visibleNodes _ _ v).1 hv).2
    · intro ht
      exact ⟨parent, (mem_visibleNodes _ _ parent).2 ⟨hp, ht⟩, rfl⟩
  constructor
  · rw [hmain]
    constructor
    · rintro ⟨hvis, s, parent, h1, h2, h3, h4⟩
      exact ⟨hvis, s, parent, h1, h2, h3, (hpar parent (findParent_mem _ _ _ h3)).1 h4⟩
    · rintro ⟨hvis, s, parent, h1, h2, h3, h4⟩
      exact ⟨hvis, s, parent, h1, h2, h3, (hpar parent (findParent_mem _ _ _ h3)).2 h4⟩
  · intro l hl
    obtain ⟨h1, h2, h3⟩ := mem_links _ _ l hl
    exact ⟨h1, (mem_visibleNodes _ _ _).2 ⟨h2, (hpar _ h2).1 h3⟩⟩

/-- C11 as stated fails twice.  In `blankStore` (unique ids) the second node is eligible,
its initiator is the non-null empty string and resolves by url to the eligible first
node, yet no link is drawn.  In `duplicateStore` with only scripts active a link is
drawn for the third node although its resolved initiator, the style sheet, is not
eligible. -/
theorem link_drawn_counterexample :
    ((blankInitiatorNode : SimNode ℚ).initiator = some "" ∧
      findParent (blankStore : List (SimNode ℚ)) "" = some blankUrlNode ∧
      visibleNodes (blankStore : List (SimNode ℚ)) colorKeys = blankStore ∧
      links (blankStore : List (SimNode ℚ)) colorKeys = []) ∧
    (links (duplicateStore : List (SimNode ℚ)) ["js"]
        = [{ parent := duplicateStyle, child := duplicateChild }] ∧
      findParent (duplicateStore : List (SimNode ℚ)) "dup" = some duplicateStyle ∧
      (duplicateStyle : SimNode ℚ) ∉ visibleNodes (duplicateStore : List (SimNode ℚ)) ["js"]) := by
  decide!

/-- C12 (amended): the attraction target is the shared center point (400,300) when the
initiator is null, is the empty string, equals the node's own id, or matches no node of
the store by id or url; when the initiator is non-empty, differs from the node's own id
and resolves to a node, the target is that node's current position. -/
theorem attraction_target_cases {α : Type} [LinearOrderedField α] (nodes : List (SimNode α))
    (node : SimNode α) :
    ((node.initiator = none ∨ node.initiator = some "" ∨ node.initiator = some node.id ∨
        (∃ s, node.initiator = some s ∧ findParent nodes s = none)) →
      attractionTarget nodes node = (.fin 400, .fin 300)) ∧
    (∀ s parent, node.initiator = some s → s ≠ "" → s ≠ node.id →
      findParent nodes s = some parent →
      attractionTarget nodes node = (parent.x, parent.y)) := by
  constructor
  · rintro (h | h | h | ⟨s, h, hs⟩)
    · simp [attractionTarget, h, truthyString]
    · simp [attractionTarget, h, truthyString]
    · simp [attractionTarget, h]
    · simp only [attractionTarget, h, Option.getD_some, hs]
      split <;> rfl
  · intro s parent h hs hid hp
    simp [attractionTarget, h, truthyString, hs, hid, hp]

/-- C12 as stated fails: in `blankStore` the second node's initiator, the empty string,
resolves by url to the first node, another node, which sits at (100, 300); the target of
the second node is the center (400, 300) all the same. -/
theorem attraction_target_counterexample :
    (blankInitiatorNode : SimNode ℚ) ∈ (blankStore : List (SimNode ℚ)) ∧
    (blankInitiatorNode : SimNode ℚ).initiator = some "" ∧
    findParent (blankStore : List (SimNode ℚ)) "" = some blankUrlNode ∧
    (blankUrlNode : SimNode ℚ).id ≠ (blankInitiatorNode : SimNode ℚ).id ∧
    ((blankUrlNode : SimNode ℚ).x, (blankUrlNode : SimNode ℚ).y) = (.fin 100, .fin 300) ∧
    attractionTarget (blankStore : List (SimNode ℚ)) blankInitiatorNode
      = (.fin 400, .fin 300) := by
  decide!

end LinkTheorems

section LighthouseTheorems

/-- The decimal digit characters are not the hyphen. -/
theorem digitChar_ne_hyphen (n : ℕ) (h : n < 10) : Nat.digitChar n ≠ '-' := by
  interval_cases n <;> decide

theorem digitValue_digitChar (n : ℕ) (h : n < 10) : digitValue (Nat.digitChar n) = n := by
  interval_cases n <;> rfl

theorem toDigitsCore_no_hyphen (fuel n : ℕ) (ds : List Char) (h : '-' ∉ ds) :
    '-' ∉ Nat.toDigitsCore 10 fuel n ds := by
  induction fuel generalizing n ds with
  | zero => simpa [Nat.toDigitsCore] using h
  | succ fuel ih =>
    have hd : '-' ∉ Nat.digitChar (n % 10) :: ds := by
      simp only [List.mem_cons, not_or]
      exact ⟨fun e => digitChar_ne_hyphen _ (Nat.mod_lt _ (by norm_num)) e.symm, h⟩
    simp only [Nat.toDigitsCore]
    split
    · exact hd
    · exact ih _ _ hd

theorem toDigitsCore_value (fuel n : ℕ) (ds : List Char) (h : n < fuel) :
    (Nat.toDigitsCore 10 fuel n ds).foldl (fun acc c => 10 * acc + digitValue c) 0
      = ds.foldl (fun acc c => 10 * acc + digitValue c) n := by
  induction fuel generalizing n ds with
  | zero => omega
  | succ fuel ih =>
    simp only [Nat.toDigitsCore]
    split
    · rename_i h0
      have hn : n % 10 = n := by omega
      simp only [List.foldl_cons, Nat.mul_zero, Nat.zero_add]
      rw [digitValue_digitChar _ (Nat.mod_lt _ (by norm_num)), hn]
    · rename_i h0
      rw [ih (n / 10) _ (by omega)]
      simp only [List.foldl_cons]
      rw [digitValue_digitChar _ (Nat.mod_lt _ (by norm_num))]
      congr 1
      omega

/-- The decimal rendering of an index determines the index. -/
theorem toString_nat_injective (i j : ℕ) (h : toString i = toString j) : i = j := by
  have h' : Nat.toDigits 10 i = Nat.toDigits 10 j := by
    have := congrArg String.data h
    simpa [toString, Nat.repr, List.asString] using this
  have hi := toDigitsCore_value (i + 1) i [] (Nat.lt_succ_self i)
  have hj := toDigitsCore_value (j + 1) j [] (Nat.lt_succ_self j)
  simp only [List.foldl_nil] at hi hj
  rw [← hi, ← hj]
  show (Nat.toDigits 10 i).foldl _ 0 = (Nat.toDigits 10 j).foldl _ 0
  rw [h']

theorem toString_nat_no_hyphen (i : ℕ) : '-' ∉ (toString i).data := by
  have : (toString i).data = Nat.toDigits 10 i := by
    simp [toString, Nat.repr, List.asString]
  rw [this]
  exact toDigitsCore_no_hyphen _ _ [] (by simp)

/-- The part after the last hyphen of a list of characters is determined. -/
theorem suffix_after_hyphen (l₁ l₂ s₁ s₂ : List Char) (h₁ : '-' ∉ s₁) (h₂ : '-' ∉ s₂)
    (h : l₁ ++ '-' :: s₁ = l₂ ++ '-' :: s₂) : s₁ = s₂ := by
  induction l₁ generalizing l₂ with
  | nil =>
    cases l₂ with
    | nil => simpa using h
    | cons c l₂ =>
      simp only [List.nil_append, List.cons_append, List.cons.injEq] at h
      exact absurd (h.2 ▸ (by simp : '-' ∈ l₂ ++ '-' :: s₂)) h₁
  | cons c l₁ ih =>
    cases l₂ with
    | nil =>
      simp only [List.nil_append, List.cons_append, List.cons.injEq] at h
      exact absurd (h.2 ▸ (by simp : '-' ∈ l₁ ++ '-' :: s₁)) h₂
    | cons c' l₂ =>
      simp only [List.cons_append, List.cons.injEq] at h
      exact ih l₂ h.2

/-- Ids of later records: the index can be read back from the id. -/
theorem indexed_id_injective (u₁ u₂ : String) (i j : ℕ)
    (h : u₁ ++ "-" ++ toString i = u₂ ++ "-" ++ toString j) : i = j := by
  have hd := congrArg String.data h
  simp only [String.data_append] at hd
  rw [List.append_assoc, List.append_assoc] at hd
  exact toString_nat_injective i j (String.ext
    (suffix_after_hyphen _ _ _ _ (toString_nat_no_hyphen i) (toString_nat_no_hyphen j) hd))

theorem indexed_id_ne_root (u : String) (i : ℕ) : u ++ "-" ++ toString i ≠ "root" := by
  intro h
  have hd := congrArg String.data h
  simp only [String.data_append] at hd
  have hmem : '-' ∈ u.data ++ ("-" : String).data ++ (toString i).data := by
    have hh : ("-" : String).data = ['-'] := rfl
    simp [hh]
  rw [hd] at hmem
  exact absurd hmem (by decide)

end LighthouseTheorems

section LighthouseRecordTheorems

theorem lighthouseRecord_id {α : Type} [LinearOrderedField α] (item : NetworkItem α) (index : ℕ) :
    (lighthouseRecord item index).id
      = if index = 0 then "root" else item.url ++ "-" ++ toString index := by
  by_cases h : index = 0 <;> simp [lighthouseRecord, h]

theorem lighthouseRecord_id_injective {α : Type} [LinearOrderedField α]
    (a b : NetworkItem α) (i j : ℕ)
    (h : (lighthouseRecord a i).id = (lighthouseRecord b j).id) : i = j := by
  rw [lighthouseRecord_id, lighthouseRecord_id] at h
  by_cases hi : i = 0 <;> by_cases hj : j = 0
  · rw [hi, hj]
  · rw [if_pos hi, if_neg hj] at h
    exact absurd h.symm (indexed_id_ne_root _ _)
  · rw [if_neg hi, if_pos hj] at h
    exact absurd h (indexed_id_ne_root _ _)
  · rw [if_neg hi, if_neg hj] at h
    exact indexed_id_injective _ _ _ _ h

theorem lighthouseRecordsFrom_getElem? {α : Type} [LinearOrderedField α]
    (items : List (NetworkItem α)) (k i : ℕ) :
    (lighthouseRecordsFrom k items)[i]?
      = (items[i]?).map (fun item => lighthouseRecord item (k + i)) := by
  induction items generalizing k i with
  | nil => simp [lighthouseRecordsFrom]
  | cons item items ih =>
    cases i with
    | zero => simp [lighthouseRecordsFrom]
    | succ i =>
      simp only [lighthouseRecordsFrom, List.getElem?_cons_succ, ih]
      have : k + 1 + i = k + (i + 1) := by omega
      rw [this]

theorem lighthouseRecordsFrom_length {α : Type} [LinearOrderedField α]
    (items : List (NetworkItem α)) (k : ℕ) :
    (lighthouseRecordsFrom k items).length = items.length := by
  induction items generalizing k with
  | nil => rfl
  | cons item items ih => simp [lighthouseRecordsFrom, ih]

/-- C15: the records of the Lighthouse mapping have pairwise distinct ids, one record
per network item; the first record has id `root` and no initiator; the record at an
index `i ≥ 1` has id `url + '-' + i`, which is not `root`; two positions holding the
same id are the same position, whatever the urls are. -/
theorem lighthouse_ids_distinct {α : Type} [LinearOrderedField α]
    (items : List (NetworkItem α)) :
    ((lighthouseRecords items).map (fun r => r.id)).Nodup ∧
    (lighthouseRecords items).length = items.length ∧
    (∀ r, (lighthouseRecords items)[0]? = some r → r.id = "root" ∧ r.initiator = none) ∧
    (∀ i item, 1 ≤ i → items[i]? = some item →
      ∃ r, (lighthouseRecords items)[i]? = some r ∧
        r.id = item.url ++ "-" ++ toString i ∧ r.id ≠ "root") ∧
    (∀ (i j : ℕ) (r₁ r₂ : Resource α), (lighthouseRecords items)[i]? = some r₁ →
      (lighthouseRecords items)[j]? = some r₂ → r₁.id = r₂.id → i = j) := by
  have hget : ∀ i, (lighthouseRecords items)[i]?
      = (items[i]?).map (fun item => lighthouseRecord item i) := by
    intro i
    simp only [lighthouseRecords, lighthouseRecordsFrom_getElem?, Nat.zero_add]
  have hinj : ∀ (i j : ℕ) (r₁ r₂ : Resource α), (lighthouseRecords items)[i]? = some r₁ →
      (lighthouseRecords items)[j]? = some r₂ → r₁.id = r₂.id → i = j := by
    intro i j r₁ r₂ h₁ h₂ hid
    rw [hget, Option.map_eq_some'] at h₁ h₂
    obtain ⟨a, -, ha⟩ := h₁
    obtain ⟨b, -, hb⟩ := h₂
    subst ha hb
    exact lighthouseRecord_id_injective a b i j hid
  refine ⟨?_, lighthouseRecordsFrom_length items 0, ?_, ?_, hinj⟩
  · rw [List.nodup_iff_getElem?_ne_getElem?]
    intro i j hij hj h
    rw [List.length_map] at hj
    have hi : i < (lighthouseRecords items).length := lt_trans hij hj
    rw [List.getElem?_map, List.getElem?_map, List.getElem?_eq_getElem hi,
      List.getElem?_eq_getElem hj] at h
    simp only [Option.map_some', Option.some.injEq] at h
    exact absurd (hinj i j _ _ (List.getElem?_eq_getElem hi) (List.getElem?_eq_getElem hj) h)
      (Nat.ne_of_lt hij)
  · intro r hr
    rw [hget, Option.map_eq_some'] at hr
    obtain ⟨a, -, ha⟩ := hr
    subst ha
    simp [lighthouseRecord]
  · intro i item hi hitem
    refine ⟨lighthouseRecord item i, ?_, ?_, ?_⟩
    · rw [hget, hitem]; rfl
    · rw [lighthouseRecord_id, if_neg (by omega)]
    · rw [lighthouseRecord_id, if_neg (by omega)]
      exact indexed_id_ne_root _ _

/-- The size and the store radius of a mapped record: a missing `resourceSize`, like a
`resourceSize` of 0, is mapped to size 0, with radius 6 at every index but the first
and 30 at the first index, where the id is `root`; a `resourceSize` that is present is
passed on as it is, and for a non-negative one the radius at a later index is finite
and between 6 and 70. -/
theorem lighthouseRecord_size_radius (item : NetworkItem ℝ) (index : ℕ) :
    ((item.resourceSize = none ∨ item.resourceSize = some 0) →
      (lighthouseRecord item index).size = 0 ∧
      (index ≠ 0 → storeRadius Real.log (lighthouseRecord item index) = .fin 6) ∧
      (index = 0 → storeRadius Real.log (lighthouseRecord item index) = .fin 30)) ∧
    (∀ v, item.resourceSize = some v → (lighthouseRecord item index).size = v) ∧
    (∀ v, item.resourceSize = some v → 0 ≤ v → index ≠ 0 →
      ∃ r, storeRadius Real.log (lighthouseRecord item index) = .fin r ∧ 6 ≤ r ∧ r ≤ 70) := by
  have hsize : ∀ v, item.resourceSize = some v → (lighthouseRecord item index).size = v := by
    intro v hv
    simp only [lighthouseRecord, hv, sizeOrZero]
    split_ifs with h0
    · exact h0.symm
    · rfl
  have hid : index ≠ 0 → (lighthouseRecord item index).id ≠ "root" := by
    intro hi
    rw [lighthouseRecord_id, if_neg hi]
    exact indexed_id_ne_root _ _
  refine ⟨?_, hsize, ?_⟩
  · intro h
    have h0 : (lighthouseRecord item index).size = 0 := by
      rcases h with h | h
      · simp [lighthouseRecord, h, sizeOrZero]
      · exact hsize 0 h
    refine ⟨h0, fun hi => ?_, fun hi => ?_⟩
    · rw [storeRadius_nonroot _ (hid hi) (le_of_eq h0.symm), h0]
      norm_num
    · simp [storeRadius, lighthouseRecord, hi]
  · intro v hv hv0 hi
    have hs := hsize v hv
    exact ⟨_, storeRadius_nonroot _ (hid hi) (by rw [hs]; exact hv0), le_max_left _ _,
      max_le (by norm_num) (min_le_left _ _)⟩

/-- The radius computed from a size below -1024 is `NaN`: the argument of `Math.log` is
negative, and `Math.min` and `Math.max` pass `NaN` on. -/
theorem storeRadius_negative (d : Resource ℝ) (hid : d.id ≠ "root") (hs : d.size < -1024) :
    storeRadius Real.log d = .nan := by
  have hneg : d.size / 1024 + 1 < 0 := by
    have : d.size / 1024 < -1 := by
      rw [div_lt_iff₀ (by norm_num)]
      linarith
    linarith
  simp only [storeRadius, if_neg hid, JSNum.log, if_pos hneg]
  rfl

/-- C14, the divergence: a network item without `resourceSize` at a later index is
mapped to size 0 and gets radius 6, but a negative `resourceSize` is truthy, so
`item.resourceSize || 0` passes it on as it is, and for -2048 the radius of the record,
and of its node in the store built from the mapped records, is `NaN` instead of a
number in [6, 70]; the same holds for every `resourceSize` below -1024 at every index
but the first. -/
theorem negative_size_radius_not_finite :
    ((itemWithoutSize : NetworkItem ℝ).resourceSize = none ∧
      (lighthouseRecord (itemWithoutSize : NetworkItem ℝ) 1).size = 0 ∧
      storeRadius Real.log (lighthouseRecord (itemWithoutSize : NetworkItem ℝ) 1) = .fin 6) ∧
    ((itemWithNegativeSize : NetworkItem ℝ).resourceSize = some (-2048) ∧
      (lighthouseRecord (itemWithNegativeSize : NetworkItem ℝ) 1).size = -2048 ∧
      storeRadius Real.log (lighthouseRecord (itemWithNegativeSize : NetworkItem ℝ) 1) = .nan ∧
      (storeRadius Real.log
        (lighthouseRecord (itemWithNegativeSize : NetworkItem ℝ) 1)).isFinite = false ∧
      ∃ n : SimNode ℝ,
        (simulationNodes Real.log sampleUrl
          (lighthouseRecords [itemWithoutSize, itemWithNegativeSize]) halfDraws)[1]? = some n ∧
        n.toResource = lighthouseRecord itemWithNegativeSize 1 ∧ n.radius = .nan) ∧
    (∀ (item : NetworkItem ℝ) (index : ℕ) (v : ℝ), item.resourceSize = some v → v < -1024 →
      index ≠ 0 →
      (lighthouseRecord item index).size = v ∧
      storeRadius Real.log (lighthouseRecord item index) = .nan) := by
  have hid : ∀ (item : NetworkItem ℝ) (index : ℕ), index ≠ 0 →
      (lighthouseRecord item index).id ≠ "root" := by
    intro item index hi
    rw [lighthouseRecord_id, if_neg hi]
    exact indexed_id_ne_root _ _
  have hgen : ∀ (item : NetworkItem ℝ) (index : ℕ) (v : ℝ), item.resourceSize = some v →
      v < -1024 → index ≠ 0 →
      (lighthouseRecord item index).size = v ∧
      storeRadius Real.log (lighthouseRecord item index) = .nan := by
    intro item index v hv hlt hi
    have hs : (lighthouseRecord item index).size = v := by
      have h0 : v ≠ 0 := by linarith
      simp [lighthouseRecord, hv, sizeOrZero, h0]
    exact ⟨hs, storeRadius_negative _ (hid item index hi) (by rw [hs]; exact hlt)⟩
  have hneg := hgen itemWithNegativeSize 1 (-2048) rfl (by norm_num) (by decide)
  refine ⟨⟨rfl, ?_, ?_⟩, ⟨rfl, hneg.1, hneg.2, ?_, ?_⟩, hgen⟩
  · simp [lighthouseRecord, itemWithoutSize, sizeOrZero]
  · have h0 : (lighthouseRecord (itemWithoutSize : NetworkItem ℝ) 1).size = 0 := by
      simp [lighthouseRecord, itemWithoutSize, sizeOrZero]
    rw [storeRadius_nonroot _ (hid _ 1 (by decide)) (le_of_eq h0.symm), h0]
    norm_num
  · rw [hneg.2]
    rfl
  · refine ⟨seedNode Real.log (lighthouseRecord itemWithNegativeSize 1) (halfDraws 2)
      (halfDraws 3), ?_, rfl, ?_⟩
    · have hroot : isRootNode sampleUrl
          (seedNode Real.log (lighthouseRecord (itemWithoutSize : NetworkItem ℝ) 0)
            (halfDraws 0) (halfDraws 1)) = true := by
        simp [isRootNode, seedNode, lighthouseRecord]
      simp only [simulationNodes, lighthouseRecords, lighthouseRecordsFrom, seedNodesFrom,
        pinRoot, hroot, if_true]
      rfl
    · exact hneg.2

end LighthouseRecordTheorems

section ConstructionTheorems

variable {α : Type} [LinearOrderedField α]

theorem seedNodesFrom_map_toResource (log : α → α) (rnd : ℕ → α) (ds : List (Resource α))
    (i : ℕ) : (seedNodesFrom log rnd i ds).map (fun n => n.toResource) = ds := by
  induction ds generalizing i with
  | nil => rfl
  | cons d ds ih => simp [seedNodesFrom, seedNode, ih]

theorem pinRoot_map_toResource (url : String) (l : List (SimNode α)) :
    (pinRoot url l).map (fun n => n.toResource) = l.map (fun n => n.toResource) := by
  induction l with
  | nil => rfl
  | cons n ns ih =>
    by_cases hr : isRootNode url n = true
    · simp [pinRoot, hr]
    · simp only [Bool.not_eq_true] at hr
      simp [pinRoot, hr, ih]

theorem pinRoot_motion (url : String) (l : List (SimNode α)) (n : SimNode α)
    (h : n ∈ pinRoot url l) :
    ∃ m ∈ l, n.x = m.x ∧ n.y = m.y ∧ n.vx = m.vx ∧ n.vy = m.vy := by
  induction l with
  | nil => simp [pinRoot] at h
  | cons a as ih =>
    by_cases hr : isRootNode url a = true
    · simp only [pinRoot, hr, if_true, List.mem_cons] at h
      rcases h with h | h
      · subst h
        exact ⟨a, List.mem_cons_self _ _, rfl, rfl, rfl, rfl⟩
      · exact ⟨n, List.mem_cons_of_mem _ h, rfl, rfl, rfl, rfl⟩
    · simp only [pinRoot, hr, List.mem_cons, Bool.false_eq_true, if_false] at h
      rcases h with h | h
      · subst h
        exact ⟨n, List.mem_cons_self _ _, rfl, rfl, rfl, rfl⟩
      · obtain ⟨m, hm, h1⟩ := ih h
        exact ⟨m, List.mem_cons_of_mem _ hm, h1⟩

theorem seedNodesFrom_position (log : α → α) (rnd : ℕ → α) (ds : List (Resource α)) (i : ℕ)
    (n : SimNode α) (h : n ∈ seedNodesFrom log rnd i ds) :
    ∃ j, n.x = .fin (400 + (rnd (2 * j) - 0.5) * 50) ∧
      n.y = .fin (300 + (rnd (2 * j + 1) - 0.5) * 50) := by
  induction ds generalizing i with
  | nil => simp [seedNodesFrom] at h
  | cons d ds ih =>
    simp only [seedNodesFrom, List.mem_cons] at h
    rcases h with h | h
    · subst h
      exact ⟨i, rfl, rfl⟩
    · exact ih (i + 1) h

theorem jitter_within (c r : α) (h0 : 0 ≤ r) (h1 : r < 1) :
    |c + (r - 0.5) * 50 - c| ≤ 25 := by
  rw [abs_le]
  constructor <;> norm_num <;> linarith

theorem pinRoot_map_unpinned (url : String) (l : List (SimNode α)) :
    (pinRoot url l).map (fun n => { n with fx := none, fy := none })
      = l.map (fun n => { n with fx := none, fy := none }) := by
  induction l with
  | nil => rfl
  | cons n ns ih =>
    by_cases hr : isRootNode url n = true
    · simp [pinRoot, hr]
    · simp only [Bool.not_eq_true] at hr
      simp [pinRoot, hr, ih]

theorem seedNodesFrom_map_unpinned (log : α → α) (rnd : ℕ → α) (ds : List (Resource α))
    (i : ℕ) :
    (seedNodesFrom log rnd i ds).map (fun n => { n with fx := none, fy := none })
      = seedNodesFrom log rnd i ds := by
  induction ds generalizing i with
  | nil => rfl
  | cons d ds ih => simp [seedNodesFrom, seedNode, ih]

/-- C16 (amended): the node store built by the physics effect is a function of the
dataset, the random draws and the analysed url, and the url enters only through the
fixed position: with `fx`, `fy` blanked the store is the list of seeded nodes, which
does not mention the url.  The store has exactly one node per record, in dataset order
and carrying the record (so its id); the node of record `i` starts with velocity (0, 0),
the size-based radius and position `(400 + (r - 0.5) * 50, 300 + (r' - 0.5) * 50)` for
the draws `r`, `r'` number `2 i` and `2 i + 1`, so, the draws lying in [0, 1), within 25
units of (400, 300) on each axis; a pinned node has id `root` or the analysed url; when
the first record has id `root` the store is the same for every url; the store the
effect leaves is this one whatever the state before. -/
theorem store_built_from_dataset (log : α → α) (url : String) (data : List (Resource α))
    (rnd : ℕ → α) (hrnd : ∀ i, 0 ≤ rnd i ∧ rnd i < 1) :
    (simulationNodes log url data rnd).map (fun n => n.toResource) = data ∧
    (simulationNodes log url data rnd).length = data.length ∧
    (simulationNodes log url data rnd).map (fun n => n.id) = data.map (fun d => d.id) ∧
    (∀ n ∈ simulationNodes log url data rnd, n.vx = .fin 0 ∧ n.vy = .fin 0 ∧
      ∃ x y : α, n.x = .fin x ∧ n.y = .fin y ∧ |x - 400| ≤ 25 ∧ |y - 300| ≤ 25) ∧
    (∀ st₁ st₂ : AppState α,
      (st₁.physicsEffect log url data rnd).simulationNodes = simulationNodes log url data rnd ∧
      (st₁.physicsEffect log url data rnd).simulationNodes
        = (st₂.physicsEffect log url data rnd).simulationNodes) ∧
    (simulationNodes log url data rnd).map (fun n => { n with fx := none, fy := none })
      = seedNodesFrom log rnd 0 data ∧
    (∀ url' : String,
      (simulationNodes log url data rnd).map (fun n => { n with fx := none, fy := none })
        = (simulationNodes log url' data rnd).map
            (fun n => { n with fx := none, fy := none })) ∧
    (∀ (i : ℕ) (d : Resource α), data[i]? = some d →
      ∃ n, (simulationNodes log url data rnd)[i]? = some n ∧ n.toResource = d ∧
        n.x = .fin (400 + (rnd (2 * i) - 0.5) * 50) ∧
        n.y = .fin (300 + (rnd (2 * i + 1) - 0.5) * 50) ∧
        n.vx = .fin 0 ∧ n.vy = .fin 0 ∧ n.radius = storeRadius log d) ∧
    (∀ n ∈ simulationNodes log url data rnd, n.pinned = true → n.id = "root" ∨ n.url = url) ∧
    (∀ (d : Resource α) (ds : List (Resource α)), data = d :: ds → d.id = "root" →
      ∀ url' : String, simulationNodes log url data rnd = simulationNodes log url' data rnd) := by
  have hmap : (simulationNodes log url data rnd).map (fun n => n.toResource) = data := by
    simp only [simulationNodes, pinRoot_map_toResource, seedNodesFrom_map_toResource]
  have heff : ∀ st : AppState α,
      (st.physicsEffect log url data rnd).simulationNodes
        = simulationNodes log url data rnd := by
    intro st
    by_cases h : data.length = 0
    · have hd : data = [] := List.length_eq_zero.mp h
      subst hd
      rfl
    · simp only [AppState.physicsEffect, if_neg h]
  have hunpin : ∀ u : String,
      (simulationNodes log u data rnd).map (fun n => { n with fx := none, fy := none })
        = seedNodesFrom log rnd 0 data := by
    intro u
    rw [simulationNodes, pinRoot_map_unpinned, seedNodesFrom_map_unpinned]
  refine ⟨hmap, ?_, ?_, ?_, fun st₁ st₂ => ⟨heff st₁, (heff st₁).trans (heff st₂).symm⟩,
    hunpin url, fun url' => (hunpin url).trans (hunpin url').symm, ?_, ?_, ?_⟩
  · have := congrArg List.length hmap
    simpa using this
  · have := congrArg (List.map (fun d : Resource α => d.id)) hmap
    simpa [List.map_map] using this
  · intro n hn
    obtain ⟨m, hm, hx, hy, hvx, hvy⟩ := pinRoot_motion url _ n hn
    obtain ⟨-, -, -, -, hmvx, hmvy⟩ := seedNodesFrom_mem log rnd data 0 m hm
    obtain ⟨j, hjx, hjy⟩ := seedNodesFrom_position log rnd data 0 m hm
    refine ⟨hvx.trans hmvx, hvy.trans hmvy, _, _, hx.trans hjx, hy.trans hjy, ?_, ?_⟩
    · exact jitter_within 400 _ (hrnd _).1 (hrnd _).2
    · exact jitter_within 300 _ (hrnd _).1 (hrnd _).2
  · intro i d hd
    have h := congrArg (fun l => l[i]?) (hunpin url)
    simp only [List.getElem?_map, seedNodesFrom_getElem?, hd, Option.map_some',
      Nat.zero_add] at h
    rw [Option.map_eq_some'] at h
    obtain ⟨n, hn, hne⟩ := h
    refine ⟨n, hn, ?_, ?_, ?_, ?_, ?_, ?_⟩
    · exact congrArg (fun m : SimNode α => m.toResource) hne
    · exact congrArg (fun m : SimNode α => m.x) hne
    · exact congrArg (fun m : SimNode α => m.y) hne
    · exact congrArg (fun m : SimNode α => m.vx) hne
    · exact congrArg (fun m : SimNode α => m.vy) hne
    · exact congrArg (fun m : SimNode α => m.radius) hne
  · intro n hn hp
    obtain ⟨m, hm, -, -, hpin⟩ := pinRoot_mem url _ n hn
    rcases hpin hp with h | h
    · obtain ⟨-, h1, h2, -⟩ := seedNodesFrom_mem log rnd data 0 m hm
      simp [SimNode.pinned, h1, h2] at h
    · simpa [isRootNode] using h
  · intro d ds hdata hroot url'
    subst hdata
    simp [simulationNodes, seedNodesFrom, pinRoot, isRootNode, seedNode, hroot]

/-- The store of a three-record dataset with the sample draws. -/
theorem store_built_from_dataset_witness :
    (∀ i, (0 : ℚ) ≤ sampleDraws i ∧ (sampleDraws i : ℚ) < 1) ∧
    (simulationNodes id sampleUrl ([sampleRoot, sampleStyle, sampleEmpty] : List (Resource ℚ))
      sampleDraws).map (fun n => n.toResource) = [sampleRoot, sampleStyle, sampleEmpty] ∧
    (simulationNodes id sampleUrl ([sampleRoot, sampleStyle, sampleEmpty] : List (Resource ℚ))
      sampleDraws).map (fun n => { n with fx := none, fy := none })
      = seedNodesFrom id sampleDraws 0 [sampleRoot, sampleStyle, sampleEmpty] :=
  have h : ∀ i, (0 : ℚ) ≤ sampleDraws i ∧ (sampleDraws i : ℚ) < 1 := by
    intro i
    simp only [sampleDraws]
    have hlt : i % 8 < 8 := Nat.mod_lt _ (by norm_num)
    have hc : ((i % 8 : ℕ) : ℚ) < 8 := by exact_mod_cast hlt
    constructor
    · positivity
    · rw [div_lt_one (by norm_num)]
      exact hc
  ⟨h, (store_built_from_dataset id sampleUrl [sampleRoot, sampleStyle, sampleEmpty] sampleDraws
    h).1, (store_built_from_dataset id sampleUrl [sampleRoot, sampleStyle, sampleEmpty]
    sampleDraws h).2.2.2.2.2.1⟩

/-- C16, the claim as worded fails: the store is not a function of the dataset and the
draws only.  The dataset of the single record `samplePage`, with the same draws, gives
a store whose node is pinned at (400, 300) when the analysed url is the url of that
record, and a store whose node is not pinned under another analysed url. -/
theorem store_depends_on_url_counterexample :
    (simulationNodes Real.log sampleUrl [samplePage] sampleDraws).map
        (fun n : SimNode ℝ => (n.fx, n.fy)) = [(some 400, some 300)] ∧
    (simulationNodes Real.log otherUrl [samplePage] sampleDraws).map
        (fun n : SimNode ℝ => (n.fx, n.fy)) = [(none, none)] ∧
    (simulationNodes Real.log sampleUrl [samplePage] sampleDraws).map SimNode.pinned = [true] ∧
    (simulationNodes Real.log otherUrl [samplePage] (sampleDraws : ℕ → ℝ)).map SimNode.pinned
      = [false] ∧
    simulationNodes Real.log sampleUrl [samplePage] (sampleDraws : ℕ → ℝ)
      ≠ simulationNodes Real.log otherUrl [samplePage] sampleDraws := by
  have h1 : (simulationNodes Real.log sampleUrl [samplePage] sampleDraws).map
      (fun n : SimNode ℝ => (n.fx, n.fy)) = [(some 400, some 300)] := by
    simp [simulationNodes, seedNodesFrom, pinRoot, isRootNode, seedNode, samplePage, sampleUrl]
  have h2 : (simulationNodes Real.log otherUrl [samplePage] sampleDraws).map
      (fun n : SimNode ℝ => (n.fx, n.fy)) = [(none, none)] := by
    simp [simulationNodes, seedNodesFrom, pinRoot, isRootNode, seedNode, samplePage, otherUrl]
  refine ⟨h1, h2, ?_, ?_, ?_⟩
  · simp [simulationNodes, seedNodesFrom, pinRoot, isRootNode, seedNode, samplePage, sampleUrl,
      SimNode.pinned]
  · simp [simulationNodes, seedNodesFrom, pinRoot, isRootNode, seedNode, samplePage, otherUrl,
      SimNode.pinned]
  · intro h
    rw [h, h2] at h1
    simp at h1

end ConstructionTheorems

section AttractionTheorems

/-- The guarded distance of line 528: `Math.sqrt(dx * dx + dy * dy) || 1`. -/
theorem guarded_dist (a b : ℝ) :
    JSNum.orElse (JSNum.sqrt Real.sqrt (JSNum.fin (a * a + b * b))) (.fin 1)
      = .fin (if Real.sqrt (a * a + b * b) = 0 then 1 else Real.sqrt (a * a + b * b)) := by
  rw [sqrt_dist_fin]
  by_cases h : Real.sqrt (a * a + b * b) = 0
  · rw [if_pos h, h, JSNum.orElse_zero]
  · rw [if_neg h, JSNum.orElse_fin _ _ h]

/-- C20: for a node at a finite position `(x, y)` with finite radius `r` and finite
attraction target `(tx, ty)`, with `d` the distance between them and `d'` the distance
with 0 replaced by 1: if `d' > 80 + r` the attraction adds
`((tx - x) / d' * 0.04, (ty - y) / d' * 0.04)` to the velocity, a vector of Euclidean
norm 0.04 when `d > 0`; if `d' ≤ 80 + r` it leaves the velocity as it is.  For a node
that is not pinned the step continues from this velocity with repulsion and damping. -/
theorem attraction_term (nodes : List (SimNode ℝ)) (node : SimNode ℝ) (tx ty x y r d : ℝ)
    (ht : attractionTarget nodes node = (.fin tx, .fin ty))
    (hx : node.x = .fin x) (hy : node.y = .fin y) (hr : node.radius = .fin r)
    (hd : d = Real.sqrt ((tx - x) * (tx - x) + (ty - y) * (ty - y))) :
    (80 + r < (if d = 0 then 1 else d) →
      attract Real.sqrt nodes node
        = (node.vx + .fin ((tx - x) / (if d = 0 then 1 else d) * 0.04),
           node.vy + .fin ((ty - y) / (if d = 0 then 1 else d) * 0.04))) ∧
    (0 < d →
      Real.sqrt (((tx - x) / d * 0.04) * ((tx - x) / d * 0.04)
        + ((ty - y) / d * 0.04) * ((ty - y) / d * 0.04)) = 0.04) ∧
    ((if d = 0 then 1 else d) ≤ 80 + r → attract Real.sqrt nodes node = (node.vx, node.vy)) ∧
    (truthyFixed node.fx = false →
      (updateNode Real.sqrt nodes node).vx
        = (nodes.foldl (repel Real.sqrt node) (attract Real.sqrt nodes node)).1 * .fin 0.90 ∧
      (updateNode Real.sqrt nodes node).vy
        = (nodes.foldl (repel Real.sqrt node) (attract Real.sqrt nodes node)).2 * .fin 0.90) := by
  have hne : (if d = 0 then (1 : ℝ) else d) ≠ 0 := by
    split_ifs with h
    · norm_num
    · exact h
  have hatt : attract Real.sqrt nodes node
      = if 80 + r < (if d = 0 then 1 else d) then
          (node.vx + .fin ((tx - x) / (if d = 0 then 1 else d) * 0.04),
           node.vy + .fin ((ty - y) / (if d = 0 then 1 else d) * 0.04))
        else (node.vx, node.vy) := by
    simp only [attract, ht, hx, hy, hr, JSNum.fin_sub, JSNum.fin_mul, JSNum.fin_add,
      guarded_dist, ← hd, JSNum.gt_fin, JSNum.fin_div _ _ hne, decide_eq_true_eq]
  refine ⟨fun h => ?_, fun hpos => ?_, fun h => ?_, fun hfx => ?_⟩
  · rw [hatt, if_pos h]
  · have hsq : d * d = (tx - x) * (tx - x) + (ty - y) * (ty - y) := by
      rw [hd]
      exact Real.mul_self_sqrt (add_nonneg (mul_self_nonneg _) (mul_self_nonneg _))
    have hd0 : d ≠ 0 := hpos.ne.symm
    have e : ((tx - x) / d * 0.04) * ((tx - x) / d * 0.04)
        + ((ty - y) / d * 0.04) * ((ty - y) / d * 0.04) = 0.04 * 0.04 := by
      field_simp
      rw [hsq]
      ring
    rw [e]
    exact Real.sqrt_mul_self (by norm_num)
  · rw [hatt, if_neg (not_lt.mpr h)]
  · simp only [updateNode, hfx, Bool.false_eq_true, if_false, and_self]

/-- The child of the two-node store 100 away from the root, beyond 80 + 10: the
attraction adds (-0.04, 0). -/
theorem attraction_term_witness :
    (100 : ℝ) = Real.sqrt ((400 - 500) * (400 - 500) + (300 - 300) * (300 - 300)) ∧
    attract Real.sqrt (twoNodeStore 500 300 0 0) (childNode 500 300 0 0)
      = ((childNode 500 300 0 0 : SimNode ℝ).vx
          + .fin ((400 - 500) / (if (100 : ℝ) = 0 then 1 else 100) * 0.04),
         (childNode 500 300 0 0 : SimNode ℝ).vy
          + .fin ((300 - 300) / (if (100 : ℝ) = 0 then 1 else 100) * 0.04)) :=
  have hd : (100 : ℝ) = Real.sqrt ((400 - 500) * (400 - 500) + (300 - 300) * (300 - 300)) := by
    have e : ((400 : ℝ) - 500) * (400 - 500) + (300 - 300) * (300 - 300) = 100 * 100 := by
      norm_num
    rw [e, Real.sqrt_mul_self (by norm_num)]
  ⟨hd, (attraction_term (twoNodeStore 500 300 0 0) (childNode 500 300 0 0) 400 300 500 300 10
    100 (by simp [attractionTarget, twoNodeStore, childNode, pinnedRoot, findParent,
      truthyString, sampleRoot]) rfl rfl rfl hd).1 (by norm_num)⟩

end AttractionTheorems

section CoincidentTheorems

theorem JSNum.nan_add {α : Type} [LinearOrderedField α] (w : JSNum α) :
    JSNum.nan + w = JSNum.nan := by
  cases w <;> rfl

theorem JSNum.nan_mul {α : Type} [LinearOrderedField α] (w : JSNum α) :
    JSNum.nan * w = JSNum.nan := by
  cases w <;> rfl

/-- A velocity that is `NaN` in both components stays so under every further push. -/
theorem repel_nan {α : Type} [LinearOrderedField α] (sqrt : α → α) (A C : SimNode α) :
    repel sqrt A (.nan, .nan) C = (.nan, .nan) := by
  simp only [repel]
  split_ifs <;> simp only [JSNum.nan_add]

theorem foldl_repel_nan {α : Type} [LinearOrderedField α] (sqrt : α → α) (A : SimNode α)
    (l : List (SimNode α)) : l.foldl (repel sqrt A) (.nan, .nan) = (.nan, .nan) := by
  induction l with
  | nil => rfl
  | cons C l ih => rw [List.foldl_cons, repel_nan, ih]

/-- The visit of a non-pinned node `A` while another node `B` of the array sits exactly
on its position: the repulsion divides 0 by the distance 0, and velocity and position
of `A` become `NaN`. -/
theorem updateNode_coincident (nodes : List (SimNode ℝ)) (A B : SimNode ℝ)
    (xa ya rA rB : ℝ) (hfx : truthyFixed A.fx = false) (hB : B ∈ nodes) (hid : A.id ≠ B.id)
    (hAx : A.x = .fin xa) (hAy : A.y = .fin ya) (hBx : B.x = .fin xa) (hBy : B.y = .fin ya)
    (hAr : A.radius = .fin rA) (hBr : B.radius = .fin rB) (hrange : 0 < rA + rB + 15) :
    (updateNode Real.sqrt nodes A).vx = .nan ∧ (updateNode Real.sqrt nodes A).vy = .nan ∧
    (updateNode Real.sqrt nodes A).x = .nan ∧ (updateNode Real.sqrt nodes A).y = .nan := by
  have hpush : ∀ w, repel Real.sqrt A w B = (.nan, .nan) := by
    intro w
    rw [repel_coincident A B xa ya xa ya rA rB hid hAx hAy hBx hBy hAr hBr (by simp) hrange,
      JSNum.add_nan, JSNum.add_nan]
  have hfold : ∀ (l : List (SimNode ℝ)) (w : JSNum ℝ × JSNum ℝ), B ∈ l →
      l.foldl (repel Real.sqrt A) w = (.nan, .nan) := by
    intro l
    induction l with
    | nil => intro w h; simp at h
    | cons C l ih =>
      intro w h
      rw [List.foldl_cons]
      by_cases hC : C = B
      · rw [hC, hpush, foldl_repel_nan]
      · rcases List.mem_cons.1 h with h | h
        · exact absurd h.symm hC
        · exact ih _ h
  simp only [updateNode, hfx, Bool.false_eq_true, if_false, hfold nodes _ hB, JSNum.nan_mul,
    JSNum.add_nan, and_self]

/-- C13, the divergence: the store built from the two-record dataset when every random
draw is 0.5 has both nodes at (400, 300); in the first step the attraction of the
second node replaces the zero distance by 1 and leaves its velocity (0, 0), but the
repulsion from the root divides 0 by the unguarded zero distance, and velocity and
position of the second node come out as `NaN`. -/
theorem coincident_step_not_finite :
    (∃ root pixel : SimNode ℝ,
      simulationNodes Real.log sampleUrl coincidentData halfDraws = [root, pixel] ∧
      root.id = "root" ∧ pixel.id = "pixel" ∧
      root.x = .fin 400 ∧ root.y = .fin 300 ∧ pixel.x = .fin 400 ∧ pixel.y = .fin 300 ∧
      attract Real.sqrt [updateNode Real.sqrt [root, pixel] root, pixel] pixel
        = (.fin 0, .fin 0)) ∧
    (∃ root' pixel' : SimNode ℝ,
      animate Real.sqrt (simulationNodes Real.log sampleUrl coincidentData halfDraws)
        = [root', pixel'] ∧
      pixel'.id = "pixel" ∧ pixel'.vx = .nan ∧ pixel'.vy = .nan ∧
      pixel'.x = .nan ∧ pixel'.y = .nan ∧
      pixel'.vx.isFinite = false ∧ pixel'.x.isFinite = false) := by
  have hx : (400 : ℝ) + (0.5 - 0.5) * 50 = 400 := by norm_num
  have hy : (300 : ℝ) + (0.5 - 0.5) * 50 = 300 := by norm_num
  have hr6 : storeRadius Real.log (sampleEmpty : Resource ℝ) = .fin 6 := by
    rw [storeRadius_nonroot _ (by decide) (by simp [sampleEmpty])]
    simp [sampleEmpty]
  have hr30 : storeRadius Real.log (sampleRoot : Resource ℝ) = .fin 30 := by
    simp [storeRadius, sampleRoot]
  have hstore : simulationNodes Real.log sampleUrl coincidentData halfDraws
      = [{ seedNode Real.log sampleRoot (0.5 : ℝ) 0.5 with fx := some 400, fy := some 300 },
         seedNode Real.log sampleEmpty 0.5 0.5] := by
    simp [simulationNodes, coincidentData, halfDraws, seedNodesFrom, pinRoot, isRootNode,
      seedNode, sampleRoot]
  rw [hstore]
  generalize hR : ({ seedNode Real.log sampleRoot (0.5 : ℝ) 0.5 with
    fx := some 400, fy := some 300 } : SimNode ℝ) = R
  generalize hP : seedNode Real.log (sampleEmpty : Resource ℝ) 0.5 0.5 = P
  have hRid : R.id = "root" := by rw [← hR]; rfl
  have hPid : P.id = "pixel" := by rw [← hP]; rfl
  have hRx : R.x = .fin 400 := by rw [← hR]; simp only [seedNode, hx]
  have hRy : R.y = .fin 300 := by rw [← hR]; simp only [seedNode, hy]
  have hPx : P.x = .fin 400 := by rw [← hP]; simp only [seedNode, hx]
  have hPy : P.y = .fin 300 := by rw [← hP]; simp only [seedNode, hy]
  have hPr : P.radius = .fin 6 := by rw [← hP]; simp only [seedNode, hr6]
  have hPv : P.vx = .fin 0 ∧ P.vy = .fin 0 := by rw [← hP]; exact ⟨rfl, rfl⟩
  have hPfx : truthyFixed P.fx = false := by rw [← hP]; rfl
  have hPinit : P.initiator = some "root" := by rw [← hP]; rfl
  have hRfx : R.fx = some 400 ∧ R.fy = some 300 := by rw [← hR]; exact ⟨rfl, rfl⟩
  have hRr : R.radius = .fin 30 := by rw [← hR]; simp only [seedNode, hr30]
  generalize hR' : updateNode Real.sqrt [R, P] R = R'
  have hR'all : R'.id = "root" ∧ R'.x = .fin 400 ∧ R'.y = .fin 300 ∧ R'.radius = .fin 30 := by
    rw [← hR']
    simp [updateNode, truthyFixed, fixedValue, hRfx.1, hRfx.2, hRid, hRr]
  obtain ⟨hR'id, hR'x, hR'y, hR'r⟩ := hR'all
  have hidne : P.id ≠ R'.id := by rw [hPid, hR'id]; decide
  refine ⟨⟨R, P, rfl, hRid, hPid, hRx, hRy, hPx, hPy, ?_⟩, ?_⟩
  · have ht : attractionTarget [R', P] P = (.fin 400, .fin 300) := by
      simp [attractionTarget, findParent, truthyString, hPinit, hPid, hR'id, hR'x, hR'y]
    have h0 : Real.sqrt ((400 - 400) * (400 - 400) + (300 - 300) * (300 - 300)) = 0 := by
      simp
    rw [hR']
    simp only [attract, ht, hPx, hPy, hPr, JSNum.fin_sub, JSNum.fin_mul, JSNum.fin_add,
      sqrt_dist_fin, h0, JSNum.orElse_zero, JSNum.gt_fin, hPv.1, hPv.2]
    norm_num
  · have hanim : animate Real.sqrt [R, P] = [R', updateNode Real.sqrt [R', P] P] := by
      simp [animate, animateFrom, hR']
    obtain ⟨h1, h2, h3, h4⟩ := updateNode_coincident [R', P] P R' 400 300 6 30 hPfx
      (List.mem_cons_self _ _) hidne hPx hPy hR'x hR'y hPr hR'r (by norm_num)
    refine ⟨R', _, hanim, ?_, h1, h2, h3, h4, ?_, ?_⟩
    · simp [updateNode, hPfx, hPid]
    · rw [h1]; rfl
    · rw [h3]; rfl

end CoincidentTheorems

section TickTheorems

theorem animateFrom_keeps_done {α : Type} [LinearOrderedField α] (sqrt : α → α)
    (done todo : List (SimNode α)) :
    (animateFrom sqrt done todo).take done.length = done ∧
    (animateFrom sqrt done todo).length = done.length + todo.length := by
  obtain ⟨upd, h1, h2⟩ := animateFrom_forall₂ sqrt (fun _ _ => True) (fun _ _ => trivial)
    done todo
  rw [h1]
  exact ⟨by simp, by simp [h2.length_eq]⟩

/-- The node at place `j` of the part still to visit is updated from the array in which
the places before it hold their values of this pass and the places from it on their
values of the pass before. -/
theorem animateFrom_getElem? {α : Type} [LinearOrderedField α] (sqrt : α → α)
    (done todo : List (SimNode α)) (j : ℕ) (node : SimNode α) (h : todo[j]? = some node) :
    (animateFrom sqrt done todo)[done.length + j]?
      = some (updateNode sqrt
          ((animateFrom sqrt done todo).take (done.length + j) ++ todo.drop j) node) := by
  induction todo generalizing done j with
  | nil => simp at h
  | cons n rest ih =>
    obtain ⟨hpre, hlen⟩ := animateFrom_keeps_done sqrt
      (done ++ [updateNode sqrt (done ++ n :: rest) n]) rest
    rw [List.length_append, List.length_singleton] at hpre hlen
    cases j with
    | zero =>
      simp only [List.getElem?_cons_zero, Option.some.injEq] at h
      subst h
      rw [animateFrom, Nat.add_zero, List.drop_zero]
      have h1 : (animateFrom sqrt (done ++ [updateNode sqrt (done ++ n :: rest) n])
          rest).take done.length = done := by
        have := congrArg (List.take done.length) hpre
        rw [List.take_take, Nat.min_eq_left (Nat.le_succ _)] at this
        rw [this]
        simp
      have h2 : (animateFrom sqrt (done ++ [updateNode sqrt (done ++ n :: rest) n])
          rest)[done.length]? = some (updateNode sqrt (done ++ n :: rest) n) := by
        have := congrArg (fun l => l[done.length]?) hpre
        simp only [List.getElem?_take_of_lt (Nat.lt_succ_self _)] at this
        rw [this]
        simp
      rw [h1, h2]
    | succ j =>
      simp only [List.getElem?_cons_succ] at h
      have := ih (done ++ [updateNode sqrt (done ++ n :: rest) n]) j h
      rw [List.length_append, List.length_singleton] at this
      rw [animateFrom, List.drop_succ_cons]
      have e : done.length + (j + 1) = done.length + 1 + j := by omega
      rw [e]
      exact this

/-- C19 (amended): a tick visits the nodes in stored order and updates each in place:
the node at place `i` is recomputed from the array in which the places before `i`
already hold their new values and the places from `i` on still hold the values of the
start of the tick; only the first node is computed from the start-of-tick array alone.
The tick keeps the number of nodes, and a frame publishes the result of the whole pass
at once. -/
theorem tick_reads_updated_prefix {α : Type} [LinearOrderedField α] (sqrt : α → α)
    (nodes : List (SimNode α)) :
    (∀ (i : ℕ) (node : SimNode α), nodes[i]? = some node →
      (animate sqrt nodes)[i]?
        = some (updateNode sqrt ((animate sqrt nodes).take i ++ nodes.drop i) node)) ∧
    (animate sqrt nodes).length = nodes.length ∧
    (animate sqrt nodes)[0]? = (animateSnapshot sqrt nodes)[0]? ∧
    (∀ st : AppState α, st.simulationNodes = nodes →
      (st.frame sqrt).nodes = animate sqrt nodes) := by
  have hidx : ∀ (i : ℕ) (node : SimNode α), nodes[i]? = some node →
      (animate sqrt nodes)[i]?
        = some (updateNode sqrt ((animate sqrt nodes).take i ++ nodes.drop i) node) := by
    intro i node h
    have := animateFrom_getElem? sqrt [] nodes i node h
    simpa [animate] using this
  refine ⟨hidx, ?_, ?_, ?_⟩
  · have := (animateFrom_keeps_done sqrt [] nodes).2
    simpa [animate] using this
  · cases nodes with
    | nil => rfl
    | cons n rest =>
      rw [hidx 0 n (by simp)]
      simp [animateSnapshot]
  · intro st h
    simp only [AppState.frame, h]

theorem attract_loose (i : String) (a va : ℝ) (nodes : List (SimNode ℝ))
    (h : |400 - a| ≤ 86) :
    attract Real.sqrt nodes (looseNode i a va) = (.fin va, .fin 0) := by
  have ht : attractionTarget nodes (looseNode i a va) = (.fin 400, .fin 300) := by
    simp [attractionTarget, looseNode, truthyString]
  have e : (80 : ℝ) + 6 = 86 := by norm_num
  simp only [attract, ht]
  simp only [looseNode, JSNum.fin_sub, JSNum.fin_mul, JSNum.fin_add, sqrt_dist_fin,
    sqrt_on_line, e]
  by_cases h0 : |400 - a| = 0
  · rw [h0, JSNum.orElse_zero]
    simp only [JSNum.gt_fin]
    norm_num
  · rw [JSNum.orElse_fin _ _ h0]
    simp only [JSNum.gt_fin, not_lt.mpr h, decide_False, Bool.false_eq_true, if_false]

theorem repel_loose (i j : String) (a b va vb wa wb : ℝ) (hij : i ≠ j) (hab : a ≠ b) :
    repel Real.sqrt (looseNode i a va) (JSNum.fin wa, JSNum.fin wb) (looseNode j b vb)
      = (.fin (wa + if |a - b| < 27
            then (a - b) / |a - b| * ((27 - |a - b|) / 27) * 1.2 else 0), .fin wb) := by
  have hne : |a - b| ≠ 0 := abs_ne_zero.2 (sub_ne_zero.2 hab)
  have h27 : (27 : ℝ) ≠ 0 := by norm_num
  have e : (6 : ℝ) + 6 + 15 = 27 := by norm_num
  have hid : (looseNode i a va).id ≠ (looseNode j b vb).id := hij
  simp only [repel, if_neg hid]
  simp only [looseNode, JSNum.fin_sub, JSNum.fin_mul, JSNum.fin_add, sqrt_dist_fin, sqrt_on_line,
    e, JSNum.lt_fin, JSNum.fin_div _ _ hne, JSNum.fin_div _ _ h27]
  split_ifs <;> simp_all

/-- The visit of a loose node near the centre in an array that holds, besides the node
itself, one other loose node within range. -/
theorem updateNode_loose (i j : String) (a b vb t : ℝ) (nodes : List (SimNode ℝ))
    (hnodes : nodes = [looseNode i a 0, looseNode j b vb] ∨
      nodes = [looseNode j b vb, looseNode i a 0])
    (hij : i ≠ j) (hab : a ≠ b) (hnear : |400 - a| ≤ 86) (hrange : |a - b| < 27)
    (ht : t = (a - b) / |a - b| * ((27 - |a - b|) / 27) * 1.2 * 0.90) :
    updateNode Real.sqrt nodes (looseNode i a 0) = looseNode i (a + t) t := by
  have hfold : nodes.foldl (repel Real.sqrt (looseNode i a 0)) (.fin 0, .fin 0)
      = (.fin (0 + (a - b) / |a - b| * ((27 - |a - b|) / 27) * 1.2), .fin 0) := by
    rcases hnodes with h | h <;> rw [h]
    · simp only [List.foldl_cons, List.foldl_nil, repel_self,
        repel_loose i j a b 0 vb 0 0 hij hab, if_pos hrange]
    · simp only [List.foldl_cons, List.foldl_nil, repel_self,
        repel_loose i j a b 0 vb 0 0 hij hab, if_pos hrange]
  simp only [updateNode]
  rw [if_neg (by simp [looseNode, truthyFixed]), attract_loose i a 0 nodes hnear, hfold]
  simp only [looseNode, JSNum.fin_mul, JSNum.fin_add, zero_add, zero_mul, add_zero, ← ht]

/-- C19, the claim as worded fails: with two loose nodes at (410, 300) and (420, 300),
the second node is pushed by 408/625 because it reads the first node where the same
pass has already moved it, not by the 17/25 that the positions of the start of the
tick give; and the step of the same two nodes stored in the other order moves each of
them differently. -/
theorem tick_order_counterexample :
    animate Real.sqrt [looseNode "a" (410 : ℝ) 0, looseNode "b" 420 0]
      = [looseNode "a" (410 + -17 / 25) (-17 / 25), looseNode "b" (420 + 408 / 625) (408 / 625)] ∧
    animateSnapshot Real.sqrt [looseNode "a" (410 : ℝ) 0, looseNode "b" 420 0]
      = [looseNode "a" (410 + -17 / 25) (-17 / 25), looseNode "b" (420 + 17 / 25) (17 / 25)] ∧
    animate Real.sqrt [looseNode "b" (420 : ℝ) 0, looseNode "a" 410 0]
      = [looseNode "b" (420 + 17 / 25) (17 / 25), looseNode "a" (410 + -408 / 625) (-408 / 625)] ∧
    animate Real.sqrt [looseNode "a" (410 : ℝ) 0, looseNode "b" 420 0]
      ≠ animateSnapshot Real.sqrt [looseNode "a" (410 : ℝ) 0, looseNode "b" 420 0] := by
  have habs : ∀ u : ℝ, 0 < u → |u| = u := fun u hu => abs_of_pos hu
  have habsn : ∀ u : ℝ, u < 0 → |u| = -u := fun u hu => abs_of_neg hu
  have ha : updateNode Real.sqrt [looseNode "a" (410 : ℝ) 0, looseNode "b" 420 0]
      (looseNode "a" 410 0) = looseNode "a" (410 + -17 / 25) (-17 / 25) :=
    updateNode_loose "a" "b" 410 420 0 _ _ (Or.inl rfl) (by decide) (by norm_num)
      (by rw [habsn _ (by norm_num)]; norm_num) (by rw [habsn _ (by norm_num)]; norm_num)
      (by rw [habsn _ (by norm_num)]; norm_num)
  have hb : updateNode Real.sqrt [looseNode "a" (410 : ℝ) 0, looseNode "b" 420 0]
      (looseNode "b" 420 0) = looseNode "b" (420 + 17 / 25) (17 / 25) :=
    updateNode_loose "b" "a" 420 410 0 _ _ (Or.inr rfl) (by decide) (by norm_num)
      (by rw [habsn _ (by norm_num)]; norm_num) (by rw [habs _ (by norm_num)]; norm_num)
      (by rw [habs _ (by norm_num)]; norm_num)
  have hb' : updateNode Real.sqrt
      [looseNode "a" ((410 : ℝ) + -17 / 25) (-17 / 25), looseNode "b" 420 0]
      (looseNode "b" 420 0) = looseNode "b" (420 + 408 / 625) (408 / 625) :=
    updateNode_loose "b" "a" 420 (410 + -17 / 25) (-17 / 25) _ _ (Or.inr rfl) (by decide)
      (by norm_num) (by rw [habsn _ (by norm_num)]; norm_num)
      (by rw [habs _ (by norm_num)]; norm_num) (by rw [habs _ (by norm_num)]; norm_num)
  have hb2 : updateNode Real.sqrt [looseNode "b" (420 : ℝ) 0, looseNode "a" 410 0]
      (looseNode "b" 420 0) = looseNode "b" (420 + 17 / 25) (17 / 25) :=
    updateNode_loose "b" "a" 420 410 0 _ _ (Or.inl rfl) (by decide) (by norm_num)
      (by rw [habsn _ (by norm_num)]; norm_num) (by rw [habs _ (by norm_num)]; norm_num)
      (by rw [habs _ (by norm_num)]; norm_num)
  have ha2 : updateNode Real.sqrt
      [looseNode "b" ((420 : ℝ) + 17 / 25) (17 / 25), looseNode "a" 410 0]
      (looseNode "a" 410 0) = looseNode "a" (410 + -408 / 625) (-408 / 625) :=
    updateNode_loose "a" "b" 410 (420 + 17 / 25) (17 / 25) _ _ (Or.inr rfl) (by decide)
      (by norm_num) (by rw [habsn _ (by norm_num)]; norm_num)
      (by rw [habsn _ (by norm_num)]; norm_num) (by rw [habsn _ (by norm_num)]; norm_num)
  have h1 : animate Real.sqrt [looseNode "a" (410 : ℝ) 0, looseNode "b" 420 0]
      = [looseNode "a" (410 + -17 / 25) (-17 / 25),
          looseNode "b" (420 + 408 / 625) (408 / 625)] := by
    simp only [animate, animateFrom, List.nil_append, List.cons_append, ha, hb']
  have h2 : animateSnapshot Real.sqrt [looseNode "a" (410 : ℝ) 0, looseNode "b" 420 0]
      = [looseNode "a" (410 + -17 / 25) (-17 / 25),
          looseNode "b" (420 + 17 / 25) (17 / 25)] := by
    simp only [animateSnapshot, List.map_cons, List.map_nil, ha, hb]
  have h3 : animate Real.sqrt [looseNode "b" (420 : ℝ) 0, looseNode "a" 410 0]
      = [looseNode "b" (420 + 17 / 25) (17 / 25),
          looseNode "a" (410 + -408 / 625) (-408 / 625)] := by
    simp only [animate, animateFrom, List.nil_append, List.cons_append, hb2, ha2]
  refine ⟨h1, h2, h3, ?_⟩
  rw [h1, h2]
  intro h
  have hv := congrArg (fun l => (l.map (fun n : SimNode ℝ => n.vx))) h
  simp only [List.map_cons, List.map_nil, looseNode, List.cons.injEq, JSNum.fin.injEq,
    and_true, true_and] at hv
  norm_num at hv

end TickTheorems

section RepulsionTheorems

/-- The visit of a loose node near the centre, moving with velocity `(va, 0)`, in an
array that holds, besides the node itself, one other loose node. -/
theorem updateNode_loose_moving (i j : String) (a b va vb t : ℝ) (nodes : List (SimNode ℝ))
    (hnodes : nodes = [looseNode i a va, looseNode j b vb] ∨
      nodes = [looseNode j b vb, looseNode i a va])
    (hij : i ≠ j) (hab : a ≠ b) (hnear : |400 - a| ≤ 86)
    (ht : t = (va + if |a - b| < 27
      then (a - b) / |a - b| * ((27 - |a - b|) / 27) * 1.2 else 0) * 0.90) :
    updateNode Real.sqrt nodes (looseNode i a va) = looseNode i (a + t) t := by
  have hfold : nodes.foldl (repel Real.sqrt (looseNode i a va)) (.fin va, .fin 0)
      = (.fin (va + if |a - b| < 27
          then (a - b) / |a - b| * ((27 - |a - b|) / 27) * 1.2 else 0), .fin 0) := by
    rcases hnodes with h | h <;> rw [h]
    · simp only [List.foldl_cons, List.foldl_nil, repel_self,
        repel_loose i j a b va vb va 0 hij hab]
    · simp only [List.foldl_cons, List.foldl_nil, repel_self,
        repel_loose i j a b va vb va 0 hij hab]
  simp only [updateNode]
  rw [if_neg (by simp [looseNode, truthyFixed]), attract_loose i a va nodes hnear, hfold]
  simp only [looseNode, JSNum.fin_mul, JSNum.fin_add, zero_mul, add_zero, ← ht]

/-- C21 (amended): when a node `A` is visited and reads another node `B` with a different
id at distance `d` in the array as it stands at that visit, with
`minDistance = radiusA + radiusB + 15`: if `0 < d < minDistance` the velocity of `A`
receives the contribution `(A - B) / d * ((minDistance - d) / minDistance) * 1.2`, a
positive multiple of `A - B` of Euclidean norm `((minDistance - d) / minDistance) * 1.2`,
and `B` read against `A` in the same array would receive the opposite vector; if
`d ≥ minDistance` nothing is added.  A node with the id of `A` adds nothing, a pinned
node receives nothing, and the velocity of a node that is not pinned is the damped sum
of these contributions on top of the attraction. -/
theorem repulsion_term (A B : SimNode ℝ) (xa ya xb yb rA rB d : ℝ) (hid : A.id ≠ B.id)
    (hAx : A.x = .fin xa) (hAy : A.y = .fin ya) (hBx : B.x = .fin xb) (hBy : B.y = .fin yb)
    (hAr : A.radius = .fin rA) (hBr : B.radius = .fin rB)
    (hd : d = Real.sqrt ((xa - xb) * (xa - xb) + (ya - yb) * (ya - yb))) :
    (0 < d → d < rA + rB + 15 →
      (∀ w, repel Real.sqrt A w B
        = (w.1 + .fin ((xa - xb) / d * ((rA + rB + 15 - d) / (rA + rB + 15)) * 1.2),
           w.2 + .fin ((ya - yb) / d * ((rA + rB + 15 - d) / (rA + rB + 15)) * 1.2))) ∧
      (∀ w, repel Real.sqrt B w A
        = (w.1 + .fin (-((xa - xb) / d * ((rA + rB + 15 - d) / (rA + rB + 15)) * 1.2)),
           w.2 + .fin (-((ya - yb) / d * ((rA + rB + 15 - d) / (rA + rB + 15)) * 1.2)))) ∧
      0 < (rA + rB + 15 - d) / (rA + rB + 15) * 1.2 / d ∧
      (xa - xb) / d * ((rA + rB + 15 - d) / (rA + rB + 15)) * 1.2
        = (rA + rB + 15 - d) / (rA + rB + 15) * 1.2 / d * (xa - xb) ∧
      (ya - yb) / d * ((rA + rB + 15 - d) / (rA + rB + 15)) * 1.2
        = (rA + rB + 15 - d) / (rA + rB + 15) * 1.2 / d * (ya - yb) ∧
      Real.sqrt
        (((xa - xb) / d * ((rA + rB + 15 - d) / (rA + rB + 15)) * 1.2)
            * ((xa - xb) / d * ((rA + rB + 15 - d) / (rA + rB + 15)) * 1.2)
          + ((ya - yb) / d * ((rA + rB + 15 - d) / (rA + rB + 15)) * 1.2)
            * ((ya - yb) / d * ((rA + rB + 15 - d) / (rA + rB + 15)) * 1.2))
        = (rA + rB + 15 - d) / (rA + rB + 15) * 1.2) ∧
    (rA + rB + 15 ≤ d →
      (∀ w, repel Real.sqrt A w B = w) ∧ (∀ w, repel Real.sqrt B w A = w)) ∧
    (∀ (C : SimNode ℝ) (w : JSNum ℝ × JSNum ℝ), C.id = A.id → repel Real.sqrt A w C = w) ∧
    (∀ nodes : List (SimNode ℝ), truthyFixed A.fx = true →
      (updateNode Real.sqrt nodes A).vx = A.vx ∧ (updateNode Real.sqrt nodes A).vy = A.vy) ∧
    (∀ nodes : List (SimNode ℝ), truthyFixed A.fx = false →
      (updateNode Real.sqrt nodes A).vx
        = (nodes.foldl (repel Real.sqrt A) (attract Real.sqrt nodes A)).1 * .fin 0.90 ∧
      (updateNode Real.sqrt nodes A).vy
        = (nodes.foldl (repel Real.sqrt A) (attract Real.sqrt nodes A)).2 * .fin 0.90) := by
  have hd' : Real.sqrt ((xb - xa) * (xb - xa) + (yb - ya) * (yb - ya)) = d := by
    rw [hd]
    congr 1
    ring
  refine ⟨fun hpos hlt => ?_, fun hge => ?_, fun C w hC => ?_, fun nodes hfx => ?_,
    fun nodes hfx => ?_⟩
  · have hm : 0 < rA + rB + 15 := lt_trans hpos hlt
    have hd0 : d ≠ 0 := hpos.ne.symm
    have hf : 0 < (rA + rB + 15 - d) / (rA + rB + 15) := div_pos (by linarith) hm
    have hsq : d * d = (xa - xb) * (xa - xb) + (ya - yb) * (ya - yb) := by
      rw [hd]
      exact Real.mul_self_sqrt (add_nonneg (mul_self_nonneg _) (mul_self_nonneg _))
    refine ⟨fun w => repel_in_range A B xa ya xb yb rA rB d hid hAx hAy hBx hBy hAr hBr
      hd.symm hpos hlt w, fun w => ?_, by positivity, by ring, by ring, ?_⟩
    · rw [repel_in_range B A xb yb xa ya rB rA d (Ne.symm hid) hBx hBy hAx hAy hBr hAr hd' hpos
        (by linarith) w]
      have e : rB + rA + 15 = rA + rB + 15 := by ring
      rw [e]
      congr 3 <;> ring
    · have e : ((xa - xb) / d * ((rA + rB + 15 - d) / (rA + rB + 15)) * 1.2)
            * ((xa - xb) / d * ((rA + rB + 15 - d) / (rA + rB + 15)) * 1.2)
          + ((ya - yb) / d * ((rA + rB + 15 - d) / (rA + rB + 15)) * 1.2)
            * ((ya - yb) / d * ((rA + rB + 15 - d) / (rA + rB + 15)) * 1.2)
          = ((rA + rB + 15 - d) / (rA + rB + 15) * 1.2)
            * ((rA + rB + 15 - d) / (rA + rB + 15) * 1.2) := by
        have h1 : ((xa - xb) * (xa - xb) + (ya - yb) * (ya - yb)) / (d * d) = 1 := by
          rw [← hsq]
          exact div_self (mul_ne_zero hd0 hd0)
        calc _ = (((xa - xb) * (xa - xb) + (ya - yb) * (ya - yb)) / (d * d))
              * (((rA + rB + 15 - d) / (rA + rB + 15) * 1.2)
                * ((rA + rB + 15 - d) / (rA + rB + 15) * 1.2)) := by
                field_simp
                ring
          _ = _ := by rw [h1, one_mul]
      rw [e]
      exact Real.sqrt_mul_self (by positivity)
  · have hA : ∀ w, repel Real.sqrt A w B = w := by
      intro w
      simp only [repel, if_neg hid, hAx, hAy, hBx, hBy, hAr, hBr, JSNum.fin_sub, JSNum.fin_mul,
        JSNum.fin_add, sqrt_dist_fin, ← hd, JSNum.lt_fin, not_lt.mpr hge, decide_False,
        Bool.false_eq_true, if_false]
    have hB : ∀ w, repel Real.sqrt B w A = w := by
      intro w
      have hge' : rB + rA + 15 ≤ d := by linarith
      simp only [repel, if_neg (Ne.symm hid), hAx, hAy, hBx, hBy, hAr, hBr, JSNum.fin_sub,
        JSNum.fin_mul, JSNum.fin_add, sqrt_dist_fin, hd', JSNum.lt_fin, not_lt.mpr hge',
        decide_False, Bool.false_eq_true, if_false]
    exact ⟨hA, hB⟩
  · simp [repel, hC]
  · simp only [updateNode, hfx, if_true, and_self]
  · simp only [updateNode, hfx, Bool.false_eq_true, if_false, and_self]

/-- Two loose nodes 10 apart, within the minimal distance 27: the push on the first. -/
theorem repulsion_term_witness :
    (10 : ℝ) = Real.sqrt ((410 - 420) * (410 - 420) + (300 - 300) * (300 - 300)) ∧
    repel Real.sqrt (looseNode "a" (410 : ℝ) 0) (.fin 0, .fin 0) (looseNode "b" 420 0)
      = (.fin 0 + .fin ((410 - 420) / 10 * ((6 + 6 + 15 - 10) / (6 + 6 + 15)) * 1.2),
         .fin 0 + .fin ((300 - 300) / 10 * ((6 + 6 + 15 - 10) / (6 + 6 + 15)) * 1.2)) :=
  have hd : (10 : ℝ) = Real.sqrt ((410 - 420) * (410 - 420) + (300 - 300) * (300 - 300)) := by
    have e : ((410 : ℝ) - 420) * (410 - 420) + (300 - 300) * (300 - 300) = 10 * 10 := by
      norm_num
    rw [e, Real.sqrt_mul_self (by norm_num)]
  ⟨hd, ((repulsion_term (looseNode "a" 410 0) (looseNode "b" 420 0) 410 300 420 300 6 6 10
    (by decide) rfl rfl rfl rfl rfl rfl hd).1 (by norm_num) (by norm_num)).1 (.fin 0, .fin 0)⟩

/-- C21, the claim as worded fails for the pair as a whole, because the second node of
a pair is visited after the first has moved.  Two loose nodes of radius 6 at (410, 300)
and (420, 300) are 10 apart, within 6 + 6 + 15 = 27, but the first moves away at speed
100 and the second, visited next, reads it 100.68 away and receives nothing: the step
leaves it as it is.  Two loose nodes at (390, 300) and (420, 300) are 30 apart, not
within 27, but the first approaches at speed 10 and the second reads it 21 away and is
pushed. -/
theorem repulsion_pair_counterexample :
    (Real.sqrt (((410 : ℝ) - 420) * (410 - 420) + (300 - 300) * (300 - 300)) = 10 ∧
      (10 : ℝ) < 6 + 6 + 15 ∧
      (looseNode "b" (420 : ℝ) 0).pinned = false ∧
      animate Real.sqrt [looseNode "a" (410 : ℝ) (-100), looseNode "b" 420 0]
        = [looseNode "a" (410 + -2267 / 25) (-2267 / 25), looseNode "b" 420 0]) ∧
    (Real.sqrt (((390 : ℝ) - 420) * (390 - 420) + (300 - 300) * (300 - 300)) = 30 ∧
      (6 : ℝ) + 6 + 15 ≤ 30 ∧
      animate Real.sqrt [looseNode "a" (390 : ℝ) 10, looseNode "b" 420 0]
        = [looseNode "a" (390 + 9) 9, looseNode "b" (420 + 6 / 25) (6 / 25)]) := by
  have habs : ∀ u : ℝ, 0 < u → |u| = u := fun u hu => abs_of_pos hu
  have habsn : ∀ u : ℝ, u < 0 → |u| = -u := fun u hu => abs_of_neg hu
  have hd1 : Real.sqrt (((410 : ℝ) - 420) * (410 - 420) + (300 - 300) * (300 - 300)) = 10 := by
    rw [sqrt_on_line, habsn _ (by norm_num)]
    norm_num
  have hd2 : Real.sqrt (((390 : ℝ) - 420) * (390 - 420) + (300 - 300) * (300 - 300)) = 30 := by
    rw [sqrt_on_line, habsn _ (by norm_num)]
    norm_num
  have ha1 : updateNode Real.sqrt [looseNode "a" (410 : ℝ) (-100), looseNode "b" 420 0]
      (looseNode "a" 410 (-100)) = looseNode "a" (410 + -2267 / 25) (-2267 / 25) :=
    updateNode_loose_moving "a" "b" 410 420 (-100) 0 _ _ (Or.inl rfl) (by decide) (by norm_num)
      (by rw [habsn _ (by norm_num)]; norm_num) (by rw [habsn _ (by norm_num)]; norm_num)
  have hb1 : updateNode Real.sqrt
      [looseNode "a" ((410 : ℝ) + -2267 / 25) (-2267 / 25), looseNode "b" 420 0]
      (looseNode "b" 420 0) = looseNode "b" 420 0 := by
    have h := updateNode_loose_moving "b" "a" 420 (410 + -2267 / 25) 0 (-2267 / 25) 0 _
      (Or.inr rfl) (by decide) (by norm_num) (by rw [habsn _ (by norm_num)]; norm_num)
      (by rw [habs _ (by norm_num)]; norm_num)
    rw [add_zero] at h
    exact h
  have ha2 : updateNode Real.sqrt [looseNode "a" (390 : ℝ) 10, looseNode "b" 420 0]
      (looseNode "a" 390 10) = looseNode "a" (390 + 9) 9 :=
    updateNode_loose_moving "a" "b" 390 420 10 0 _ _ (Or.inl rfl) (by decide) (by norm_num)
      (by rw [habs _ (by norm_num)]; norm_num) (by rw [habsn _ (by norm_num)]; norm_num)
  have hb2 : updateNode Real.sqrt [looseNode "a" ((390 : ℝ) + 9) 9, looseNode "b" 420 0]
      (looseNode "b" 420 0) = looseNode "b" (420 + 6 / 25) (6 / 25) :=
    updateNode_loose_moving "b" "a" 420 (390 + 9) 0 9 _ _ (Or.inr rfl) (by decide)
      (by norm_num) (by rw [habsn _ (by norm_num)]; norm_num)
      (by rw [habs _ (by norm_num)]; norm_num)
  refine ⟨⟨hd1, by norm_num, rfl, ?_⟩, hd2, by norm_num, ?_⟩
  · simp only [animate, animateFrom, List.nil_append, List.cons_append, ha1, hb1]
  · simp only [animate, animateFrom, List.nil_append, List.cons_append, ha2, hb2]

end RepulsionTheorems

section DampingTheorems

/-- C22: for a node that is not pinned, with finite velocity `v`, finite position `p`
and the velocity accumulated by attraction and repulsion in its visit equal to `v + F`,
the step yields velocity `v' = 0.9 * (v + F)` and position `p' = p + v'`, every other
field unchanged; with `F = 0` the velocity is `0.9 * v` and the speed is multiplied by
exactly 0.9, and with `v = 0` and `F = 0` the node is left unchanged.  Whatever the
numbers are, the new velocity is the accumulated velocity times 0.90 and the new
position the old position plus the new velocity. -/
theorem damping_then_integration (nodes : List (SimNode ℝ)) (node : SimNode ℝ)
    (vx vy px py Fx Fy : ℝ) (hfree : truthyFixed node.fx = false)
    (hvx : node.vx = .fin vx) (hvy : node.vy = .fin vy)
    (hx : node.x = .fin px) (hy : node.y = .fin py)
    (hF : nodes.foldl (repel Real.sqrt node) (attract Real.sqrt nodes node)
      = (.fin (vx + Fx), .fin (vy + Fy))) :
    updateNode Real.sqrt nodes node
      = { node with vx := .fin (0.9 * (vx + Fx)), vy := .fin (0.9 * (vy + Fy)),
                    x := .fin (px + 0.9 * (vx + Fx)), y := .fin (py + 0.9 * (vy + Fy)) } ∧
    (Fx = 0 → Fy = 0 →
      (updateNode Real.sqrt nodes node).vx = .fin (0.9 * vx) ∧
      (updateNode Real.sqrt nodes node).vy = .fin (0.9 * vy) ∧
      Real.sqrt ((0.9 * vx) * (0.9 * vx) + (0.9 * vy) * (0.9 * vy))
        = 0.9 * Real.sqrt (vx * vx + vy * vy)) ∧
    (vx = 0 → vy = 0 → Fx = 0 → Fy = 0 → updateNode Real.sqrt nodes node = node) ∧
    (updateNode Real.sqrt nodes node).vx
      = (nodes.foldl (repel Real.sqrt node) (attract Real.sqrt nodes node)).1 * .fin 0.90 ∧
    (updateNode Real.sqrt nodes node).vy
      = (nodes.foldl (repel Real.sqrt node) (attract Real.sqrt nodes node)).2 * .fin 0.90 ∧
    (updateNode Real.sqrt nodes node).x = node.x + (updateNode Real.sqrt nodes node).vx ∧
    (updateNode Real.sqrt nodes node).y = node.y + (updateNode Real.sqrt nodes node).vy := by
  have h9 : ∀ u : ℝ, u * 0.90 = 0.9 * u := fun u => by ring
  have hupd : updateNode Real.sqrt nodes node
      = { node with vx := .fin (0.9 * (vx + Fx)), vy := .fin (0.9 * (vy + Fy)),
                    x := .fin (px + 0.9 * (vx + Fx)), y := .fin (py + 0.9 * (vy + Fy)) } := by
    simp only [updateNode, hfree, Bool.false_eq_true, if_false, hF, hx, hy, JSNum.fin_mul,
      JSNum.fin_add, h9]
  refine ⟨hupd, fun h1 h2 => ?_, fun h1 h2 h3 h4 => ?_, ?_, ?_, ?_, ?_⟩
  · subst h1 h2
    rw [hupd]
    refine ⟨by simp, by simp, ?_⟩
    have e : (0.9 * vx) * (0.9 * vx) + (0.9 * vy) * (0.9 * vy)
        = (0.9 * 0.9) * (vx * vx + vy * vy) := by ring
    rw [e, Real.sqrt_mul (by norm_num), Real.sqrt_mul_self (by norm_num)]
  · subst h1 h2 h3 h4
    rw [hupd]
    cases node
    simp only [SimNode.mk.injEq, true_and, and_true] at hvx hvy hx hy ⊢
    simp_all
  · simp only [updateNode, hfree, Bool.false_eq_true, if_false]
  · simp only [updateNode, hfree, Bool.false_eq_true, if_false]
  · simp only [updateNode, hfree, Bool.false_eq_true, if_false]
  · simp only [updateNode, hfree, Bool.false_eq_true, if_false]

/-- A loose node at (410, 300) moving at (5, 0), pushed by a loose node at (420, 300):
`F = (-34/45, 0)`. -/
theorem damping_then_integration_witness :
    truthyFixed (looseNode "a" (410 : ℝ) 5).fx = false ∧
    [looseNode "a" (410 : ℝ) 5, looseNode "b" 420 0].foldl
        (repel Real.sqrt (looseNode "a" 410 5))
        (attract Real.sqrt [looseNode "a" 410 5, looseNode "b" 420 0] (looseNode "a" 410 5))
      = (.fin (5 + -34 / 45), .fin (0 + 0)) ∧
    updateNode Real.sqrt [looseNode "a" (410 : ℝ) 5, looseNode "b" 420 0] (looseNode "a" 410 5)
      = { looseNode "a" (410 : ℝ) 5 with
            vx := .fin (0.9 * (5 + -34 / 45)), vy := .fin (0.9 * (0 + 0)),
            x := .fin (410 + 0.9 * (5 + -34 / 45)), y := .fin (300 + 0.9 * (0 + 0)) } :=
  have hF : [looseNode "a" (410 : ℝ) 5, looseNode "b" 420 0].foldl
        (repel Real.sqrt (looseNode "a" 410 5))
        (attract Real.sqrt [looseNode "a" 410 5, looseNode "b" 420 0] (looseNode "a" 410 5))
      = (.fin (5 + -34 / 45), .fin (0 + 0)) := by
    rw [attract_loose "a" 410 5 _ (by norm_num)]
    simp only [List.foldl_cons, List.foldl_nil, repel_self,
      repel_loose "a" "b" 410 420 5 0 5 0 (by decide) (by norm_num)]
    have habs : |(410 : ℝ) - 420| = 10 := by
      rw [abs_of_neg (by norm_num)]
      norm_num
    rw [habs]
    norm_num
  ⟨rfl, hF, (damping_then_integration [looseNode "a" 410 5, looseNode "b" 420 0]
    (looseNode "a" 410 5) 5 0 410 300 (-34 / 45) 0 rfl rfl rfl rfl rfl hF).1⟩

end DampingTheorems

end WPO
